import Mathlib

/-!
# DeffDred: simulation core of a fixed-tick grid shooter

A shallow embedding of `src/DeffDred.cpp` and theorems about it.

Conventions of the embedding:

* C++ `int` is modelled by `Int`. Every quantity of the game (positions, hit
  points, currency, timers) stays many orders of magnitude below `2^31` in any
  run, and signed overflow is undefined in C++, so no wrap-around is modelled.
* `std::vector<std::string>` footprints are `List (List Char)`.
* `std::set<char>` of pressed keys is a `List Char` queried with `contains`.
* The process-wide random generators are an explicit stream of raw draws with a
  cursor (`Rng`); `uniform_int_distribution(lo, hi)` maps a raw draw into
  `[lo, hi]`.
* A `for` loop with `break` / `continue` is a structurally recursive function
  over the list it walks.
* The `double` arithmetic of the spawn-interval scaling is IEEE 754 binary64
  with round-to-nearest-even, on exact integers (`f64Round`).
-/

namespace DeffDred

/-! ## Constants -/

def GRID_ROWS : Int := 20
def GRID_COLS : Int := 60
def FRAME_MS : Int := 60

/-! ## Upgrade kinds -/

inductive UpgradeType where
  | IncreaseHP
  | AttackSpeed
  | BulletSpeed
  | Damage
  | MoveSpeed
  | BulletsAmount
  | LifeSteal
  deriving DecidableEq, Repr

/-! ## Bullet -/

/-- A bullet: position, velocity and the character that tags its kind
(`'o'` PlayerShot, `'*'` EnemyShot, `'O'` BossOrb). -/
structure Bullet where
  x : Int
  y : Int
  dx : Int
  dy : Int
  symbol : Char
  deriving DecidableEq, Repr

/-- The method `Bullet::update`: `x += dx; y += dy`. -/
def Bullet.update (b : Bullet) : Bullet :=
  { b with x := b.x + b.dx, y := b.y + b.dy }

/-- The method `Bullet::isOutOfBounds`. -/
def Bullet.isOutOfBounds (b : Bullet) : Bool :=
  decide (b.x < 0) || decide (b.x ≥ GRID_COLS) || decide (b.y < 0) || decide (b.y ≥ GRID_ROWS)

/-! ## Footprints -/

/-- Non-blank cells of one footprint row, as `(sx, sy)` offsets, scanning the
row left to right starting at column `sx`. -/
def rowCells (sy : Int) : Int → List Char → List (Int × Int)
  | _, [] => []
  | sx, c :: cs =>
    if c = ' ' then rowCells sy (sx + 1) cs else (sx, sy) :: rowCells sy (sx + 1) cs

/-- Non-blank cells of a footprint in the order the nested `for` loops visit
them (rows top to bottom starting at row `sy`, columns left to right). -/
def shapeCells : Int → List (List Char) → List (Int × Int)
  | _, [] => []
  | sy, row :: rows => rowCells sy 0 row ++ shapeCells (sy + 1) rows

/-! ## Player -/

/-- The class `Player` (its constant `shape` is `Player.shape`). -/
structure Player where
  x : Int
  y : Int
  hp : Int := 10
  maxHp : Int := 10
  money : Int := 0
  maxMoney : Int := 100
  fireCooldownMs : Int := 500
  bulletSpeed : Int := -1
  damage : Int := 10
  moveSpeed : Int := 1
  bulletStreams : Int := 1
  lifeStealPercent : Int := 0
  deriving DecidableEq, Repr

/-- The footprint of the player: two rows of three characters, blank-A-blank
and slash-V-backslash. -/
def Player.shape : List (List Char) :=
  [[' ', 'A', ' '], ['/', 'V', Char.ofNat 92]]

/-- The four guarded moves of `Player::move` (lines 78-81). -/
def Player.stepKeys (p : Player) (inputs : List Char) : Player :=
  let p := if inputs.contains 'w' && decide (p.y > 0) then { p with y := p.y - p.moveSpeed } else p
  let p := if inputs.contains 's' && decide (p.y < GRID_ROWS - 2) then
    { p with y := p.y + p.moveSpeed } else p
  let p := if inputs.contains 'a' && decide (p.x > 0) then { p with x := p.x - p.moveSpeed } else p
  let p := if inputs.contains 'd' && decide (p.x < GRID_COLS - 3) then
    { p with x := p.x + p.moveSpeed } else p
  p

/-- The four clamps of `Player::move` (lines 82-85). -/
def Player.clamp (p : Player) : Player :=
  let p := if p.x < 0 then { p with x := 0 } else p
  let p := if p.x > GRID_COLS - 3 then { p with x := GRID_COLS - 3 } else p
  let p := if p.y < 0 then { p with y := 0 } else p
  let p := if p.y > GRID_ROWS - 2 then { p with y := GRID_ROWS - 2 } else p
  p

/-- The method `Player::move`: the guarded moves, then the clamps. -/
def Player.move (p : Player) (inputs : List Char) : Player :=
  (p.stepKeys inputs).clamp

/-- The method `Player::collides`: the bullet's cell is exactly one of the
non-blank footprint cells. -/
def Player.collides (p : Player) (b : Bullet) : Bool :=
  (shapeCells 0 Player.shape).any fun c => decide (b.x = p.x + c.1) && decide (b.y = p.y + c.2)

/-! ## Random draws -/

/-- A random generator: an arbitrary stream of raw draws and a cursor. -/
structure Rng where
  stream : Nat → Nat
  pos : Nat

/-- One draw of `uniform_int_distribution<int>(lo, hi)`. -/
def Rng.uniform (g : Rng) (lo hi : Int) : Int × Rng :=
  (lo + (g.stream g.pos : Int) % (hi - lo + 1), { g with pos := g.pos + 1 })

/-- The distribution `dirDist(-1, 1)` of `Enemy::update`. -/
def dirDist (g : Rng) : Int × Rng := g.uniform (-1) 1

/-! ## Enemies -/

/-- The dynamic type of an enemy object. -/
inductive EnemyKind where
  | Basic
  | Ray
  | Boss
  deriving DecidableEq, Repr

/-- The enumeration `RayEnemy::State`. -/
inductive RayState where
  | Cooldown
  | Flashing
  | Firing
  deriving DecidableEq, Repr

def RayEnemy.FLASH_FRAMES : Int := Int.tdiv (1000 + FRAME_MS - 1) FRAME_MS
def RayEnemy.FIRE_FRAMES : Int := Int.tdiv (1500 + FRAME_MS - 1) FRAME_MS
def RayEnemy.COOLDOWN_FRAMES : Int := Int.tdiv (4000 + FRAME_MS - 1) FRAME_MS
def RayEnemy.DAMAGE : Int := 2

/-- The class `Enemy` together with the fields its subclass `RayEnemy` adds
(`state`, `timer`, `playerDamagedThisFire`); `kind` records the dynamic type
that `dynamic_cast` and virtual dispatch inspect. -/
structure Enemy where
  kind : EnemyKind := EnemyKind.Basic
  x : Int
  y : Int
  hp : Int := 10
  maxHp : Int := 10
  fireCooldown : Int := 60
  fireTimer : Int := 0
  dx : Int := 0
  dy : Int := 0
  moveTimer : Int := 0
  moveFrameCounter : Int := 0
  burstSteps : Int := 0
  pauseTimer : Int := 0
  shape : List (List Char) := [['#']]
  state : RayState := RayState.Cooldown
  timer : Int := RayEnemy.COOLDOWN_FRAMES
  playerDamagedThisFire : Bool := false
  deriving DecidableEq, Repr

/-- The constructor `Enemy(x, y)`. -/
def Enemy.new (x y : Int) : Enemy := { x := x, y := y }

/-- The constructor `RayEnemy(x, y)`. -/
def RayEnemy.new (x y : Int) : Enemy :=
  { kind := EnemyKind.Ray, x := x, y := y, shape := [['@']], hp := 20, maxHp := 20 }

/-- The constructor `Boss(x, y)`. -/
def Boss.new (x y : Int) : Enemy :=
  { kind := EnemyKind.Boss, x := x, y := y, shape := [['<', '#', '>'], [' ', 'V']],
    hp := 150, maxHp := 150, fireCooldown := 60 }

/-- The method `Enemy::isAlive`. -/
def Enemy.isAlive (e : Enemy) : Bool := decide (e.hp > 0)

/-- The statement `if (fireTimer > 0) fireTimer--;` of `Enemy::update`. -/
def Enemy.decFireTimer (e : Enemy) : Enemy :=
  if e.fireTimer > 0 then { e with fireTimer := e.fireTimer - 1 } else e

/-- The block `if (burstSteps <= 0) ...` of `Enemy::update`: draw a direction,
commit to 5 steps and set the pause timer to 16. -/
def Enemy.pickBurst (e : Enemy) (g : Rng) : Enemy × Rng :=
  if e.burstSteps ≤ 0 then
    let r1 := dirDist g
    let r2 := dirDist r1.2
    ({ e with dx := r1.1, dy := r2.1, burstSteps := 5, pauseTimer := 16 }, r2.2)
  else (e, g)

/-- The statements `moveFrameCounter++; if (moveFrameCounter >= 3) ...` of
`Enemy::update`. -/
def Enemy.stepMove (e : Enemy) : Enemy :=
  let e : Enemy := { e with moveFrameCounter := e.moveFrameCounter + 1 }
  if e.moveFrameCounter ≥ 3 then
    { e with x := e.x + e.dx, y := e.y + e.dy, moveFrameCounter := 0,
             burstSteps := e.burstSteps - 1 }
  else e

/-- The clamp on `x` of `Enemy::update`. -/
def Enemy.clampX (e : Enemy) : Enemy :=
  let e := if e.x < 0 then { e with x := 0 } else e
  if e.x > GRID_COLS - 1 then { e with x := GRID_COLS - 1 } else e

/-- The clamp on `y` of `Enemy::update`. -/
def Enemy.clampY (e : Enemy) : Enemy :=
  let e := if e.y < 0 then { e with y := 0 } else e
  if e.y > GRID_ROWS - 1 then { e with y := GRID_ROWS - 1 } else e

/-- The base-class method `Enemy::update`, its statements in source order. -/
def Enemy.update (e : Enemy) (g : Rng) : Enemy × Rng :=
  if e.pauseTimer > 0 then
    (Enemy.decFireTimer { e with pauseTimer := e.pauseTimer - 1 }, g)
  else
    let eg := Enemy.pickBurst e g
    (Enemy.decFireTimer (Enemy.clampY (Enemy.clampX (Enemy.stepMove eg.1))), eg.2)

/-- The override `RayEnemy::update`. -/
def RayEnemy.update (e : Enemy) (g : Rng) : Enemy × Rng :=
  match e.state with
  | RayState.Cooldown =>
    let eg := Enemy.update e g
    let e : Enemy := { eg.1 with timer := eg.1.timer - 1 }
    if e.timer ≤ 0 then
      ({ e with state := RayState.Flashing, timer := RayEnemy.FLASH_FRAMES }, eg.2)
    else (e, eg.2)
  | RayState.Flashing =>
    let e : Enemy := { e with timer := e.timer - 1 }
    if e.timer ≤ 0 then
      ({ e with state := RayState.Firing, timer := RayEnemy.FIRE_FRAMES,
                playerDamagedThisFire := false }, g)
    else (e, g)
  | RayState.Firing =>
    let e : Enemy := { e with timer := e.timer - 1 }
    if e.timer ≤ 0 then
      ({ e with state := RayState.Cooldown, timer := RayEnemy.COOLDOWN_FRAMES,
                playerDamagedThisFire := false }, g)
    else (e, g)

/-- Virtual dispatch of `update`. -/
def Enemy.vUpdate (e : Enemy) (g : Rng) : Enemy × Rng :=
  match e.kind with
  | EnemyKind.Ray => RayEnemy.update e g
  | _ => Enemy.update e g

/-- Virtual dispatch of `canFire`: `fireTimer == 0`, overridden to `false`
by `RayEnemy`. -/
def Enemy.canFire (e : Enemy) : Bool :=
  match e.kind with
  | EnemyKind.Ray => false
  | _ => decide (e.fireTimer = 0)

/-- Virtual dispatch of `resetFire`: `fireTimer = fireCooldown`, overridden to
do nothing by `RayEnemy`. -/
def Enemy.resetFire (e : Enemy) : Enemy :=
  match e.kind with
  | EnemyKind.Ray => e
  | _ => { e with fireTimer := e.fireCooldown }

/-- Virtual dispatch of `isRayEnemy`. -/
def Enemy.isRayEnemy (e : Enemy) : Bool := decide (e.kind = EnemyKind.Ray)

/-- The method `RayEnemy::isFlashing`. -/
def Enemy.isFlashing (e : Enemy) : Bool := decide (e.state = RayState.Flashing)

/-- The method `RayEnemy::isFiring`. -/
def Enemy.isFiring (e : Enemy) : Bool := decide (e.state = RayState.Firing)

/-! ## Scripted bullets -/

/-- The struct `BulletSpawn`. -/
structure BulletSpawn where
  time : Int
  x : Int
  y : Int
  dx : Int
  dy : Int
  deriving DecidableEq, Repr

/-- The class `BulletManager`: the schedule and the cursor into it. -/
structure BulletManager where
  spawns : List BulletSpawn := []
  nextSpawn : Nat := 0
  deriving DecidableEq, Repr

/-- The `while` loop of `spawnBullets`, walking the records from the cursor on. -/
def spawnLoop (frame : Int) : List BulletSpawn → Nat → List Bullet → Nat × List Bullet
  | [], n, bs => (n, bs)
  | s :: rest, n, bs =>
    if s.time ≤ frame then
      spawnLoop frame rest (n + 1) (bs ++ [{ x := s.x, y := s.y, dx := s.dx, dy := s.dy, symbol := '*' }])
    else (n, bs)

/-- The method `BulletManager::spawnBullets`. -/
def BulletManager.spawnBullets (m : BulletManager) (frame : Int) (bullets : List Bullet) :
    BulletManager × List Bullet :=
  let r := spawnLoop frame (m.spawns.drop m.nextSpawn) m.nextSpawn bullets
  ({ m with nextSpawn := r.1 }, r.2)

/-! ### Loading the pattern -/

/-- The classification `std::isspace` of the default locale: space, tab, line
feed, vertical tab, form feed, carriage return. -/
def isSpace (c : Char) : Bool :=
  decide (c.toNat = 32) || (decide (9 ≤ c.toNat) && decide (c.toNat ≤ 13))

/-- Skip leading whitespace, as formatted extraction does. -/
def skipSpaces : List Char → List Char
  | [] => []
  | c :: cs => if isSpace c = true then skipSpaces cs else c :: cs

/-- Read a run of decimal digits, accumulating their value. -/
def readDigits : Nat → List Char → Nat × List Char
  | acc, [] => (acc, [])
  | acc, c :: cs =>
    if c.isDigit = true then readDigits (acc * 10 + (c.toNat - 48)) cs else (acc, c :: cs)

/-- One extraction `iss >> n` of an `int`: optional whitespace, an optional
sign, at least one digit; the value must fit an `int`. Returns the value and
the rest of the line, or `none` when the extraction fails. -/
def readInt (s : List Char) : Option (Int × List Char) :=
  let s := skipSpaces s
  let signed : Bool × List Char :=
    match s with
    | c :: r => if c = '-' then (true, r) else if c = '+' then (false, r) else (false, c :: r)
    | [] => (false, [])
  match signed.2 with
  | [] => none
  | c :: r =>
    if c.isDigit = true then
      let d := readDigits 0 (c :: r)
      let v : Int := if signed.1 = true then -(d.1 : Int) else (d.1 : Int)
      if -2147483648 ≤ v ∧ v ≤ 2147483647 then some (v, d.2) else none
    else none

/-- The extraction `iss >> time >> x >> y >> dx >> dy` of one line. -/
def parseLine (line : List Char) : Option BulletSpawn :=
  match readInt line with
  | none => none
  | some (time, r1) =>
    match readInt r1 with
    | none => none
    | some (x, r2) =>
      match readInt r2 with
      | none => none
      | some (y, r3) =>
        match readInt r3 with
        | none => none
        | some (dx, r4) =>
          match readInt r4 with
          | none => none
          | some (dy, _) => some { time := time, x := x, y := y, dx := dx, dy := dy }

/-- The `while (std::getline(file, line))` loop of `loadPattern` over the
lines of the file. Returns the records pushed so far and whether the loop
ended by the `throw` of line 116. -/
def loadLines : List BulletSpawn → List (List Char) → List BulletSpawn × Bool
  | spawns, [] => (spawns, false)
  | spawns, line :: rest =>
    if line = [] ∨ line.head? = some '#' then loadLines spawns rest
    else
      match parseLine line with
      | none => (spawns, true)
      | some s => loadLines (spawns ++ [s]) rest

/-- The two exceptions `loadPattern` throws. -/
inductive LoadError where
  | notFound
  | invalidFormat
  deriving DecidableEq, Repr

/-- The method `BulletManager::loadPattern`. `file` is `none` when the file
cannot be opened, else its lines. Returns the manager as the call leaves it and
the exception thrown, if any: the records pushed before a `throw` stay in
`spawns`, and the sort is reached only without one. The sort of equal trigger
frames is left open by `std::sort`; the model keeps their file order. -/
def BulletManager.loadPattern (m : BulletManager) (file : Option (List (List Char))) :
    BulletManager × Option LoadError :=
  match file with
  | none => (m, some LoadError.notFound)
  | some lines =>
    let r := loadLines m.spawns lines
    if r.2 = true then ({ m with spawns := r.1 }, some LoadError.invalidFormat)
    else ({ m with spawns := r.1.insertionSort fun a b => a.time ≤ b.time }, none)

/-! ## Enemy or boss bullets against the player (lines 443-454) -/

/-- The loop `for (const auto& b : bullets)` that applies enemy and boss
bullets to the player; carries the player and the `running` flag and stops at
the `break`. -/
def bulletsVsPlayer : Player → Bool → List Bullet → Player × Bool
  | p, running, [] => (p, running)
  | p, running, b :: bs =>
    if (b.symbol = '*' ∨ b.symbol = 'O') ∧ p.collides b = true then
      let dmg : Int := if b.symbol = 'O' then 3 else 1
      let newHp : Int := p.hp - dmg
      let newHp : Int := if newHp < 0 then 0 else newHp
      let p : Player := { p with hp := newHp }
      if p.hp ≤ 0 then (p, false) else bulletsVsPlayer p running bs
    else bulletsVsPlayer p running bs

/-! ## Enemy update and fire (lines 455-497) -/

/-- The table `dirs` of the boss burst. -/
def bossDirs : List (Int × Int) :=
  [(0, -2), (2, 0), (0, 2), (-2, 0),
   (2, -2), (2, 2), (-2, 2), (-2, -2),
   (2, -1), (1, -2), (2, 1), (1, 2),
   (-2, 1), (-1, 2), (-2, -1), (-1, -2)]

/-- The loop `for (int i = 0; i < 16; ++i)` of the boss burst. -/
def bossBurst (cx cy : Int) : List (Int × Int) → List Bullet → List Bullet
  | [], bullets => bullets
  | d :: ds, bullets =>
    if cx ≥ 0 ∧ cx < GRID_COLS ∧ cy ≥ 0 ∧ cy < GRID_ROWS then
      bossBurst cx cy ds (bullets ++ [{ x := cx, y := cy, dx := d.1, dy := d.2, symbol := 'O' }])
    else bossBurst cx cy ds bullets

/-- The default enemy fire: one bullet aimed at the player. -/
def aimedBullet (player : Player) (e : Enemy) : Bullet :=
  let px := player.x + 1
  let py := player.y + 1
  let ex := e.x + 1
  let ey := e.y + 1
  let dx : Int := px - ex
  let dy : Int := py - ey
  let dx : Int := if dx < 0 then -1 else if dx > 0 then 1 else 0
  let dy : Int := if dy < 0 then -1 else if dy > 0 then 1 else 0
  let dy : Int := if py > ey then 1 else dy
  { x := e.x, y := e.y + 1, dx := dx, dy := dy, symbol := '*' }

/-- The body of the enemy update loop for one enemy. -/
def updateEnemy (player : Player) (g : Rng) (bullets : List Bullet) (e : Enemy) :
    Rng × List Bullet × Enemy :=
  if e.isAlive = false then (g, bullets, e)
  else
    let eg := e.vUpdate g
    let e := eg.1
    if e.canFire = true then
      if e.kind = EnemyKind.Boss then
        (eg.2, bossBurst (e.x + 1) (e.y + 0) bossDirs bullets, e.resetFire)
      else
        (eg.2, bullets ++ [aimedBullet player e], e.resetFire)
    else (eg.2, bullets, e)

/-- The loop `for (auto& enemyPtr : enemies)` of update and fire. -/
def updateEnemies (player : Player) : Rng → List Bullet → List Enemy → Rng × List Bullet × List Enemy
  | g, bullets, [] => (g, bullets, [])
  | g, bullets, e :: es =>
    let r := updateEnemy player g bullets e
    let t := updateEnemies player r.1 r.2.1 es
    (t.1, t.2.1, r.2.2 :: t.2.2)

/-! ## Player bullets against enemies (lines 499-546) -/

/-- State carried through the scan of the bullets against one enemy. -/
structure Scan where
  player : Player
  score : Int
  enemy : Enemy
  enemyDied : Bool
  deriving DecidableEq, Repr

/-- The life-steal block (lines 528-534). -/
def lifeSteal (p : Player) (dealt : Int) : Player :=
  if dealt > 0 ∧ p.lifeStealPercent > 0 then
    let heal : Int := Int.tdiv (dealt * p.lifeStealPercent) 100
    if heal > 0 then
      let newHp : Int := p.hp + heal
      { p with hp := if newHp > p.maxHp then p.maxHp else newHp }
    else p
  else p

/-- The hit test of line 516 for the footprint cell at offset `c`. -/
def withinOne (e : Enemy) (b : Bullet) (c : Int × Int) : Bool :=
  let ex := e.x + c.1
  let ey := e.y + c.2
  decide ((if b.x > ex then b.x - ex else ex - b.x) + (if b.y > ey then b.y - ey else ey - b.y) ≤ 1)

/-- The local `dmg` of lines 519-520: the player damage, floored at 0. -/
def hitDmg (p : Player) : Int := if p.damage < 0 then 0 else p.damage

/-- The local `dealt` of lines 521-522: the smaller of the pre-hit hit points
and `dmg`, floored at 0. -/
def hitDealt (beforeHp dmg : Int) : Int :=
  let dealt : Int := if beforeHp < dmg then beforeHp else dmg
  if dealt < 0 then 0 else dealt

/-- The block guarded by the hit test (lines 517-541): damage the enemy, mark
the bullet spent, heal by life steal, reward a lethal hit; returns the scan,
the bullet and the flag `damaged`. -/
def hitApply (s : Scan) (b : Bullet) : Scan × Bullet × Bool :=
  let beforeHp : Int := s.enemy.hp
  let dmg : Int := hitDmg s.player
  let dealt : Int := hitDealt beforeHp dmg
  let enemy : Enemy := { s.enemy with hp := s.enemy.hp - dmg }
  let bullet : Bullet := { b with x := -100 }
  let player : Player := lifeSteal s.player dealt
  if beforeHp > 0 ∧ enemy.hp ≤ 0 then
    ({ player := { player with money := player.money + 10 }, score := s.score + 50,
       enemy := enemy, enemyDied := true }, bullet, true)
  else
    ({ s with player := player, enemy := enemy }, bullet, true)

/-- The body of the innermost loop for one non-blank footprint cell
(lines 512-542). -/
def hitCell (s : Scan) (b : Bullet) (c : Int × Int) : Scan × Bullet × Bool :=
  if withinOne s.enemy b c = true then hitApply s b else (s, b, false)

/-- The two nested footprint loops, flattened over the non-blank cells; both
loop conditions carry `&& !damaged`. -/
def hitCells : Scan → Bullet → Bool → List (Int × Int) → Scan × Bullet × Bool
  | s, b, damaged, [] => (s, b, damaged)
  | s, b, damaged, c :: cs =>
    if damaged = true then (s, b, damaged)
    else
      let r := hitCell s b c
      hitCells r.1 r.2.1 r.2.2 cs

/-- The loop `for (auto& b : bullets)` against one enemy: `break` once the
enemy died, `continue` on bullets that are not player shots. -/
def hitBullets : Scan → List Bullet → Scan × List Bullet
  | s, [] => (s, [])
  | s, b :: bs =>
    if s.enemyDied = true then (s, b :: bs)
    else if b.symbol ≠ 'o' then
      let t := hitBullets s bs
      (t.1, b :: t.2)
    else
      let r := hitCells s b false (shapeCells 0 s.enemy.shape)
      let t := hitBullets r.1 bs
      (t.1, r.2.1 :: t.2)

/-- The body of the outer loop for one enemy. -/
def damageEnemy (player : Player) (score : Int) (bullets : List Bullet) (e : Enemy) :
    Player × Int × List Bullet × Enemy :=
  if e.isAlive = false then (player, score, bullets, e)
  else
    let r := hitBullets { player := player, score := score, enemy := e, enemyDied := false } bullets
    (r.1.player, r.1.score, r.2, r.1.enemy)

/-- The loop `for (auto& enemyPtr : enemies)` of the damage pass. -/
def damageEnemies : Player → Int → List Bullet → List Enemy → Player × Int × List Bullet × List Enemy
  | p, score, bullets, [] => (p, score, bullets, [])
  | p, score, bullets, e :: es =>
    let r := damageEnemy p score bullets e
    let t := damageEnemies r.1 r.2.1 r.2.2.1 es
    (t.1, t.2.1, t.2.2.1, r.2.2.2 :: t.2.2.2)

/-! ## Hazard against the player (lines 547-593) -/

/-- The body of the alignment loop (lines 548-561) for one enemy. -/
def alignEnemy (p : Player) (running : Bool) (e : Enemy) : Player × Bool :=
  if e.kind = EnemyKind.Ray ∧ e.isFiring = true ∧ e.isAlive = true then
    let ex := e.x
    let ey := e.y
    let pr : Player × Bool :=
      if p.x + 1 = ex + 1 ∧ |p.y + 1 - (ey + 1)| ≤ 3 then ({ p with hp := 0 }, false)
      else (p, running)
    if pr.1.y + 1 = ey + 1 ∧ |pr.1.x + 1 - (ex + 1)| ≤ 8 then ({ pr.1 with hp := 0 }, false)
    else pr
  else (p, running)

/-- The alignment loop over all enemies. -/
def alignEnemies : Player → Bool → List Enemy → Player × Bool
  | p, running, [] => (p, running)
  | p, running, e :: es =>
    let r := alignEnemy p running e
    alignEnemies r.1 r.2 es

/-- The two nested loops over the player footprint of the cross check
(lines 572-582). -/
def crossHit (p : Player) (e : Enemy) : Bool :=
  (shapeCells 0 Player.shape).any fun c =>
    let px := p.x + c.1
    let py := p.y + c.2
    decide ((px ≥ e.x - 1 ∧ px ≤ e.x + 1) ∨ (py ≥ e.y - 1 ∧ py ≤ e.y + 1))

/-- The cross-contact loop (lines 564-593), with its `break`. -/
def crossEnemies : Player → Bool → List Enemy → Player × Bool × List Enemy
  | p, running, [] => (p, running, [])
  | p, running, e :: es =>
    if ¬ (e.kind = EnemyKind.Ray) ∨ e.isAlive = false ∨ e.isFiring = false then
      let t := crossEnemies p running es
      (t.1, t.2.1, e :: t.2.2)
    else if e.playerDamagedThisFire = true then
      let t := crossEnemies p running es
      (t.1, t.2.1, e :: t.2.2)
    else if crossHit p e = true then
      let newHp : Int := p.hp - RayEnemy.DAMAGE
      let newHp : Int := if newHp < 0 then 0 else newHp
      let p : Player := { p with hp := newHp }
      let e : Enemy := { e with playerDamagedThisFire := true }
      if p.hp ≤ 0 then (p, false, e :: es)
      else
        let t := crossEnemies p running es
        (t.1, t.2.1, e :: t.2.2)
    else
      let t := crossEnemies p running es
      (t.1, t.2.1, e :: t.2.2)

/-! ## Game state and upgrades -/

/-- The class `Game`: the state owned by the tick loop. Wall-clock instants
are milliseconds; `rng` stands for the static generators. -/
structure Game where
  player : Player
  bulletManager : BulletManager := {}
  bullets : List Bullet := []
  enemies : List Enemy := []
  frame : Int := 0
  running : Bool := true
  lastPlayerBulletTime : Int := 0
  enemySpawnFrameCounter : Int := 0
  basicSpawnFrameCounter : Int := 0
  upgradePending : Bool := false
  offeredUpgrades : List UpgradeType := []
  score : Int := 0
  rng : Rng

/-- The catalog `allUpgrades` of `offerUpgrades`. -/
def allUpgrades : List UpgradeType :=
  [UpgradeType.IncreaseHP, UpgradeType.AttackSpeed, UpgradeType.BulletSpeed, UpgradeType.Damage,
   UpgradeType.MoveSpeed, UpgradeType.BulletsAmount, UpgradeType.LifeSteal]

/-- The method `Game::offerUpgrades`; `shuffled` is the catalog as `std::shuffle`
left it. -/
def Game.offerUpgrades (g : Game) (shuffled : List UpgradeType) : Game :=
  { g with offeredUpgrades := shuffled.take 3, upgradePending := true }

/-- The switch of `Game::applyUpgrade` on the player. The product
`fireCooldownMs * 0.8` converted back to `int` is the quotient of
`fireCooldownMs * 4` by 5 truncated toward zero. -/
def Player.applyUpgrade (p : Player) (upg : UpgradeType) : Player :=
  match upg with
  | UpgradeType.IncreaseHP => { p with maxHp := p.maxHp + 5, hp := p.hp + 5 }
  | UpgradeType.AttackSpeed => { p with fireCooldownMs := Int.tdiv (p.fireCooldownMs * 4) 5 }
  | UpgradeType.BulletSpeed => { p with bulletSpeed := p.bulletSpeed - 1 }
  | UpgradeType.Damage => { p with damage := p.damage + 5 }
  | UpgradeType.MoveSpeed => { p with moveSpeed := p.moveSpeed + 1 }
  | UpgradeType.BulletsAmount =>
    if p.bulletStreams < 8 then { p with bulletStreams := p.bulletStreams + 1 } else p
  | UpgradeType.LifeSteal => { p with lifeStealPercent := p.lifeStealPercent + 5 }

/-- The method `Game::applyUpgrade`. -/
def Game.applyUpgrade (g : Game) (upg : UpgradeType) : Game :=
  { g with player := g.player.applyUpgrade upg }

/-- The loop `while (choice < 1 || choice > 3)` of the selection: `chars` are
the characters the input delivers; `none` when they run out before a valid
choice, in which case the loop never ends. -/
def readChoice (choice : Int) : List Char → Option Int
  | [] => if choice < 1 ∨ choice > 3 then none else some choice
  | ch :: rest =>
    if choice < 1 ∨ choice > 3 then readChoice ((ch.toNat : Int) - 48) rest else some choice

/-! ## The tick -/

/-- What the outside world supplies to one tick. -/
structure TickInput where
  keys : List Char := []
  now : Int := 0
  shuffled : List UpgradeType := allUpgrades
  chars : List Char := []

/-- The passes of lines 438-593, from the player move to the hazard checks. -/
def Game.resolve (g : Game) (inp : TickInput) : Game :=
  let player := g.player.move inp.keys
  let sb := g.bulletManager.spawnBullets g.frame g.bullets
  let bullets := (sb.2.map Bullet.update).filter fun b => !b.isOutOfBounds
  let pr := bulletsVsPlayer player g.running bullets
  let ue := updateEnemies pr.1 g.rng bullets g.enemies
  let de := damageEnemies pr.1 g.score ue.2.1 ue.2.2
  let al := alignEnemies de.1 pr.2 de.2.2.2
  let cr := crossEnemies al.1 al.2 de.2.2.2
  { g with player := cr.1, bulletManager := sb.1, bullets := de.2.2.1, enemies := cr.2.2,
           running := cr.2.1, score := de.2.1, rng := ue.1 }

/-- The directions of the player bullets (lines 626-637). -/
def fireDirs (p : Player) : List (Int × Int) :=
  let spd : Int := if p.bulletSpeed < 0 then -p.bulletSpeed else p.bulletSpeed
  [(0, p.bulletSpeed)]
    ++ (if p.bulletStreams ≥ 2 then [(-1, p.bulletSpeed)] else [])
    ++ (if p.bulletStreams ≥ 3 then [(1, p.bulletSpeed)] else [])
    ++ (if p.bulletStreams ≥ 4 then [(-spd, 0)] else [])
    ++ (if p.bulletStreams ≥ 5 then [(spd, 0)] else [])
    ++ (if p.bulletStreams ≥ 6 then [(-1, spd)] else [])
    ++ (if p.bulletStreams ≥ 7 then [(1, spd)] else [])
    ++ (if p.bulletStreams ≥ 8 then [(0, spd)] else [])

/-- The loop `for (const auto& d : dirs)` that pushes the player bullets. -/
def pushPlayerBullets (bulletX bulletY : Int) : List (Int × Int) → List Bullet → List Bullet
  | [], bullets => bullets
  | d :: ds, bullets =>
    if bulletX ≥ 0 ∧ bulletX < GRID_COLS ∧ bulletY ≥ 0 ∧ bulletY < GRID_ROWS then
      pushPlayerBullets bulletX bulletY ds
        (bullets ++ [{ x := bulletX, y := bulletY, dx := d.1, dy := d.2, symbol := 'o' }])
    else pushPlayerBullets bulletX bulletY ds bullets

/-- The player fire block (lines 621-647). -/
def Game.playerFire (g : Game) (inp : TickInput) : Game :=
  if inp.keys.contains ' ' = true then
    if inp.now - g.lastPlayerBulletTime ≥ g.player.fireCooldownMs then
      { g with bullets := pushPlayerBullets (g.player.x + 1) g.player.y (fireDirs g.player) g.bullets,
               lastPlayerBulletTime := inp.now }
    else g
  else g

/-! ### Binary64 arithmetic

A finite nonnegative `double` is the natural number `n` that stands for the
value `n * 2^(-1074)`: every such double is a whole multiple of the smallest
subnormal. Products and sums are rounded to the nearest double, ties to even,
as IEEE 754 prescribes. -/

/-- Binary search for the position of the leading bit: `k` halvings left,
`l` found so far. -/
def ilog2Go : Nat → Nat → Nat → Nat
  | 0, l, _ => l
  | k + 1, l, p => ilog2Go k (if 2 ^ (l + 2 ^ k) ≤ p then l + 2 ^ k else l) p

/-- The position of the leading bit of `p`, for `0 < p < 2^4096`. -/
def ilog2 (p : Nat) : Nat := ilog2Go 12 0 p

/-- Round the exact value `p * 2^(-(1074 + d))` to the nearest double (ties to
even): keep at most 53 significant bits, and no bit below `2^(-1074)`. -/
def f64Round (p d : Nat) : Nat :=
  let s := max (ilog2 p + 1 - 53) d
  let q := p / 2 ^ s
  let r := p % 2 ^ s
  let m := if 2 * r > 2 ^ s ∨ (2 * r = 2 ^ s ∧ q % 2 = 1) then q + 1 else q
  m * 2 ^ (s - d)

/-- The product of two doubles. -/
def f64Mul (a b : Nat) : Nat := f64Round (a * b) 1074

/-- The sum of two doubles. -/
def f64Add (a b : Nat) : Nat := f64Round (a + b) 0

/-- The conversion `static_cast<double>(n)` of a small nonnegative `int`. -/
def f64OfNat (n : Nat) : Nat := n * 2 ^ 1074

/-- The conversion `static_cast<int>(x)` of a nonnegative double: truncation. -/
def f64ToInt (a : Nat) : Int := ((a / 2 ^ 1074 : Nat) : Int)

/-- The literal `0.925`: the double nearest to 37/40, `4165829655317709 * 2^(-52)`. -/
def f64_0_925 : Nat := 4165829655317709 * 2 ^ 1022

/-- The literal `0.5`. -/
def f64_0_5 : Nat := 2 ^ 1073

/-- The loop `for (int i = 0; i < steps; ++i) b *= 0.925` on a double. -/
def shrinkLoop : Nat → Nat → Nat
  | 0, b => b
  | n + 1, b => shrinkLoop n (f64Mul b f64_0_925)

/-- The interval scaling (lines 661-679) for one base interval, in binary64
arithmetic as in the source. -/
def spawnInterval (base : Nat) (frame : Int) : Int :=
  let overFrames := frame - 1500
  if overFrames > 0 then
    let steps := Int.tdiv overFrames 100
    let b := shrinkLoop steps.toNat (f64OfNat base)
    let interval : Int := f64ToInt (f64Add b f64_0_5)
    if interval < 1 then 1 else interval
  else (base : Int)

/-- The end of the tick (lines 648-705): counters, survival score and spawns. -/
def Game.advance (g : Game) : Game :=
  let frame := g.frame + 1
  let enemyCtr := g.enemySpawnFrameCounter + 1
  let basicCtr := g.basicSpawnFrameCounter + 1
  let score : Int := if frame > 0 ∧ Int.tmod frame 50 = 0 then g.score + 50 else g.score
  let basicInterval := spawnInterval 83 frame
  let rayInterval := spawnInterval 100 frame
  let s1 : Rng × List Enemy × Int :=
    if basicCtr ≥ basicInterval then
      let rx := g.rng.uniform 0 (GRID_COLS - 1)
      let ry := rx.2.uniform 0 2
      (ry.2, g.enemies ++ [Enemy.new rx.1 ry.1], 0)
    else (g.rng, g.enemies, basicCtr)
  let s2 : Rng × List Enemy × Int :=
    if enemyCtr ≥ rayInterval then
      let rx := s1.1.uniform 0 (GRID_COLS - 1)
      (rx.2, s1.2.1 ++ [RayEnemy.new rx.1 (Int.tdiv GRID_ROWS 2)], 0)
    else (s1.1, s1.2.1, enemyCtr)
  let enemies : List Enemy :=
    if frame ≥ 2250 ∧ Int.tmod (frame - 2250) 500 = 0 then
      s2.2.1 ++ [Boss.new (Int.tdiv GRID_COLS 2 - 1) 1]
    else s2.2.1
  { g with frame := frame, enemySpawnFrameCounter := s2.2.2, basicSpawnFrameCounter := s1.2.2,
           score := score, enemies := enemies, rng := s2.1 }

/-- The upgrade trigger (lines 594-596). -/
def Game.checkUpgrade (g : Game) (inp : TickInput) : Game :=
  if g.upgradePending = false ∧ g.player.money ≥ g.player.maxMoney then
    g.offerUpgrades inp.shuffled
  else g

/-- The upgrade selection (lines 598-616): read a choice, apply the chosen
offered upgrade, reset the currency and clear the pending flag. `none` when no
valid choice ever arrives (or the offer has no such entry). -/
def Game.selectUpgrade (g : Game) (inp : TickInput) : Option Game :=
  match readChoice 0 inp.chars with
  | none => none
  | some choice =>
    match g.offeredUpgrades.get? (choice - 1).toNat with
    | none => none
    | some upg =>
      let g := g.applyUpgrade upg
      some { g with player := { g.player with money := 0 }, upgradePending := false }

/-- One iteration of the loop of `Game::run` after the quit check. A tick with
an upgrade pending ends at the `continue` of line 617. -/
def Game.tick (g : Game) (inp : TickInput) : Option Game :=
  let g := (g.resolve inp).checkUpgrade inp
  if g.upgradePending = true then g.selectUpgrade inp
  else some (g.playerFire inp).advance

/-- The loop `while (running)` over the inputs of successive ticks, with the
quit check at its head. -/
def Game.runTicks : Game → List TickInput → Option Game
  | g, [] => some g
  | g, inp :: rest =>
    if g.running = false then some g
    else if inp.keys.contains 'q' = true then some g
    else
      match g.tick inp with
      | none => none
      | some g1 => Game.runTicks g1 rest

/-- The state `Game::run` starts its loop from, given the loaded schedule. -/
def Game.start (spawns : List BulletSpawn) (g : Rng) : Game :=
  { player := { x := Int.tdiv GRID_COLS 2 - 1, y := GRID_ROWS - 4 },
    bulletManager := { spawns := spawns },
    enemies := [Enemy.new (Int.tdiv GRID_COLS 2 - 1) 2,
                RayEnemy.new (Int.tdiv GRID_COLS 2 - 1) (Int.tdiv GRID_ROWS 2)],
    lastPlayerBulletTime := -500,
    rng := g }

/-- The start of `Game::run` (lines 423-432): load the pattern, report a
failure without stopping, and set up the first enemies. -/
def Game.boot (file : Option (List (List Char))) (g : Rng) : Game :=
  Game.start (({} : BulletManager).loadPattern file).1.spawns g

/-! ## Predicates used in the statements -/

/-- The hit-point invariant of the player: `0 ≤ hp ≤ maxHp`. -/
def Player.hpOk (p : Player) : Prop := 0 ≤ p.hp ∧ p.hp ≤ p.maxHp

/-- Number of enemies that are alive in `before` and dead at the same index in
`after`. -/
def deaths (before after : List Enemy) : Nat :=
  ((before.zip after).filter fun ea => decide (ea.1.hp > 0) && decide (ea.2.hp ≤ 0)).length

/-- A bullet qualifies against an enemy: it is a player shot within Manhattan
distance 1 of some non-blank footprint cell. -/
def qualifies (e : Enemy) (b : Bullet) : Bool :=
  decide (b.symbol = 'o') && (shapeCells 0 e.shape).any fun c => withinOne e b c

/-- The collection with the first `n` bullets that satisfy `q` marked spent
(moved to `x = -100`). -/
def markSpent (q : Bullet → Bool) : Nat → List Bullet → List Bullet
  | 0, bs => bs
  | _ + 1, [] => []
  | n + 1, b :: bs =>
    if q b = true then { b with x := -100 } :: markSpent q n bs else b :: markSpent q (n + 1) bs

/-- Number of bullets that damage an enemy with `hp` hit points in one pass,
at damage `d` per hit: the qualifying bullets, but no more than the
`⌈hp / d⌉` hits that kill it. -/
def hitsOn (q : Bullet → Bool) (hp d : Int) (bs : List Bullet) : Nat :=
  min (bs.countP q) ((hp + d - 1) / d).toNat

/-- Some non-blank footprint cell `(e.x + sx, e.y + sy)` of the enemy lies
within Manhattan distance 1 of the bullet. -/
def inReach (e : Enemy) (b : Bullet) : Prop :=
  ∃ (sy sx : Nat) (row : List Char) (ch : Char),
    e.shape[sy]? = some row ∧ row[sx]? = some ch ∧ ch ≠ ' ' ∧
    |b.x - (e.x + (sx : Int))| + |b.y - (e.y + (sy : Int))| ≤ 1

/-- The bullet's cell is one of the four occupied cells of the footprint of a
player at `(px, py)`. -/
def onPlayerCell (px py : Int) (b : Bullet) : Prop :=
  (b.x = px + 1 ∧ b.y = py) ∨ (b.x = px ∧ b.y = py + 1) ∨
  (b.x = px + 1 ∧ b.y = py + 1) ∨ (b.x = px + 2 ∧ b.y = py + 1)

instance (px py : Int) (b : Bullet) : Decidable (onPlayerCell px py b) := by
  unfold onPlayerCell
  exact inferInstance

/-- Damage a bullet deals to a player at `(px, py)`: 1 for an enemy shot and 3
for a boss orb on an occupied footprint cell, 0 otherwise. -/
def bulletDamage (px py : Int) (b : Bullet) : Int :=
  if onPlayerCell px py b then
    if b.symbol = '*' then 1 else if b.symbol = 'O' then 3 else 0
  else 0

/-- The enemy and the generator after `n` successive calls of `update`
(through virtual dispatch) on the same enemy. -/
def iterUpdate : Nat → Enemy → Rng → Enemy × Rng
  | 0, e, g => (e, g)
  | n + 1, e, g => (iterUpdate n e g).1.vUpdate (iterUpdate n e g).2

/-- The game with the enemy at index `i` taken out of the collection. -/
def Game.eraseEnemy (g : Game) (i : Nat) : Game :=
  { g with enemies := g.enemies.eraseIdx i }

/-- What every state of a run satisfies: hit points within bounds, damage at
least the initial 10, a life-steal percent that is not negative, and positive
hit points as long as the game is running. -/
def Game.inv (g : Game) : Prop :=
  g.player.hpOk ∧ 10 ≤ g.player.damage ∧ 0 ≤ g.player.lifeStealPercent ∧
  (g.running = true → 0 < g.player.hp)


/-- The enemy is a Boss (what `dynamic_cast<Boss*>` tests). -/
def Enemy.isBoss (e : Enemy) : Bool := decide (e.kind = EnemyKind.Boss)

/-- The player's reference cell is aligned with a firing, live Hazard enemy:
same column within 3 rows, or same row within 8 columns. -/
def aligned (p : Player) (e : Enemy) : Prop :=
  e.kind = EnemyKind.Ray ∧ 0 < e.hp ∧ e.state = RayState.Firing ∧
  ((p.x = e.x ∧ |p.y - e.y| ≤ 3) ∨ (p.y = e.y ∧ |p.x - e.x| ≤ 8))


/-- The enemy's reference cell is inside the arena. -/
def Enemy.inArena (e : Enemy) : Prop :=
  0 ≤ e.x ∧ e.x ≤ GRID_COLS - 1 ∧ 0 ≤ e.y ∧ e.y ≤ GRID_ROWS - 1

/-- The guard of the boss burst (line 474) on the centre cell `(x + 1, y)`. -/
def Enemy.burstInGrid (e : Enemy) : Prop :=
  e.x + 1 ≥ 0 ∧ e.x + 1 < GRID_COLS ∧ e.y + 0 ≥ 0 ∧ e.y + 0 < GRID_ROWS


/-- The bullet a scripted record is spawned as (line 126): kind `'*'`. -/
def BulletSpawn.toBullet (s : BulletSpawn) : Bullet :=
  { x := s.x, y := s.y, dx := s.dx, dy := s.dy, symbol := '*' }

/-- A sequence of `spawnBullets` calls, one per frame of the list, each on
the manager and the collection the previous call left. -/
def spawnSeq : BulletManager → List Bullet → List Int → BulletManager × List Bullet
  | m, bs, [] => (m, bs)
  | m, bs, f :: fs => spawnSeq (m.spawnBullets f bs).1 (m.spawnBullets f bs).2 fs


/-- The character is accepted by the upgrade selection: `ch - '0'` lies in
`1..3`. -/
def validChoice (ch : Char) : Prop :=
  1 ≤ (ch.toNat : Int) - 48 ∧ (ch.toNat : Int) - 48 ≤ 3

instance (ch : Char) : Decidable (validChoice ch) := by
  unfold validChoice
  exact inferInstance


/-- The cross-contact check of one tick applied to one enemy alone. -/
def crossOne (p : Player) (running : Bool) (e : Enemy) : Player × Bool × Enemy :=
  ((crossEnemies p running [e]).1, (crossEnemies p running [e]).2.1,
    (crossEnemies p running [e]).2.2.headD e)

/-- Successive ticks as one enemy sees them: in each tick its update, then the
cross-contact check against the player of that tick (any position, any hit
points). Yields the player and the enemy after each tick. -/
def hazardRun : Enemy → Rng → List Player → List (Player × Enemy)
  | _, _, [] => []
  | e, g, p :: ps =>
    ((crossOne p true (updateEnemy p g [] e).2.2).1,
      (crossOne p true (updateEnemy p g [] e).2.2).2.2) ::
      hazardRun (crossOne p true (updateEnemy p g [] e).2.2).2.2 (updateEnemy p g [] e).1 ps

/-- The players of successive ticks with the cross contact applied once, in
the words of the specification: the first player that touches the cross of
`e`, if the flag `done` is not yet set, loses `min hp 2` hit points; every
other player is unchanged. -/
def crossOnce (e : Enemy) : Bool → List Player → List Player
  | _, [] => []
  | true, p :: ps => p :: crossOnce e true ps
  | false, p :: ps =>
    if crossHit p e = true then
      { p with hp := p.hp - min p.hp 2 } :: crossOnce e true ps
    else p :: crossOnce e false ps


/-- A binary64 value a little below one half (1/2 - 2^-10): far enough from it
that adding 0.5 and rounding stays below 1. -/
def f64Tail : Nat := 2 ^ 1073 - 2 ^ 1064

/-- The interval of the specification before the floor at 1, as a natural
number: `base * (37/40)^k + 1/2` rounded down, written as one quotient. -/
def exactInterval (base k : Nat) : Nat := (2 * base * 37 ^ k + 40 ^ k) / (2 * 40 ^ k)


/-- Successive ticks as one enemy sees them in the update-and-fire loop: the
bullets it adds in each tick, against the player of that tick. -/
def fireRun : Enemy → Rng → List Player → List (List Bullet)
  | _, _, [] => []
  | e, g, p :: ps =>
    (updateEnemy p g [] e).2.1 ::
      fireRun (updateEnemy p g [] e).2.2 (updateEnemy p g [] e).1 ps


/-- The enemy and the generator after `n` successive calls of the base
`Enemy::update` on the same enemy. -/
def Enemy.updateN : Nat → Enemy → Rng → Enemy × Rng
  | 0, e, g => (e, g)
  | n + 1, e, g => (Enemy.updateN n e g).1.update (Enemy.updateN n e g).2

/-- The movement state of an enemy: pause timer, burst steps left, sub-frame
counter. -/
def Enemy.moveState (e : Enemy) : Int × Int × Int :=
  (e.pauseTimer, e.burstSteps, e.moveFrameCounter)

/-- What one `Enemy::update` does to the movement state
`(pauseTimer, burstSteps, moveFrameCounter)`, read off its statements. -/
def nextMove (s : Int × Int × Int) : Int × Int × Int :=
  if s.1 > 0 then (s.1 - 1, s.2.1, s.2.2)
  else
    let bs : Int := if s.2.1 ≤ 0 then 5 else s.2.1
    let pt : Int := if s.2.1 ≤ 0 then 16 else s.1
    if s.2.2 + 1 ≥ 3 then (pt, bs - 1, 0) else (pt, bs, s.2.2 + 1)


/-- The advance-and-prune of the bullets (lines 440-442): update every bullet,
then erase those out of bounds. -/
def pruneBullets (bs : List Bullet) : List Bullet :=
  (bs.map Bullet.update).filter fun b => !b.isOutOfBounds

/-- What holds of every bullet between two ticks: a player shot is either in
a column of the arena or spent, and a spent one has a horizontal speed of at
most 59. -/
def Bullet.shotOk (b : Bullet) : Prop :=
  b.symbol = 'o' → (0 ≤ b.x ∧ b.x ≤ 59) ∨ (b.x = -100 ∧ -59 ≤ b.dx ∧ b.dx ≤ 59)

/-- What holds of every bullet after the prune and the damage pass: a player
shot has a horizontal speed of at most 59 and is in a column of the arena or
spent. -/
def Bullet.flownOk (b : Bullet) : Prop :=
  b.symbol = 'o' → (-59 ≤ b.dx ∧ b.dx ≤ 59) ∧ ((0 ≤ b.x ∧ b.x ≤ 59) ∨ b.x = -100)


/-- The two spawn counters follow the frame counter while the intervals are
at their base values: the frame is not negative, and up to frame 1599 the
basic counter is `frame mod 83` and the hazard counter `frame mod 100`. -/
def Game.countersOk (g : Game) : Prop :=
  0 ≤ g.frame ∧
  (g.frame ≤ 1599 →
    g.basicSpawnFrameCounter = g.frame % 83 ∧ g.enemySpawnFrameCounter = g.frame % 100)


/-- Number of bullets at the sentinel column `x = -100`. -/
def spentCount (bs : List Bullet) : Nat := bs.countP fun b => decide (b.x = -100)

/-- Total hit points the enemies of `before` have lost in `after`, index by
index. -/
def hpLoss (before after : List Enemy) : Int :=
  ((before.zip after).map fun ea => ea.1.hp - ea.2.hp).sum


/-- The state a run over the inputs `inps` ends in (the state it started from
if the run never returns from an upgrade selection). -/
def Game.after (g : Game) (inps : List TickInput) : Game := (g.runTicks inps).getD g

/-! # Theorems -/

/-! ## Player movement -/

theorem Player.clamp_bounds (p : Player) :
    0 ≤ p.clamp.x ∧ p.clamp.x ≤ 57 ∧ 0 ≤ p.clamp.y ∧ p.clamp.y ≤ 18 := by
  simp only [Player.clamp, GRID_COLS, GRID_ROWS]
  split_ifs <;> simp at * <;> omega

/-- C1: for every player state (any position and move speed) and every set of
pressed keys, after `Player.move` the position satisfies `0 ≤ x ≤ W - 3 = 57`
and `0 ≤ y ≤ H - 2 = 18`, so the 3x2 footprint (columns `x .. x+2`, rows
`y .. y+1`) lies inside the 60x20 arena. -/
theorem C1_move_keeps_player_in_arena (p : Player) (inputs : List Char) :
    (0 ≤ (p.move inputs).x ∧ (p.move inputs).x ≤ GRID_COLS - 3 ∧ GRID_COLS - 3 = 57) ∧
    (0 ≤ (p.move inputs).y ∧ (p.move inputs).y ≤ GRID_ROWS - 2 ∧ GRID_ROWS - 2 = 18) ∧
    (p.move inputs).x + 2 < GRID_COLS ∧ (p.move inputs).y + 1 < GRID_ROWS := by
  have h := Player.clamp_bounds (p.stepKeys inputs)
  simp only [Player.move, GRID_COLS, GRID_ROWS]
  omega

/-! ## Hit points stay within bounds -/

theorem Player.clamp_hp (p : Player) : p.clamp.hp = p.hp ∧ p.clamp.maxHp = p.maxHp := by
  simp only [Player.clamp]
  split_ifs <;> simp

theorem Player.stepKeys_hp (p : Player) (inputs : List Char) :
    (p.stepKeys inputs).hp = p.hp ∧ (p.stepKeys inputs).maxHp = p.maxHp := by
  simp only [Player.stepKeys]
  split_ifs <;> simp

theorem Player.move_hpOk (p : Player) (inputs : List Char) (h : p.hpOk) :
    (p.move inputs).hpOk := by
  have h1 := Player.clamp_hp (p.stepKeys inputs)
  have h2 := Player.stepKeys_hp p inputs
  simp only [Player.hpOk, Player.move] at *
  omega

theorem bulletsVsPlayer_hpOk (bullets : List Bullet) :
    ∀ (p : Player) (running : Bool), p.hpOk → (bulletsVsPlayer p running bullets).1.hpOk := by
  induction bullets with
  | nil => intro p running h; simpa [bulletsVsPlayer] using h
  | cons b bs ih =>
    intro p running h
    simp only [bulletsVsPlayer]
    simp only [Player.hpOk] at h
    split_ifs with h1 h2 h3 h4 h5
    all_goals first
      | (apply ih; simp only [Player.hpOk]; omega)
      | (simp only [Player.hpOk]; omega)

theorem lifeSteal_hpOk (p : Player) (dealt : Int) (h : p.hpOk) : (lifeSteal p dealt).hpOk := by
  simp only [Player.hpOk] at *
  simp only [lifeSteal]
  split_ifs <;> (try simp only []) <;> omega

theorem lifeSteal_fields (p : Player) (dealt : Int) :
    (lifeSteal p dealt).maxHp = p.maxHp ∧ (lifeSteal p dealt).money = p.money ∧
    (lifeSteal p dealt).damage = p.damage ∧
    (lifeSteal p dealt).lifeStealPercent = p.lifeStealPercent ∧
    (lifeSteal p dealt).maxMoney = p.maxMoney := by
  simp only [lifeSteal]
  split_ifs <;> simp

theorem hitCell_hpOk (s : Scan) (b : Bullet) (c : Int × Int) (h : s.player.hpOk) :
    (hitCell s b c).1.player.hpOk := by
  have h1 := fun d => lifeSteal_hpOk s.player d h
  simp only [Player.hpOk] at *
  simp only [hitCell, hitApply]
  split_ifs
  · exact h1 _
  · exact h1 _
  · exact h

theorem hitCells_hpOk (cs : List (Int × Int)) :
    ∀ (s : Scan) (b : Bullet) (d : Bool), s.player.hpOk → (hitCells s b d cs).1.player.hpOk := by
  induction cs with
  | nil => intro s b d h; simpa [hitCells] using h
  | cons c cs ih =>
    intro s b d h
    simp only [hitCells]
    split_ifs
    · exact h
    · exact ih _ _ _ (hitCell_hpOk s b c h)

theorem hitBullets_hpOk (bs : List Bullet) :
    ∀ (s : Scan), s.player.hpOk → (hitBullets s bs).1.player.hpOk := by
  induction bs with
  | nil => intro s h; simpa [hitBullets] using h
  | cons b bs ih =>
    intro s h
    simp only [hitBullets]
    split_ifs
    · exact h
    · exact ih _ h
    · exact ih _ (hitCells_hpOk _ _ _ _ h)

theorem damageEnemy_hpOk (p : Player) (score : Int) (bullets : List Bullet) (e : Enemy)
    (h : p.hpOk) : (damageEnemy p score bullets e).1.hpOk := by
  simp only [damageEnemy]
  split_ifs
  · exact h
  · exact hitBullets_hpOk _ _ h

theorem damageEnemies_hpOk (es : List Enemy) :
    ∀ (p : Player) (score : Int) (bullets : List Bullet), p.hpOk →
      (damageEnemies p score bullets es).1.hpOk := by
  induction es with
  | nil => intro p score bullets h; simpa [damageEnemies] using h
  | cons e es ih =>
    intro p score bullets h
    simp only [damageEnemies]
    exact ih _ _ _ (damageEnemy_hpOk p score bullets e h)

theorem alignEnemy_hpOk (p : Player) (running : Bool) (e : Enemy) (h : p.hpOk) :
    (alignEnemy p running e).1.hpOk := by
  simp only [Player.hpOk] at *
  simp only [alignEnemy]
  split_ifs <;> simp <;> omega

theorem alignEnemies_hpOk (es : List Enemy) :
    ∀ (p : Player) (running : Bool), p.hpOk → (alignEnemies p running es).1.hpOk := by
  induction es with
  | nil => intro p running h; simpa [alignEnemies] using h
  | cons e es ih =>
    intro p running h
    simp only [alignEnemies]
    exact ih _ _ (alignEnemy_hpOk p running e h)

theorem crossEnemies_hpOk (es : List Enemy) :
    ∀ (p : Player) (running : Bool), p.hpOk → (crossEnemies p running es).1.hpOk := by
  induction es with
  | nil => intro p running h; simpa [crossEnemies] using h
  | cons e es ih =>
    intro p running h
    simp only [crossEnemies, RayEnemy.DAMAGE]
    simp only [Player.hpOk] at h
    split_ifs
    all_goals first
      | exact ih _ _ h
      | (apply ih; simp only [Player.hpOk]; omega)
      | (simp only [Player.hpOk]; omega)

theorem applyUpgrade_hpOk (p : Player) (upg : UpgradeType) (h : p.hpOk) :
    (p.applyUpgrade upg).hpOk := by
  simp only [Player.hpOk] at *
  cases upg <;> simp only [Player.applyUpgrade] <;>
    first | omega | (split_ifs <;> (try simp only []) <;> omega)

theorem Game.resolve_hpOk (g : Game) (inp : TickInput) (h : g.player.hpOk) :
    (g.resolve inp).player.hpOk := by
  simp only [Game.resolve]
  apply crossEnemies_hpOk
  apply alignEnemies_hpOk
  apply damageEnemies_hpOk
  apply bulletsVsPlayer_hpOk
  exact Player.move_hpOk _ _ h


theorem Game.playerFire_player (g : Game) (inp : TickInput) :
    (g.playerFire inp).player = g.player := by
  simp only [Game.playerFire]
  split_ifs <;> rfl

theorem Game.advance_player (g : Game) : g.advance.player = g.player := rfl

theorem Game.checkUpgrade_player (g : Game) (inp : TickInput) :
    (g.checkUpgrade inp).player = g.player := by
  simp only [Game.checkUpgrade]
  split_ifs <;> rfl

theorem Game.selectUpgrade_hpOk (g g1 : Game) (inp : TickInput) (h : g.player.hpOk)
    (ht : g.selectUpgrade inp = some g1) : g1.player.hpOk := by
  simp only [Game.selectUpgrade] at ht
  split at ht
  · exact absurd ht (by simp)
  · split at ht
    · exact absurd ht (by simp)
    · rename_i upg _
      simp only [Option.some.injEq] at ht
      subst ht
      have := applyUpgrade_hpOk g.player upg h
      simpa [Player.hpOk, Game.applyUpgrade] using this

theorem Game.tick_hpOk (g g1 : Game) (inp : TickInput) (h : g.player.hpOk)
    (ht : g.tick inp = some g1) : g1.player.hpOk := by
  have hr := Game.resolve_hpOk g inp h
  rw [← Game.checkUpgrade_player _ inp] at hr
  simp only [Game.tick] at ht
  split_ifs at ht
  · exact Game.selectUpgrade_hpOk _ _ _ hr ht
  · simp only [Option.some.injEq] at ht
    subst ht
    rw [Game.advance_player, Game.playerFire_player]
    exact hr


/-- C2: if `0 ≤ hp ≤ maxHp` holds for the player, it still holds after each
step of the tick that writes `hp`: the enemy or boss bullet pass (damage
floored at 0), a life-steal heal (capped at `maxHp`) and the whole player
bullet pass, the hazard alignment kill, the hazard cross-contact pass (floored
at 0), and the +5 max HP upgrade, which adds 5 to both `hp` and `maxHp`; hence
also after the whole tick. -/
theorem C2_hp_stays_within_bounds (p : Player) (h : 0 ≤ p.hp ∧ p.hp ≤ p.maxHp) :
    (∀ (running : Bool) (bullets : List Bullet), (bulletsVsPlayer p running bullets).1.hpOk) ∧
    (∀ dealt : Int, (lifeSteal p dealt).hpOk) ∧
    (∀ (score : Int) (bullets : List Bullet) (enemies : List Enemy),
      (damageEnemies p score bullets enemies).1.hpOk) ∧
    (∀ (running : Bool) (enemies : List Enemy), (alignEnemies p running enemies).1.hpOk) ∧
    (∀ (running : Bool) (enemies : List Enemy), (crossEnemies p running enemies).1.hpOk) ∧
    ((p.applyUpgrade UpgradeType.IncreaseHP).hpOk ∧
      (p.applyUpgrade UpgradeType.IncreaseHP).hp = p.hp + 5 ∧
      (p.applyUpgrade UpgradeType.IncreaseHP).maxHp = p.maxHp + 5) ∧
    (∀ (g g1 : Game) (inp : TickInput), g.player = p → g.tick inp = some g1 → g1.player.hpOk) := by
  have hp : p.hpOk := h
  refine ⟨fun r bs => bulletsVsPlayer_hpOk bs p r hp, fun d => lifeSteal_hpOk p d hp,
    fun sc bs es => damageEnemies_hpOk es p sc bs hp, fun r es => alignEnemies_hpOk es p r hp,
    fun r es => crossEnemies_hpOk es p r hp,
    ⟨applyUpgrade_hpOk p _ hp, rfl, rfl⟩, ?_⟩
  intro g g1 inp hg ht
  subst hg
  exact Game.tick_hpOk g g1 inp hp ht

/-- Witness for C2 at the initial player, hit by one enemy bullet. -/
theorem C2_hp_stays_within_bounds_witness :
    (0 ≤ (10 : Int) ∧ (10 : Int) ≤ 10) ∧
    (bulletsVsPlayer { x := 29, y := 16 } true [{ x := 30, y := 16, dx := 0, dy := 1, symbol := '*' }]).1.hpOk :=
  ⟨by decide, (C2_hp_stays_within_bounds { x := 29, y := 16 } (by decide)).1 true _⟩


/-! ## The player-bullet pass: rewards -/

theorem hitCells_damaged (cs : List (Int × Int)) (s : Scan) (b : Bullet) :
    hitCells s b true cs = (s, b, true) := by
  cases cs <;> simp [hitCells]

theorem hitApply_damaged (s : Scan) (b : Bullet) : (hitApply s b).2.2 = true := by
  simp only [hitApply]
  split_ifs <;> rfl

/-- The footprint loops hit at most once: the block of lines 517-541 runs
exactly when some non-blank cell passes the hit test. -/
theorem hitCells_eq (cs : List (Int × Int)) (s : Scan) (b : Bullet) :
    hitCells s b false cs =
      if cs.any (fun c => withinOne s.enemy b c) = true then hitApply s b else (s, b, false) := by
  induction cs with
  | nil => simp [hitCells]
  | cons c cs ih =>
    simp only [hitCells, hitCell, List.any_cons, Bool.or_eq_true]
    by_cases hc : withinOne s.enemy b c = true
    · have hd := hitApply_damaged s b
      have : hitCells (hitApply s b).1 (hitApply s b).2.1 (hitApply s b).2.2 cs = hitApply s b := by
        rw [hd, hitCells_damaged]
        rw [← hd]
      simp [hc, this]
    · simp only [hc, Bool.false_eq_true, if_false, false_or]
      exact ih

theorem hitApply_enemy (s : Scan) (b : Bullet) :
    (hitApply s b).1.enemy = { s.enemy with hp := s.enemy.hp - hitDmg s.player } := by
  simp only [hitApply]
  split_ifs <;> rfl

theorem hitApply_bullet (s : Scan) (b : Bullet) :
    (hitApply s b).2.1 = { b with x := -100 } := by
  simp only [hitApply]
  split_ifs <;> rfl

theorem hitApply_reward (s : Scan) (b : Bullet) :
    (hitApply s b).1.player.money =
        s.player.money + (if s.enemy.hp > 0 ∧ s.enemy.hp - hitDmg s.player ≤ 0 then 10 else 0) ∧
    (hitApply s b).1.score =
        s.score + (if s.enemy.hp > 0 ∧ s.enemy.hp - hitDmg s.player ≤ 0 then 50 else 0) ∧
    (hitApply s b).1.enemyDied =
        (if s.enemy.hp > 0 ∧ s.enemy.hp - hitDmg s.player ≤ 0 then true else s.enemyDied) := by
  have hl := lifeSteal_fields s.player (hitDealt s.enemy.hp (hitDmg s.player))
  simp only [hitApply]
  split_ifs <;> simp [hl.2.1]

theorem hitApply_player (s : Scan) (b : Bullet) :
    (hitApply s b).1.player.hp = (lifeSteal s.player (hitDealt s.enemy.hp (hitDmg s.player))).hp ∧
    (hitApply s b).1.player.maxHp = s.player.maxHp ∧
    (hitApply s b).1.player.damage = s.player.damage ∧
    (hitApply s b).1.player.lifeStealPercent = s.player.lifeStealPercent ∧
    (hitApply s b).1.player.maxMoney = s.player.maxMoney := by
  have hl := lifeSteal_fields s.player (hitDealt s.enemy.hp (hitDmg s.player))
  simp only [hitApply]
  split_ifs <;> simp [hl]

theorem hitDmg_eq (p q : Player) (h : p.damage = q.damage) : hitDmg p = hitDmg q := by
  simp only [hitDmg, h]

theorem hitDmg_nonneg (p : Player) : 0 ≤ hitDmg p := by
  simp only [hitDmg]
  split_ifs <;> omega

/-- One step of the bullet loop on a player shot. -/
theorem hitBullets_cons_shot (s : Scan) (b : Bullet) (bs : List Bullet)
    (hd : s.enemyDied = false) (ho : b.symbol = 'o') :
    hitBullets s (b :: bs) =
      if qualifies s.enemy b = true then
        ((hitBullets (hitApply s b).1 bs).1, { b with x := -100 } :: (hitBullets (hitApply s b).1 bs).2)
      else ((hitBullets s bs).1, b :: (hitBullets s bs).2) := by
  simp only [hitBullets, hd, Bool.false_eq_true, if_false, ho, ne_eq, not_true_eq_false,
    hitCells_eq, qualifies, decide_True, Bool.true_and]
  split_ifs
  · rw [hitApply_bullet]
    simp [ho]
  · rfl

theorem hitBullets_cons_other (s : Scan) (b : Bullet) (bs : List Bullet)
    (hd : s.enemyDied = false) (ho : b.symbol ≠ 'o') :
    hitBullets s (b :: bs) = ((hitBullets s bs).1, b :: (hitBullets s bs).2) := by
  simp only [hitBullets, hd, Bool.false_eq_true, if_false, ho, ne_eq, not_false_eq_true, if_true]

theorem hitBullets_died (s : Scan) (bs : List Bullet) (hd : s.enemyDied = true) :
    hitBullets s bs = (s, bs) := by
  cases bs <;> simp [hitBullets, hd]

/-- The scan of the bullets against one live enemy rewards exactly when the
enemy ends dead, and sets `enemyDied` exactly then. -/
theorem hitBullets_reward (bs : List Bullet) :
    ∀ s : Scan, s.enemyDied = false → 0 < s.enemy.hp →
      (hitBullets s bs).1.player.money =
          s.player.money + (if (hitBullets s bs).1.enemy.hp ≤ 0 then 10 else 0) ∧
      (hitBullets s bs).1.score = s.score + (if (hitBullets s bs).1.enemy.hp ≤ 0 then 50 else 0) ∧
      (hitBullets s bs).1.player.maxMoney = s.player.maxMoney := by
  induction bs with
  | nil =>
    intro s _ hp
    have : ¬ s.enemy.hp ≤ 0 := by omega
    simp [hitBullets, this]
  | cons b bs ih =>
    intro s hd hp
    by_cases ho : b.symbol = 'o'
    · rw [hitBullets_cons_shot s b bs hd ho]
      by_cases hq : qualifies s.enemy b = true
      · rw [if_pos hq]
        have hr := hitApply_reward s b
        have he := hitApply_enemy s b
        have hm := (hitApply_player s b).2.2.2.2
        by_cases hl : s.enemy.hp - hitDmg s.player ≤ 0
        · have hdied : (hitApply s b).1.enemyDied = true := by
            rw [hr.2.2]; simp [hp, hl]
          rw [hitBullets_died _ _ hdied]
          have hhp : (hitApply s b).1.enemy.hp ≤ 0 := by rw [he]; exact hl
          simp only [hhp, if_true, hm]
          rw [hr.1, hr.2.1]
          simp [hp, hl]
        · have halive : (hitApply s b).1.enemyDied = false := by
            rw [hr.2.2]; simp [hl, hd]
          have hhp : 0 < (hitApply s b).1.enemy.hp := by rw [he]; simp only; omega
          have := ih _ halive hhp
          rw [hr.1, hr.2.1, hm] at this
          simpa [hl] using this
      · rw [if_neg hq]
        exact ih s hd hp
    · rw [hitBullets_cons_other s b bs hd ho]
      exact ih s hd hp

theorem damageEnemy_reward (p : Player) (score : Int) (bullets : List Bullet) (e : Enemy) :
    (damageEnemy p score bullets e).1.money =
        p.money + (if 0 < e.hp ∧ (damageEnemy p score bullets e).2.2.2.hp ≤ 0 then 10 else 0) ∧
    (damageEnemy p score bullets e).2.1 =
        score + (if 0 < e.hp ∧ (damageEnemy p score bullets e).2.2.2.hp ≤ 0 then 50 else 0) ∧
    (damageEnemy p score bullets e).1.maxMoney = p.maxMoney := by
  simp only [damageEnemy, Enemy.isAlive]
  by_cases h : 0 < e.hp
  · have := hitBullets_reward bullets
      { player := p, score := score, enemy := e, enemyDied := false } rfl h
    simpa [h] using this
  · simp [h]

theorem damageEnemies_length (es : List Enemy) :
    ∀ (p : Player) (score : Int) (bullets : List Bullet),
      (damageEnemies p score bullets es).2.2.2.length = es.length := by
  induction es with
  | nil => intro p score bullets; simp [damageEnemies]
  | cons e es ih => intro p score bullets; simp [damageEnemies, ih]

/-- The pass rewards 10 currency and 50 score per enemy that it kills. -/
theorem damageEnemies_reward (es : List Enemy) :
    ∀ (p : Player) (score : Int) (bullets : List Bullet),
      (damageEnemies p score bullets es).1.money =
          p.money + 10 * (deaths es (damageEnemies p score bullets es).2.2.2 : Int) ∧
      (damageEnemies p score bullets es).2.1 =
          score + 50 * (deaths es (damageEnemies p score bullets es).2.2.2 : Int) ∧
      (damageEnemies p score bullets es).1.maxMoney = p.maxMoney := by
  induction es with
  | nil => intro p score bullets; simp [damageEnemies, deaths]
  | cons e es ih =>
    intro p score bullets
    have h1 := damageEnemy_reward p score bullets e
    have h2 := ih (damageEnemy p score bullets e).1 (damageEnemy p score bullets e).2.1
      (damageEnemy p score bullets e).2.2.1
    simp only [damageEnemies, deaths, List.zip_cons_cons, List.filter_cons] at h2 ⊢
    rw [h2.1, h2.2.1, h2.2.2, h1.1, h1.2.1, h1.2.2]
    by_cases hk : 0 < e.hp ∧ (damageEnemy p score bullets e).2.2.2.hp ≤ 0
    · simp [hk, deaths]
      constructor <;> ring
    · have : ¬ (0 < e.hp ∧ (damageEnemy p score bullets e).2.2.2.hp ≤ 0) := hk
      simp only [this, if_false, add_zero]
      have hb : (decide (e.hp > 0) && decide ((damageEnemy p score bullets e).2.2.2.hp ≤ 0)) = false := by
        simpa using hk
      simp [hb, deaths]


/-- C3 (as stated) fails: with currency 90 of at most 100 and two enemies
killed in the same pass, the currency becomes 110, above `maxMoney`. -/
theorem C3_counterexample :
    (0 ≤ (90 : Int) ∧ (90 : Int) ≤ 100) ∧
    (damageEnemies { x := 0, y := 0, money := 90, maxMoney := 100 } 0
      [{ x := 5, y := 6, dx := 0, dy := -1, symbol := 'o' },
       { x := 9, y := 4, dx := 0, dy := -1, symbol := 'o' }]
      [Enemy.new 5 5, Enemy.new 10 4]).1.money = 110 ∧
    ¬ ((damageEnemies { x := 0, y := 0, money := 90, maxMoney := 100 } 0
      [{ x := 5, y := 6, dx := 0, dy := -1, symbol := 'o' },
       { x := 9, y := 4, dx := 0, dy := -1, symbol := 'o' }]
      [Enemy.new 5 5, Enemy.new 10 4]).1.money ≤
      (damageEnemies { x := 0, y := 0, money := 90, maxMoney := 100 } 0
      [{ x := 5, y := 6, dx := 0, dy := -1, symbol := 'o' },
       { x := 9, y := 4, dx := 0, dy := -1, symbol := 'o' }]
      [Enemy.new 5 5, Enemy.new 10 4]).1.maxMoney) := by
  decide

/-- C3 (amended): a currency award adds exactly 10 and is not capped. For every
starting currency in `[0, maxMoney]`, after a pass in which `k` enemies die
the currency is at least 0 and at most `maxMoney + 10 * k`, `maxMoney` itself
is unchanged, and the currency is within `[0, maxMoney]` exactly when
`start + 10 * k ≤ maxMoney`; a single lethal hit turns currency `m` into
`m + 10`. -/
theorem C3_award_adds_ten_uncapped (p : Player) (score : Int) (bullets : List Bullet)
    (enemies : List Enemy) (h0 : 0 ≤ p.money) (h1 : p.money ≤ p.maxMoney) :
    0 ≤ (damageEnemies p score bullets enemies).1.money ∧
    (damageEnemies p score bullets enemies).1.money ≤
      p.maxMoney + 10 * (deaths enemies (damageEnemies p score bullets enemies).2.2.2 : Int) ∧
    (damageEnemies p score bullets enemies).1.maxMoney = p.maxMoney ∧
    ((damageEnemies p score bullets enemies).1.money ≤
        (damageEnemies p score bullets enemies).1.maxMoney ↔
      p.money + 10 * (deaths enemies (damageEnemies p score bullets enemies).2.2.2 : Int)
        ≤ p.maxMoney) ∧
    (∀ (s : Scan) (b : Bullet), s.player = p → 0 < s.enemy.hp →
      s.enemy.hp - hitDmg p ≤ 0 → (hitApply s b).1.player.money = p.money + 10) := by
  have h := damageEnemies_reward enemies p score bullets
  refine ⟨?_, ?_, h.2.2, ?_, ?_⟩
  · rw [h.1]; omega
  · rw [h.1]; omega
  · rw [h.1, h.2.2]
  · intro s b hs hp hl
    subst hs
    rw [(hitApply_reward s b).1]
    simp [hp, hl]

/-- Witness for the amended C3: currency 90, two kills. -/
theorem C3_award_adds_ten_uncapped_witness :
    (0 ≤ (90 : Int) ∧ (90 : Int) ≤ 100) ∧
    0 ≤ (damageEnemies { x := 0, y := 0, money := 90, maxMoney := 100 } 0
      [{ x := 5, y := 6, dx := 0, dy := -1, symbol := 'o' },
       { x := 9, y := 4, dx := 0, dy := -1, symbol := 'o' }]
      [Enemy.new 5 5, Enemy.new 10 4]).1.money :=
  ⟨by decide, (C3_award_adds_ten_uncapped { x := 0, y := 0, money := 90, maxMoney := 100 } 0
      [{ x := 5, y := 6, dx := 0, dy := -1, symbol := 'o' },
       { x := 9, y := 4, dx := 0, dy := -1, symbol := 'o' }]
      [Enemy.new 5 5, Enemy.new 10 4] (by decide) (by decide)).1⟩

theorem shapeCells_basic : shapeCells 0 [['#']] = [(0, 0)] := by decide

/-- A player shot at Manhattan distance exactly 1 from a fresh Basic enemy,
with player damage 10, kills it. -/
theorem damageEnemy_adjacent_kill (p : Player) (score ex ey bx vy dx dy : Int)
    (hd : p.damage = 10) (h1 : |bx - ex| + |vy - ey| = 1) :
    (damageEnemy p score [{ x := bx, y := vy, dx := dx, dy := dy, symbol := 'o' }]
      (Enemy.new ex ey)).2.2.2.hp = 0 ∧
    (damageEnemy p score [{ x := bx, y := vy, dx := dx, dy := dy, symbol := 'o' }]
      (Enemy.new ex ey)).2.2.1 = [{ x := -100, y := vy, dx := dx, dy := dy, symbol := 'o' }] := by
  have hq : qualifies (Enemy.new ex ey)
      { x := bx, y := vy, dx := dx, dy := dy, symbol := 'o' } = true := by
    simp only [qualifies, Enemy.new, shapeCells_basic, withinOne, List.any_cons, List.any_nil,
      Bool.or_false, decide_True, Bool.true_and, decide_eq_true_eq, add_zero]
    split_ifs <;> rw [abs_eq_max_neg] at h1 <;> rw [abs_eq_max_neg] at h1 <;> omega
  have hdm : hitDmg p = 10 := by simp [hitDmg, hd]
  simp only [damageEnemy, Enemy.isAlive]
  have ha : decide ((Enemy.new ex ey).hp > 0) = true := by simp [Enemy.new]
  simp only [ha, Bool.true_eq_false, if_false]
  rw [hitBullets_cons_shot _ _ _ rfl rfl]
  rw [if_pos (by exact hq)]
  simp only [hitBullets, hitApply_enemy, hdm]
  simp [Enemy.new]


/-- C4: for every collection of enemies and bullets, one pass of the player
bullets over the enemies raises the currency by exactly `10 * k` and the score
by exactly `50 * k`, where `k` counts the enemies alive (`hp > 0`) before the
pass and dead (`hp ≤ 0`) after it. For each single enemy the reward is 10 and
50 when it goes from alive to dead and nothing otherwise, so an enemy that was
already dead, a non-lethal hit and a miss award nothing. A player shot at
Manhattan distance exactly 1 from a Basic enemy with 10 hit points, with
player damage 10, leaves it with `hp ≤ 0` and awards +10 and +50. -/
theorem C4_reward_per_kill (p : Player) (score : Int) (bullets : List Bullet)
    (enemies : List Enemy) :
    (damageEnemies p score bullets enemies).2.2.2.length = enemies.length ∧
    (damageEnemies p score bullets enemies).1.money =
      p.money + 10 * (deaths enemies (damageEnemies p score bullets enemies).2.2.2 : Int) ∧
    (damageEnemies p score bullets enemies).2.1 =
      score + 50 * (deaths enemies (damageEnemies p score bullets enemies).2.2.2 : Int) ∧
    (∀ e : Enemy,
      (damageEnemy p score bullets e).1.money =
        p.money + (if 0 < e.hp ∧ (damageEnemy p score bullets e).2.2.2.hp ≤ 0 then 10 else 0) ∧
      (damageEnemy p score bullets e).2.1 =
        score + (if 0 < e.hp ∧ (damageEnemy p score bullets e).2.2.2.hp ≤ 0 then 50 else 0)) ∧
    (∀ ex ey bx vy dx dy : Int, p.damage = 10 → |bx - ex| + |vy - ey| = 1 →
      (damageEnemies p score [{ x := bx, y := vy, dx := dx, dy := dy, symbol := 'o' }]
        [Enemy.new ex ey]).2.2.2.map (fun e => decide (e.hp ≤ 0)) = [true] ∧
      (damageEnemies p score [{ x := bx, y := vy, dx := dx, dy := dy, symbol := 'o' }]
        [Enemy.new ex ey]).1.money = p.money + 10 ∧
      (damageEnemies p score [{ x := bx, y := vy, dx := dx, dy := dy, symbol := 'o' }]
        [Enemy.new ex ey]).2.1 = score + 50) := by
  have h := damageEnemies_reward enemies p score bullets
  refine ⟨damageEnemies_length enemies p score bullets, h.1, h.2.1, ?_, ?_⟩
  · intro e
    exact ⟨(damageEnemy_reward p score bullets e).1, (damageEnemy_reward p score bullets e).2.1⟩
  · intro ex ey bx vy dx dy hd h1
    have hk := damageEnemy_adjacent_kill p score ex ey bx vy dx dy hd h1
    have hr := damageEnemy_reward p score
      [{ x := bx, y := vy, dx := dx, dy := dy, symbol := 'o' }] (Enemy.new ex ey)
    rw [hk.1] at hr
    have ha : (0 : Int) < (Enemy.new ex ey).hp := by simp [Enemy.new]
    simp only [damageEnemies, List.map_cons, List.map_nil, hk.1, hr.1, hr.2.1]
    simp [ha]

/-- Witness for C4: the shot at (5, 6) against the enemy at (5, 5). -/
theorem C4_reward_per_kill_witness :
    (damageEnemies { x := 29, y := 16 } 0 [{ x := 5, y := 6, dx := 0, dy := -1, symbol := 'o' }]
      [Enemy.new 5 5]).1.money = 0 + 10 ∧
    (damageEnemies { x := 29, y := 16 } 0 [{ x := 5, y := 6, dx := 0, dy := -1, symbol := 'o' }]
      [Enemy.new 5 5]).2.1 = 0 + 50 :=
  ((C4_reward_per_kill { x := 29, y := 16 } 0 [] []).2.2.2.2 5 5 5 6 0 (-1) rfl (by decide)).2


/-! ## The player-bullet pass: how many bullets hit one enemy -/

theorem qualifies_hitApply (s : Scan) (b : Bullet) :
    qualifies (hitApply s b).1.enemy = qualifies s.enemy := by
  funext b2
  rw [hitApply_enemy]
  rfl

theorem markSpent_cons_false (q : Bullet → Bool) (n : Nat) (b : Bullet) (bs : List Bullet)
    (h : q b = false) : markSpent q n (b :: bs) = b :: markSpent q n bs := by
  cases n with
  | zero => simp [markSpent]
  | succ n => simp [markSpent, h]

theorem ceil_step (hp d : Int) (hd : 0 < d) : (hp + d - 1) / d = (hp - 1) / d + 1 := by
  have : hp + d - 1 = (hp - 1) + 1 * d := by ring
  rw [this, Int.add_mul_ediv_right _ _ (by omega)]

theorem hitsOn_cons_false (q : Bullet → Bool) (hp d : Int) (b : Bullet) (bs : List Bullet)
    (h : q b = false) : hitsOn q hp d (b :: bs) = hitsOn q hp d bs := by
  simp [hitsOn, List.countP_cons, h]

theorem hitsOn_cons_lethal (q : Bullet → Bool) (hp d : Int) (b : Bullet) (bs : List Bullet)
    (h : q b = true) (hp0 : 0 < hp) (hl : hp - d ≤ 0) : hitsOn q hp d (b :: bs) = 1 := by
  have hd : 0 < d := by omega
  have h0 : (hp - 1) / d = 0 := Int.ediv_eq_zero_of_lt (by omega) (by omega)
  simp only [hitsOn, List.countP_cons, h, if_true, ceil_step hp d hd, h0]
  simp

theorem hitsOn_cons_more (q : Bullet → Bool) (hp d : Int) (b : Bullet) (bs : List Bullet)
    (h : q b = true) (hd : 0 < d) (hl : ¬ hp - d ≤ 0) :
    hitsOn q hp d (b :: bs) = hitsOn q (hp - d) d bs + 1 := by
  have h0 : 0 ≤ (hp - d - 1) / d := Int.ediv_nonneg (by omega) (by omega)
  have h1 : hp - 1 = (hp - d - 1) + 1 * d := by ring
  have h2 : (hp - 1) / d = (hp - d - 1) / d + 1 := by
    rw [h1, Int.add_mul_ediv_right _ _ (by omega)]
  simp only [hitsOn, List.countP_cons, h, if_true, ceil_step hp d hd, ceil_step (hp - d) d hd, h2]
  omega

/-- The scan of the bullets against one live enemy, at positive damage: the
first `hitsOn` qualifying bullets hit, each taking the damage off the enemy and
being marked spent; the scan changes nothing else in the collection. -/
theorem hitBullets_hits (bs : List Bullet) :
    ∀ s : Scan, s.enemyDied = false → 0 < s.enemy.hp → 0 < s.player.damage →
      (hitBullets s bs).1.enemy.hp =
        s.enemy.hp - s.player.damage * (hitsOn (qualifies s.enemy) s.enemy.hp s.player.damage bs : Int) ∧
      (hitBullets s bs).2 =
        markSpent (qualifies s.enemy) (hitsOn (qualifies s.enemy) s.enemy.hp s.player.damage bs) bs := by
  induction bs with
  | nil =>
    intro s _ _ _
    simp [hitBullets, hitsOn]
    cases h : ((s.enemy.hp + s.player.damage - 1) / s.player.damage).toNat <;> simp [markSpent]
  | cons b bs ih =>
    intro s hdied hp hd
    have hdm : hitDmg s.player = s.player.damage := by simp [hitDmg]; omega
    by_cases ho : b.symbol = 'o'
    · rw [hitBullets_cons_shot s b bs hdied ho]
      by_cases hq : qualifies s.enemy b = true
      · rw [if_pos hq]
        have hr := hitApply_reward s b
        have he := hitApply_enemy s b
        have hpl := (hitApply_player s b).2.2.1
        by_cases hl : s.enemy.hp - s.player.damage ≤ 0
        · have hdead : (hitApply s b).1.enemyDied = true := by
            rw [hr.2.2, hdm]; simp [hp, hl]
          rw [hitBullets_died _ _ hdead, hitsOn_cons_lethal _ _ _ _ _ hq hp hl, he, hdm]
          simp [markSpent, hq]
        · have halive : (hitApply s b).1.enemyDied = false := by
            rw [hr.2.2, hdm]; simp [hl, hdied]
          have hhp : (hitApply s b).1.enemy.hp = s.enemy.hp - s.player.damage := by
            rw [he, hdm]
          have h := ih (hitApply s b).1 halive (by rw [hhp]; omega) (by rw [hpl]; exact hd)
          rw [qualifies_hitApply, hhp, hpl] at h
          rw [hitsOn_cons_more _ _ _ _ _ hq hd hl, h.1, h.2]
          constructor
          · push_cast; ring
          · simp [markSpent, hq]
      · rw [if_neg hq]
        have hq2 : qualifies s.enemy b = false := by simpa using hq
        have h := ih s hdied hp hd
        rw [hitsOn_cons_false _ _ _ _ _ hq2, markSpent_cons_false _ _ _ _ hq2]
        exact ⟨h.1, by rw [h.2]⟩
    · rw [hitBullets_cons_other s b bs hdied ho]
      have hq2 : qualifies s.enemy b = false := by simp [qualifies, ho]
      have h := ih s hdied hp hd
      rw [hitsOn_cons_false _ _ _ _ _ hq2, markSpent_cons_false _ _ _ _ hq2]
      exact ⟨h.1, by rw [h.2]⟩

theorem hitsOn_le_one_iff (q : Bullet → Bool) (hp d : Int) (bs : List Bullet)
    (hp0 : 0 < hp) (hd : 0 < d) :
    hitsOn q hp d bs ≤ 1 ↔ (bs.countP q ≤ 1 ∨ hp ≤ d) := by
  have h0 : 0 ≤ (hp - 1) / d := Int.ediv_nonneg (by omega) (by omega)
  have h1 : (hp - 1) / d < 1 ↔ hp - 1 < 1 * d := Int.ediv_lt_iff_lt_mul hd
  simp only [hitsOn, ceil_step hp d hd]
  constructor
  · intro h
    by_cases hc : bs.countP q ≤ 1
    · exact Or.inl hc
    · right
      have : (hp - 1) / d < 1 := by omega
      have := h1.mp this
      omega
  · rintro (hc | hc)
    · omega
    · have : (hp - 1) / d < 1 := h1.mpr (by omega)
      omega


/-- C5 (as stated) fails: a Hazard enemy with 20 hit points and two adjacent
player shots, at damage 10, is damaged by both bullets in one pass: its hit
points drop by 20, more than the damage value, and both bullets are marked
spent. -/
theorem C5_counterexample :
    ¬ ((RayEnemy.new 29 10).hp -
        (damageEnemy { x := 29, y := 16, damage := 10 } 0
          [{ x := 29, y := 11, dx := 0, dy := -1, symbol := 'o' },
           { x := 29, y := 9, dx := 0, dy := 1, symbol := 'o' }] (RayEnemy.new 29 10)).2.2.2.hp
        ≤ 10) ∧
    (damageEnemy { x := 29, y := 16, damage := 10 } 0
          [{ x := 29, y := 11, dx := 0, dy := -1, symbol := 'o' },
           { x := 29, y := 9, dx := 0, dy := 1, symbol := 'o' }] (RayEnemy.new 29 10)).2.2.1 =
      [{ x := -100, y := 11, dx := 0, dy := -1, symbol := 'o' },
       { x := -100, y := 9, dx := 0, dy := 1, symbol := 'o' }] := by
  decide

/-- C5 (amended): for every live enemy and every bullet collection, at player
damage `d > 0`, the scan of the bullets against the enemy stops only at a
lethal hit. Exactly `n = min q ⌈hp / d⌉` bullets damage it, where `q` is the
number of player shots within Manhattan distance 1 of its footprint: they are
the first `n` such bullets, each is marked spent, no other bullet changes, and
`hp` drops by `n * d`. At most one bullet damages the enemy exactly when
`q ≤ 1` or the first hit is lethal (`hp ≤ d`). -/
theorem C5_bullets_hit_until_lethal (p : Player) (score : Int) (bullets : List Bullet)
    (e : Enemy) (ha : 0 < e.hp) (hd : 0 < p.damage) :
    (damageEnemy p score bullets e).2.2.2.hp =
      e.hp - p.damage * (hitsOn (qualifies e) e.hp p.damage bullets : Int) ∧
    (damageEnemy p score bullets e).2.2.1 =
      markSpent (qualifies e) (hitsOn (qualifies e) e.hp p.damage bullets) bullets ∧
    hitsOn (qualifies e) e.hp p.damage bullets ≤ bullets.countP (qualifies e) ∧
    (hitsOn (qualifies e) e.hp p.damage bullets ≤ 1 ↔
      (bullets.countP (qualifies e) ≤ 1 ∨ e.hp ≤ p.damage)) := by
  have h := hitBullets_hits bullets
    { player := p, score := score, enemy := e, enemyDied := false } rfl ha hd
  have hal : decide (e.hp > 0) = true := by simpa using ha
  simp only [damageEnemy, Enemy.isAlive, hal, Bool.true_eq_false, if_false]
  refine ⟨h.1, h.2, ?_, hitsOn_le_one_iff _ _ _ _ ha hd⟩
  simp only [hitsOn]
  omega

/-- Witness for the amended C5: the two shots against the Hazard enemy. -/
theorem C5_bullets_hit_until_lethal_witness :
    (damageEnemy { x := 29, y := 16, damage := 10 } 0
          [{ x := 29, y := 11, dx := 0, dy := -1, symbol := 'o' },
           { x := 29, y := 9, dx := 0, dy := 1, symbol := 'o' }] (RayEnemy.new 29 10)).2.2.2.hp =
      (RayEnemy.new 29 10).hp - 10 * (hitsOn (qualifies (RayEnemy.new 29 10)) (RayEnemy.new 29 10).hp 10
          [{ x := 29, y := 11, dx := 0, dy := -1, symbol := 'o' },
           { x := 29, y := 9, dx := 0, dy := 1, symbol := 'o' }] : Int) :=
  (C5_bullets_hit_until_lethal { x := 29, y := 16, damage := 10 } 0 _ (RayEnemy.new 29 10)
    (by decide) (by decide)).1

/-! ## The hit test -/

theorem mem_rowCells (sy : Int) (row : List Char) :
    ∀ (sx0 : Int) (c : Int × Int), c ∈ rowCells sy sx0 row ↔
      ∃ (j : Nat) (ch : Char), row[j]? = some ch ∧ ch ≠ ' ' ∧ c = (sx0 + (j : Int), sy) := by
  induction row with
  | nil => intro sx0 c; simp [rowCells]
  | cons a row ih =>
    intro sx0 c
    have hstep : c ∈ rowCells sy sx0 (a :: row) ↔
        ((a ≠ ' ' ∧ c = (sx0, sy)) ∨ c ∈ rowCells sy (sx0 + 1) row) := by
      simp only [rowCells]
      split_ifs with h
      · simp [h]
      · simp [h]
    rw [hstep, ih]
    constructor
    · rintro (⟨ha, hc⟩ | ⟨j, ch, hj, hch, hc⟩)
      · exact ⟨0, a, by simp, ha, by simp [hc]⟩
      · refine ⟨j + 1, ch, by simpa using hj, hch, ?_⟩
        rw [hc]; push_cast; congr 1; ring
    · rintro ⟨j, ch, hj, hch, hc⟩
      cases j with
      | zero =>
        left
        simp at hj
        subst hj
        exact ⟨hch, by simpa using hc⟩
      | succ j =>
        right
        refine ⟨j, ch, by simpa using hj, hch, ?_⟩
        rw [hc]; push_cast; congr 1; ring

theorem mem_shapeCells (shape : List (List Char)) :
    ∀ (sy0 : Int) (c : Int × Int), c ∈ shapeCells sy0 shape ↔
      ∃ (i j : Nat) (row : List Char) (ch : Char),
        shape[i]? = some row ∧ row[j]? = some ch ∧ ch ≠ ' ' ∧ c = ((j : Int), sy0 + (i : Int)) := by
  induction shape with
  | nil => intro sy0 c; simp [shapeCells]
  | cons r shape ih =>
    intro sy0 c
    simp only [shapeCells, List.mem_append, mem_rowCells, ih]
    constructor
    · rintro (⟨j, ch, hj, hch, hc⟩ | ⟨i, j, row, ch, hi, hj, hch, hc⟩)
      · exact ⟨0, j, r, ch, by simp, hj, hch, by simp [hc]⟩
      · refine ⟨i + 1, j, row, ch, by simpa using hi, hj, hch, ?_⟩
        rw [hc]; push_cast; congr 1; ring
    · rintro ⟨i, j, row, ch, hi, hj, hch, hc⟩
      cases i with
      | zero =>
        left
        simp at hi
        subst hi
        exact ⟨j, ch, hj, hch, by simpa using hc⟩
      | succ i =>
        right
        refine ⟨i, j, row, ch, by simpa using hi, hj, hch, ?_⟩
        rw [hc]; push_cast; congr 1; ring

theorem withinOne_iff (e : Enemy) (b : Bullet) (c : Int × Int) :
    withinOne e b c = true ↔ |b.x - (e.x + c.1)| + |b.y - (e.y + c.2)| ≤ 1 := by
  simp only [withinOne, decide_eq_true_eq]
  rw [abs_eq_max_neg, abs_eq_max_neg]
  split_ifs <;> omega

theorem qualifies_iff (e : Enemy) (b : Bullet) :
    qualifies e b = true ↔ (b.symbol = 'o' ∧ inReach e b) := by
  simp only [qualifies, Bool.and_eq_true, decide_eq_true_eq, List.any_eq_true, inReach,
    mem_shapeCells, withinOne_iff]
  constructor
  · rintro ⟨ho, c, ⟨i, j, row, ch, hi, hj, hch, hc⟩, hw⟩
    subst hc
    exact ⟨ho, i, j, row, ch, hi, hj, hch, by simpa using hw⟩
  · rintro ⟨ho, i, j, row, ch, hi, hj, hch, hw⟩
    exact ⟨ho, ((j : Int), 0 + (i : Int)), ⟨i, j, row, ch, hi, hj, hch, rfl⟩, by simpa using hw⟩


theorem damageEnemy_single (p : Player) (score : Int) (e : Enemy) (b : Bullet) (ha : 0 < e.hp) :
    damageEnemy p score [b] e =
      if qualifies e b = true then
        ((hitApply { player := p, score := score, enemy := e, enemyDied := false } b).1.player,
         (hitApply { player := p, score := score, enemy := e, enemyDied := false } b).1.score,
         [{ b with x := -100 }],
         (hitApply { player := p, score := score, enemy := e, enemyDied := false } b).1.enemy)
      else (p, score, [b], e) := by
  have hal : decide (e.hp > 0) = true := by simpa using ha
  simp only [damageEnemy, Enemy.isAlive, hal, Bool.true_eq_false, if_false]
  by_cases ho : b.symbol = 'o'
  · rw [hitBullets_cons_shot _ _ _ rfl ho]
    by_cases hq : qualifies e b = true
    · rw [if_pos (by exact hq), if_pos hq]
      simp [hitBullets]
    · rw [if_neg (by exact hq), if_neg hq]
      simp [hitBullets]
  · rw [hitBullets_cons_other _ _ _ rfl ho]
    have hq : ¬ qualifies e b = true := by simp [qualifies, ho]
    rw [if_neg hq]
    simp [hitBullets]

/-- C6: for every live enemy, whatever its footprint (Basic `#`, Hazard `@`,
Boss `<#>` over ` V`), and a single bullet, the bullet damages the enemy iff it
is a player shot (`'o'`) and some non-blank footprint cell `(ex+sx, ey+sy)` has
`|bx-(ex+sx)| + |by-(ey+sy)| ≤ 1`. When it does, the enemy loses the player
damage and the bullet is marked spent; otherwise nothing changes, so a bullet
whose nearest cells are at Manhattan distance 2 does not hit and bullets of
kind `'*'` or `'O'` never damage an enemy. -/
theorem C6_hit_iff_within_distance_one (p : Player) (score : Int) (e : Enemy) (b : Bullet)
    (ha : 0 < e.hp) (hd : 0 < p.damage) :
    ((damageEnemy p score [b] e).2.2.2.hp < e.hp ↔ (b.symbol = 'o' ∧ inReach e b)) ∧
    ((b.symbol = 'o' ∧ inReach e b) →
      (damageEnemy p score [b] e).2.2.2.hp = e.hp - p.damage ∧
      (damageEnemy p score [b] e).2.2.1 = [{ b with x := -100 }]) ∧
    (¬ (b.symbol = 'o' ∧ inReach e b) → damageEnemy p score [b] e = (p, score, [b], e)) ∧
    ((b.symbol = '*' ∨ b.symbol = 'O') → damageEnemy p score [b] e = (p, score, [b], e)) ∧
    (shapeCells 0 (Enemy.new e.x e.y).shape = [(0, 0)] ∧
     shapeCells 0 (RayEnemy.new e.x e.y).shape = [(0, 0)] ∧
     shapeCells 0 (Boss.new e.x e.y).shape = [(0, 0), (1, 0), (2, 0), (1, 1)]) := by
  have hs := damageEnemy_single p score e b ha
  have hdm : hitDmg p = p.damage := by simp [hitDmg]; omega
  have hq := qualifies_iff e b
  have hmiss : ¬ (b.symbol = 'o' ∧ inReach e b) → damageEnemy p score [b] e = (p, score, [b], e) := by
    intro hn
    rw [hs, if_neg (fun h => hn (hq.1 h))]
  have hhit : (b.symbol = 'o' ∧ inReach e b) →
      (damageEnemy p score [b] e).2.2.2.hp = e.hp - p.damage ∧
      (damageEnemy p score [b] e).2.2.1 = [{ b with x := -100 }] := by
    intro hy
    rw [hs, if_pos (hq.2 hy)]
    simp only [hitApply_enemy, hdm, and_self]
  refine ⟨?_, hhit, hmiss, ?_, ?_⟩
  · constructor
    · intro hlt
      by_contra hn
      rw [hmiss hn] at hlt
      simp at hlt
    · intro hy
      rw [(hhit hy).1]
      omega
  · intro hk
    apply hmiss
    rintro ⟨ho, _⟩
    rw [ho] at hk
    revert hk
    decide
  · exact ⟨rfl, rfl, rfl⟩

/-- Witness for C6: a shot one cell below a Basic enemy. -/
theorem C6_hit_iff_within_distance_one_witness :
    (damageEnemy { x := 29, y := 16 } 0 [{ x := 5, y := 6, dx := 0, dy := -1, symbol := 'o' }]
        (Enemy.new 5 5)).2.2.2.hp < (Enemy.new 5 5).hp ↔
      ((({ x := 5, y := 6, dx := 0, dy := -1, symbol := 'o' } : Bullet).symbol = 'o') ∧
        inReach (Enemy.new 5 5) { x := 5, y := 6, dx := 0, dy := -1, symbol := 'o' }) :=
  (C6_hit_iff_within_distance_one { x := 29, y := 16 } 0 (Enemy.new 5 5)
    { x := 5, y := 6, dx := 0, dy := -1, symbol := 'o' } (by decide) (by decide)).1

/-! ## Life steal -/

/-- C7: whenever a player bullet damages an enemy with pre-hit hit points
`h > 0`, at player damage `d ≥ 0` and with the player within `hp ≤ maxHp`: for
a life-steal percent `pct > 0` the player's hit points become
`min maxHp (hp + ⌊min h d * pct / 100⌋)`, and for `pct = 0` they are unchanged.
The heal is computed from `min h d`, so overkill `d - h` never contributes. -/
theorem C7_life_steal_heal (s : Scan) (b : Bullet) (c : Int × Int)
    (hw : withinOne s.enemy b c = true) (hh : 0 < s.enemy.hp) (hd : 0 ≤ s.player.damage)
    (hhp : s.player.hp ≤ s.player.maxHp) :
    (0 < s.player.lifeStealPercent →
      (hitCell s b c).1.player.hp =
        min s.player.maxHp
          (s.player.hp + (min s.enemy.hp s.player.damage * s.player.lifeStealPercent) / 100)) ∧
    (s.player.lifeStealPercent = 0 → (hitCell s b c).1.player.hp = s.player.hp) := by
  have hdm : hitDmg s.player = s.player.damage := by simp [hitDmg]; omega
  have hde : hitDealt s.enemy.hp s.player.damage = min s.enemy.hp s.player.damage := by
    simp only [hitDealt]
    split_ifs <;> omega
  have hm : 0 ≤ min s.enemy.hp s.player.damage := by omega
  have hz : min s.enemy.hp s.player.damage = 0 →
      (min s.enemy.hp s.player.damage * s.player.lifeStealPercent) / 100 = 0 := by
    intro h0; rw [h0]; simp
  simp only [hitCell, hw, if_true, (hitApply_player s b).1, hdm, hde]
  constructor
  · intro hpct
    have hnn : 0 ≤ min s.enemy.hp s.player.damage * s.player.lifeStealPercent :=
      Int.mul_nonneg hm (by omega)
    have ht : Int.tdiv (min s.enemy.hp s.player.damage * s.player.lifeStealPercent) 100 =
        (min s.enemy.hp s.player.damage * s.player.lifeStealPercent) / 100 :=
      Int.tdiv_eq_ediv hnn (by decide)
    have hq : 0 ≤ (min s.enemy.hp s.player.damage * s.player.lifeStealPercent) / 100 :=
      Int.ediv_nonneg hnn (by decide)
    simp only [lifeSteal, ht]
    generalize (min s.enemy.hp s.player.damage * s.player.lifeStealPercent) / 100 = heal at hq hz ⊢
    generalize min s.enemy.hp s.player.damage = m at hm hz ⊢
    rw [min_def]
    split_ifs <;> (try simp only []) <;> omega
  · intro hz2
    simp [lifeSteal, hz2]

/-- Witness for C7: 5 of 10 hit points, 50 percent life steal, a lethal hit
for 10. -/
theorem C7_life_steal_heal_witness :
    (hitCell
        { player := { x := 29, y := 16, hp := 5, lifeStealPercent := 50 }, score := 0,
          enemy := Enemy.new 5 5, enemyDied := false }
        { x := 5, y := 6, dx := 0, dy := -1, symbol := 'o' } (0, 0)).1.player.hp =
      min 10 (5 + (min 10 10 * 50) / 100) :=
  (C7_life_steal_heal
        { player := { x := 29, y := 16, hp := 5, lifeStealPercent := 50 }, score := 0,
          enemy := Enemy.new 5 5, enemyDied := false }
        { x := 5, y := 6, dx := 0, dy := -1, symbol := 'o' } (0, 0)
        (by decide) (by decide) (by decide) (by decide)).1 (by decide)


/-! ## Enemy and boss bullets against the player -/

theorem Player.shape_cells : shapeCells 0 Player.shape = [(1, 0), (0, 1), (1, 1), (2, 1)] := by
  decide

theorem Player.collides_iff (p : Player) (b : Bullet) :
    p.collides b = true ↔ onPlayerCell p.x p.y b := by
  simp only [Player.collides, Player.shape_cells, List.any_cons, List.any_nil, Bool.or_false,
    Bool.or_eq_true, Bool.and_eq_true, decide_eq_true_eq, onPlayerCell, add_zero]

theorem bulletDamage_nonneg (px py : Int) (b : Bullet) : 0 ≤ bulletDamage px py b := by
  simp only [bulletDamage]
  split_ifs <;> omega

theorem bulletDamage_sum_nonneg (px py : Int) (bs : List Bullet) :
    0 ≤ (bs.map (bulletDamage px py)).sum := by
  induction bs with
  | nil => simp
  | cons b bs ih =>
    have := bulletDamage_nonneg px py b
    simp only [List.map_cons, List.sum_cons]
    omega

/-- The pass of the enemy and boss bullets over a live player: the hit points
drop by the total damage of the bullets, floored at 0, and `running` is
cleared exactly when they reach 0. -/
theorem bulletsVsPlayer_spec (bullets : List Bullet) :
    ∀ (p : Player) (running : Bool), 0 < p.hp →
      (bulletsVsPlayer p running bullets).1.hp =
        max 0 (p.hp - (bullets.map (bulletDamage p.x p.y)).sum) ∧
      (bulletsVsPlayer p running bullets).2 =
        (running && decide (0 < p.hp - (bullets.map (bulletDamage p.x p.y)).sum)) := by
  induction bullets with
  | nil =>
    intro p running hp
    simp [bulletsVsPlayer, hp]
    omega
  | cons b bs ih =>
    intro p running hp
    have hs := bulletDamage_sum_nonneg p.x p.y bs
    simp only [bulletsVsPlayer, List.map_cons, List.sum_cons]
    by_cases hc : (b.symbol = '*' ∨ b.symbol = 'O') ∧ p.collides b = true
    · rw [if_pos hc]
      have hcell := (Player.collides_iff p b).1 hc.2
      have hdmg : bulletDamage p.x p.y b = (if b.symbol = 'O' then 3 else 1) := by
        simp only [bulletDamage, hcell, if_true]
        rcases hc.1 with h1 | h1 <;> rw [h1] <;> decide
      have hd1 : 0 ≤ bulletDamage p.x p.y b := bulletDamage_nonneg _ _ _
      simp only [hdmg] at hd1 ⊢
      generalize (if b.symbol = 'O' then (3 : Int) else 1) = dmg at hd1 ⊢
      by_cases hl : p.hp - dmg ≤ 0
      · have h0 : (if p.hp - dmg < 0 then 0 else p.hp - dmg) = 0 := by
          split_ifs <;> omega
        simp only [h0, le_refl, if_true]
        constructor
        · omega
        · have : ¬ (0 < p.hp - (dmg + (bs.map (bulletDamage p.x p.y)).sum)) := by omega
          simp [this]
      · have h0 : (if p.hp - dmg < 0 then 0 else p.hp - dmg) = p.hp - dmg := by
          split_ifs <;> omega
        simp only [h0, hl, if_false]
        have := ih { p with hp := p.hp - dmg } running (by simp only; omega)
        simp only at this
        rw [this.1, this.2]
        constructor
        · congr 1; ring
        · congr 2; ring_nf
    · rw [if_neg hc]
      have hdmg : bulletDamage p.x p.y b = 0 := by
        simp only [bulletDamage]
        split_ifs with h1 h2 h3
        · exact absurd ⟨Or.inl h2, (Player.collides_iff p b).2 h1⟩ hc
        · exact absurd ⟨Or.inr h3, (Player.collides_iff p b).2 h1⟩ hc
        · rfl
        · rfl
      simp only [hdmg, zero_add]
      exact ih p running hp

/-- C8: in the pass of enemy bullets over a live player, a bullet damages the
player iff its kind is `'*'` or `'O'` and its cell is one of the four occupied
footprint cells `(x+1,y)`, `(x,y+1)`, `(x+1,y+1)`, `(x+2,y+1)`; the blank
corners `(x,y)` and `(x+2,y)` do not count. An enemy shot subtracts 1 and a
boss orb 3: over the whole collection the hit points become the old value less
the total, floored at 0, and `running` is cleared exactly when they reach 0.
With 10 of 10 hit points and one `'*'` on the centre cell the result is 9. -/
theorem C8_enemy_bullet_damage (p : Player) (running : Bool) (bullets : List Bullet)
    (h : 0 < p.hp) :
    (bulletsVsPlayer p running bullets).1.hp =
      max 0 (p.hp - (bullets.map (bulletDamage p.x p.y)).sum) ∧
    (bulletsVsPlayer p running bullets).2 =
      (running && decide (0 < p.hp - (bullets.map (bulletDamage p.x p.y)).sum)) ∧
    (∀ b : Bullet, (bulletsVsPlayer p running [b]).1.hp < p.hp ↔
      ((b.symbol = '*' ∨ b.symbol = 'O') ∧ onPlayerCell p.x p.y b)) ∧
    (∀ b : Bullet, onPlayerCell p.x p.y b → b.symbol = '*' →
      (bulletsVsPlayer p running [b]).1.hp = max 0 (p.hp - 1)) ∧
    (∀ b : Bullet, onPlayerCell p.x p.y b → b.symbol = 'O' →
      (bulletsVsPlayer p running [b]).1.hp = max 0 (p.hp - 3)) ∧
    (∀ b : Bullet, (b.x = p.x ∧ b.y = p.y) ∨ (b.x = p.x + 2 ∧ b.y = p.y) →
      (bulletsVsPlayer p running [b]).1.hp = p.hp) ∧
    (bulletsVsPlayer { x := 29, y := 16, hp := 10, maxHp := 10 } true
      [{ x := 30, y := 17, dx := 0, dy := 1, symbol := '*' }]).1.hp = 9 := by
  have hs := bulletsVsPlayer_spec bullets p running h
  have h1 : ∀ b : Bullet, (bulletsVsPlayer p running [b]).1.hp =
      max 0 (p.hp - bulletDamage p.x p.y b) := by
    intro b
    have := (bulletsVsPlayer_spec [b] p running h).1
    simpa using this
  refine ⟨hs.1, hs.2, ?_, ?_, ?_, ?_, by decide⟩
  · intro b
    rw [h1 b]
    simp only [bulletDamage]
    constructor
    · intro hlt
      split_ifs at hlt with hc ha hb
      · exact ⟨Or.inl ha, hc⟩
      · exact ⟨Or.inr hb, hc⟩
      · omega
      · omega
    · rintro ⟨hk, hc⟩
      rw [if_pos hc]
      rcases hk with hk | hk
      · rw [if_pos hk]; omega
      · have : ¬ b.symbol = '*' := by rw [hk]; decide
        rw [if_neg this, if_pos hk]; omega
  · intro b hc hk
    rw [h1 b]
    simp [bulletDamage, hc, hk]
  · intro b hc hk
    rw [h1 b]
    have : ¬ b.symbol = '*' := by rw [hk]; decide
    simp [bulletDamage, hc, hk]
  · intro b hb
    rw [h1 b]
    have : ¬ onPlayerCell p.x p.y b := by
      simp only [onPlayerCell]
      omega
    simp only [bulletDamage, this, if_false]
    omega

/-- Witness for C8: the initial player and one enemy shot on its centre cell. -/
theorem C8_enemy_bullet_damage_witness :
    (bulletsVsPlayer { x := 29, y := 16, hp := 10, maxHp := 10 } true
      [{ x := 30, y := 17, dx := 0, dy := 1, symbol := '*' }]).1.hp =
      max 0 (10 - ([{ x := 30, y := 17, dx := 0, dy := 1, symbol := '*' }].map
        (bulletDamage 29 16)).sum) :=
  (C8_enemy_bullet_damage { x := 29, y := 16, hp := 10, maxHp := 10 } true
      [{ x := 30, y := 17, dx := 0, dy := 1, symbol := '*' }] (by decide)).1


/-! ## The hazard phase cycle -/

theorem Enemy.decFireTimer_ray (e : Enemy) :
    e.decFireTimer.kind = e.kind ∧ e.decFireTimer.state = e.state ∧
    e.decFireTimer.timer = e.timer := by
  simp only [Enemy.decFireTimer]
  split_ifs <;> exact ⟨rfl, rfl, rfl⟩

theorem Enemy.pickBurst_ray (e : Enemy) (g : Rng) :
    (e.pickBurst g).1.kind = e.kind ∧ (e.pickBurst g).1.state = e.state ∧
    (e.pickBurst g).1.timer = e.timer := by
  simp only [Enemy.pickBurst]
  split_ifs <;> exact ⟨rfl, rfl, rfl⟩

theorem Enemy.stepMove_ray (e : Enemy) :
    e.stepMove.kind = e.kind ∧ e.stepMove.state = e.state ∧ e.stepMove.timer = e.timer := by
  simp only [Enemy.stepMove]
  split_ifs <;> exact ⟨rfl, rfl, rfl⟩

theorem Enemy.clampX_ray (e : Enemy) :
    e.clampX.kind = e.kind ∧ e.clampX.state = e.state ∧ e.clampX.timer = e.timer := by
  simp only [Enemy.clampX]
  split_ifs <;> exact ⟨rfl, rfl, rfl⟩

theorem Enemy.clampY_ray (e : Enemy) :
    e.clampY.kind = e.kind ∧ e.clampY.state = e.state ∧ e.clampY.timer = e.timer := by
  simp only [Enemy.clampY]
  split_ifs <;> exact ⟨rfl, rfl, rfl⟩

/-- The base update never touches the dynamic type or the hazard phase
fields. -/
theorem Enemy.update_ray (e : Enemy) (g : Rng) :
    (e.update g).1.kind = e.kind ∧ (e.update g).1.state = e.state ∧
    (e.update g).1.timer = e.timer := by
  simp only [Enemy.update]
  split_ifs
  · exact Enemy.decFireTimer_ray _
  · have h1 := Enemy.pickBurst_ray e g
    have h2 := Enemy.stepMove_ray (e.pickBurst g).1
    have h3 := Enemy.clampX_ray (e.pickBurst g).1.stepMove
    have h4 := Enemy.clampY_ray (e.pickBurst g).1.stepMove.clampX
    have h5 := Enemy.decFireTimer_ray (e.pickBurst g).1.stepMove.clampX.clampY
    simp only [h5, h4, h3, h2, h1, and_self]

theorem RayEnemy.frames :
    RayEnemy.COOLDOWN_FRAMES = 67 ∧ RayEnemy.FLASH_FRAMES = 17 ∧ RayEnemy.FIRE_FRAMES = 25 := by
  decide

/-- One hazard update: the phase timer counts down and the phase advances
when it reaches 0. -/
theorem RayEnemy.update_phase (e : Enemy) (g : Rng) :
    (RayEnemy.update e g).1.kind = e.kind ∧
    (e.state = RayState.Cooldown →
      (1 < e.timer → (RayEnemy.update e g).1.state = RayState.Cooldown ∧
        (RayEnemy.update e g).1.timer = e.timer - 1) ∧
      (e.timer ≤ 1 → (RayEnemy.update e g).1.state = RayState.Flashing ∧
        (RayEnemy.update e g).1.timer = 17)) ∧
    (e.state = RayState.Flashing →
      (1 < e.timer → (RayEnemy.update e g).1.state = RayState.Flashing ∧
        (RayEnemy.update e g).1.timer = e.timer - 1) ∧
      (e.timer ≤ 1 → (RayEnemy.update e g).1.state = RayState.Firing ∧
        (RayEnemy.update e g).1.timer = 25)) ∧
    (e.state = RayState.Firing →
      (1 < e.timer → (RayEnemy.update e g).1.state = RayState.Firing ∧
        (RayEnemy.update e g).1.timer = e.timer - 1) ∧
      (e.timer ≤ 1 → (RayEnemy.update e g).1.state = RayState.Cooldown ∧
        (RayEnemy.update e g).1.timer = 67)) := by
  have hu := Enemy.update_ray e g
  have hf := RayEnemy.frames
  refine ⟨?_, ?_, ?_, ?_⟩
  · unfold RayEnemy.update
    cases e.state <;> simp only [] <;> split_ifs <;> simp only [hu.1]
  · intro hs
    unfold RayEnemy.update
    rw [hs]
    simp only [hu.2.2, hu.2.1, hs, hf.2.1]
    constructor
    · intro ht
      rw [if_neg (by omega)]
      exact ⟨rfl, rfl⟩
    · intro ht
      rw [if_pos (by omega)]
      exact ⟨rfl, rfl⟩
  · intro hs
    unfold RayEnemy.update
    rw [hs]
    simp only [hs, hf.2.2]
    constructor
    · intro ht
      rw [if_neg (by omega)]
      exact ⟨rfl, rfl⟩
    · intro ht
      rw [if_pos (by omega)]
      exact ⟨rfl, rfl⟩
  · intro hs
    unfold RayEnemy.update
    rw [hs]
    simp only [hs, hf.1]
    constructor
    · intro ht
      rw [if_neg (by omega)]
      exact ⟨rfl, rfl⟩
    · intro ht
      rw [if_pos (by omega)]
      exact ⟨rfl, rfl⟩

/-- The phase and its timer after `n` updates of a fresh hazard enemy. -/
theorem RayEnemy.phase_after (x y : Int) (g : Rng) (n : Nat) :
    (iterUpdate n (RayEnemy.new x y) g).1.kind = EnemyKind.Ray ∧
    (n % 109 < 67 → (iterUpdate n (RayEnemy.new x y) g).1.state = RayState.Cooldown ∧
      (iterUpdate n (RayEnemy.new x y) g).1.timer = 67 - ((n % 109 : Nat) : Int)) ∧
    (67 ≤ n % 109 → n % 109 < 84 →
      (iterUpdate n (RayEnemy.new x y) g).1.state = RayState.Flashing ∧
      (iterUpdate n (RayEnemy.new x y) g).1.timer = 84 - ((n % 109 : Nat) : Int)) ∧
    (84 ≤ n % 109 → (iterUpdate n (RayEnemy.new x y) g).1.state = RayState.Firing ∧
      (iterUpdate n (RayEnemy.new x y) g).1.timer = 109 - ((n % 109 : Nat) : Int)) := by
  induction n with
  | zero =>
    refine ⟨rfl, fun _ => ⟨rfl, ?_⟩, fun h => by omega, fun h => by omega⟩
    simp [iterUpdate, RayEnemy.new, RayEnemy.frames.1]
  | succ n ih =>
    obtain ⟨hk, hc, hfl, hfi⟩ := ih
    have hstep : (iterUpdate (n + 1) (RayEnemy.new x y) g).1 =
        (RayEnemy.update (iterUpdate n (RayEnemy.new x y) g).1
          (iterUpdate n (RayEnemy.new x y) g).2).1 := by
      simp only [iterUpdate, Enemy.vUpdate, hk]
    obtain ⟨pk, pc, pfl, pfi⟩ := RayEnemy.update_phase (iterUpdate n (RayEnemy.new x y) g).1
      (iterUpdate n (RayEnemy.new x y) g).2
    rw [hstep]
    refine ⟨by rw [pk, hk], ?_, ?_, ?_⟩
    · intro h
      rcases Nat.lt_or_ge (n % 109) 67 with h1 | h1
      · obtain ⟨hs, ht⟩ := hc h1
        have := (pc hs).1 (by omega)
        exact ⟨this.1, by rw [this.2, ht]; omega⟩
      · rcases Nat.lt_or_ge (n % 109) 84 with h2 | h2
        · omega
        · obtain ⟨hs, ht⟩ := hfi h2
          have := (pfi hs).2 (by omega)
          exact ⟨this.1, by rw [this.2]; omega⟩
    · intro h h'
      rcases Nat.lt_or_ge (n % 109) 67 with h1 | h1
      · obtain ⟨hs, ht⟩ := hc h1
        have := (pc hs).2 (by omega)
        exact ⟨this.1, by rw [this.2]; omega⟩
      · obtain ⟨hs, ht⟩ := hfl h1 (by omega)
        have := (pfl hs).1 (by omega)
        exact ⟨this.1, by rw [this.2, ht]; omega⟩
    · intro h
      rcases Nat.lt_or_ge (n % 109) 84 with h1 | h1
      · obtain ⟨hs, ht⟩ := hfl (by omega) h1
        have := (pfl hs).2 (by omega)
        exact ⟨this.1, by rw [this.2]; omega⟩
      · obtain ⟨hs, ht⟩ := hfi h1
        have := (pfi hs).1 (by omega)
        exact ⟨this.1, by rw [this.2, ht]; omega⟩

/-- C10: the hazard phase lengths are the ceilings of the millisecond
durations over the 60 ms tick: `COOLDOWN_FRAMES = 67 = ⌈4000/60⌉`,
`FLASH_FRAMES = 17 = ⌈1000/60⌉`, `FIRE_FRAMES = 25 = ⌈1500/60⌉`. For a
freshly created Hazard enemy, after `n` calls of `update`, for every `n` and
every outcome of the random wander, the state is Cooldown if `n mod 109 < 67`,
Flashing if `67 ≤ n mod 109 < 84` and Firing if `84 ≤ n mod 109`: the phases
follow Cooldown, Flashing, Firing, Cooldown cyclically with exactly those
durations. -/
theorem C10_hazard_phase_cycle (n : Nat) (x y : Int) (g : Rng) :
    (RayEnemy.COOLDOWN_FRAMES = 67 ∧ RayEnemy.FLASH_FRAMES = 17 ∧ RayEnemy.FIRE_FRAMES = 25) ∧
    ((RayEnemy.COOLDOWN_FRAMES - 1) * FRAME_MS < 4000 ∧ 4000 ≤ RayEnemy.COOLDOWN_FRAMES * FRAME_MS) ∧
    ((RayEnemy.FLASH_FRAMES - 1) * FRAME_MS < 1000 ∧ 1000 ≤ RayEnemy.FLASH_FRAMES * FRAME_MS) ∧
    ((RayEnemy.FIRE_FRAMES - 1) * FRAME_MS < 1500 ∧ 1500 ≤ RayEnemy.FIRE_FRAMES * FRAME_MS) ∧
    (iterUpdate n (RayEnemy.new x y) g).1.state =
      (if n % 109 < 67 then RayState.Cooldown
       else if n % 109 < 84 then RayState.Flashing else RayState.Firing) := by
  refine ⟨RayEnemy.frames, by decide, by decide, by decide, ?_⟩
  obtain ⟨_, hc, hfl, hfi⟩ := RayEnemy.phase_after x y g n
  split_ifs with h1 h2
  · exact (hc h1).1
  · exact (hfl (by omega) h2).1
  · exact (hfi (by omega)).1


/-! ## Dead enemies are inert -/

theorem Enemy.isAlive_dead (e : Enemy) (hd : e.hp ≤ 0) : e.isAlive = false := by
  simp only [Enemy.isAlive, decide_eq_false_iff_not]
  omega

theorem updateEnemy_dead (player : Player) (g : Rng) (bullets : List Bullet) (e : Enemy)
    (hd : e.hp ≤ 0) : updateEnemy player g bullets e = (g, bullets, e) := by
  simp only [updateEnemy, Enemy.isAlive_dead e hd, if_true]

theorem damageEnemy_dead (p : Player) (score : Int) (bullets : List Bullet) (e : Enemy)
    (hd : e.hp ≤ 0) : damageEnemy p score bullets e = (p, score, bullets, e) := by
  simp only [damageEnemy, Enemy.isAlive_dead e hd, if_true]

theorem alignEnemy_dead (p : Player) (running : Bool) (e : Enemy) (hd : e.hp ≤ 0) :
    alignEnemy p running e = (p, running) := by
  simp [alignEnemy, Enemy.isAlive_dead e hd]

theorem crossEnemies_dead (p : Player) (running : Bool) (e : Enemy) (es : List Enemy)
    (hd : e.hp ≤ 0) :
    crossEnemies p running (e :: es) =
      ((crossEnemies p running es).1, (crossEnemies p running es).2.1,
        e :: (crossEnemies p running es).2.2) := by
  simp [crossEnemies, Enemy.isAlive_dead e hd]

theorem updateEnemies_erase (player : Player) (e : Enemy) (hd : e.hp ≤ 0) (es : List Enemy) :
    ∀ (i : Nat) (g : Rng) (bullets : List Bullet), es[i]? = some e →
      updateEnemies player g bullets (es.eraseIdx i) =
        ((updateEnemies player g bullets es).1, (updateEnemies player g bullets es).2.1,
          (updateEnemies player g bullets es).2.2.eraseIdx i) ∧
      (updateEnemies player g bullets es).2.2[i]? = some e := by
  induction es with
  | nil => intro i g bullets h; simp at h
  | cons a es ih =>
    intro i g bullets h
    cases i with
    | zero =>
      simp only [List.getElem?_cons_zero, Option.some.injEq] at h
      subst h
      simp [updateEnemies, updateEnemy_dead player g bullets a hd]
    | succ i =>
      simp only [List.getElem?_cons_succ] at h
      have := ih i (updateEnemy player g bullets a).1 (updateEnemy player g bullets a).2.1 h
      simp only [updateEnemies, List.eraseIdx_cons_succ, List.getElem?_cons_succ, this.1, this.2,
        and_self]

theorem damageEnemies_erase (e : Enemy) (hd : e.hp ≤ 0) (es : List Enemy) :
    ∀ (i : Nat) (p : Player) (score : Int) (bullets : List Bullet), es[i]? = some e →
      damageEnemies p score bullets (es.eraseIdx i) =
        ((damageEnemies p score bullets es).1, (damageEnemies p score bullets es).2.1,
          (damageEnemies p score bullets es).2.2.1,
          (damageEnemies p score bullets es).2.2.2.eraseIdx i) ∧
      (damageEnemies p score bullets es).2.2.2[i]? = some e := by
  induction es with
  | nil => intro i p score bullets h; simp at h
  | cons a es ih =>
    intro i p score bullets h
    cases i with
    | zero =>
      simp only [List.getElem?_cons_zero, Option.some.injEq] at h
      subst h
      simp [damageEnemies, damageEnemy_dead p score bullets a hd]
    | succ i =>
      simp only [List.getElem?_cons_succ] at h
      have := ih i (damageEnemy p score bullets a).1 (damageEnemy p score bullets a).2.1
        (damageEnemy p score bullets a).2.2.1 h
      simp only [damageEnemies, List.eraseIdx_cons_succ, List.getElem?_cons_succ, this.1, this.2,
        and_self]

theorem alignEnemies_erase (e : Enemy) (hd : e.hp ≤ 0) (es : List Enemy) :
    ∀ (i : Nat) (p : Player) (running : Bool), es[i]? = some e →
      alignEnemies p running (es.eraseIdx i) = alignEnemies p running es := by
  induction es with
  | nil => intro i p running h; simp at h
  | cons a es ih =>
    intro i p running h
    cases i with
    | zero =>
      simp only [List.getElem?_cons_zero, Option.some.injEq] at h
      subst h
      simp [alignEnemies, alignEnemy_dead p running a hd]
    | succ i =>
      simp only [List.getElem?_cons_succ] at h
      simp only [alignEnemies, List.eraseIdx_cons_succ]
      exact ih i _ _ h

theorem crossEnemies_erase (e : Enemy) (hd : e.hp ≤ 0) (es : List Enemy) :
    ∀ (i : Nat) (p : Player) (running : Bool), es[i]? = some e →
      crossEnemies p running (es.eraseIdx i) =
        ((crossEnemies p running es).1, (crossEnemies p running es).2.1,
          (crossEnemies p running es).2.2.eraseIdx i) ∧
      (crossEnemies p running es).2.2[i]? = some e := by
  induction es with
  | nil => intro i p running h; simp at h
  | cons a es ih =>
    intro i p running h
    cases i with
    | zero =>
      simp only [List.getElem?_cons_zero, Option.some.injEq] at h
      subst h
      simp [crossEnemies_dead p running a es hd]
    | succ i =>
      simp only [List.getElem?_cons_succ] at h
      have ih1 := fun q => (ih i q running h).1
      have ih2 := fun q => (ih i q running h).2
      simp only [crossEnemies, List.eraseIdx_cons_succ]
      split_ifs
      all_goals first
        | omega
        | (simp only [List.eraseIdx_cons_succ, List.getElem?_cons_succ, ih1, ih2, h, and_self,
             true_and])


theorem Game.resolve_erase (g : Game) (inp : TickInput) (i : Nat) (e : Enemy)
    (he : g.enemies[i]? = some e) (hd : e.hp ≤ 0) :
    (g.eraseEnemy i).resolve inp = (g.resolve inp).eraseEnemy i ∧
    (g.resolve inp).enemies[i]? = some e := by
  have hu := fun pl rng bs => updateEnemies_erase pl e hd g.enemies i rng bs he
  have hdm := fun pl rng bs p score bs2 =>
    damageEnemies_erase e hd (updateEnemies pl rng bs g.enemies).2.2 i p score bs2 (hu pl rng bs).2
  have hal := fun pl rng bs p score bs2 p2 r2 =>
    alignEnemies_erase e hd (damageEnemies p score bs2 (updateEnemies pl rng bs g.enemies).2.2).2.2.2
      i p2 r2 (hdm pl rng bs p score bs2).2
  have hcr := fun pl rng bs p score bs2 p2 r2 =>
    crossEnemies_erase e hd (damageEnemies p score bs2 (updateEnemies pl rng bs g.enemies).2.2).2.2.2
      i p2 r2 (hdm pl rng bs p score bs2).2
  constructor
  · simp only [Game.resolve, Game.eraseEnemy, (hu _ _ _).1, (hdm _ _ _ _ _ _).1, hal,
      (hcr _ _ _ _ _ _ _ _).1]
  · simp only [Game.resolve]
    exact (hcr _ _ _ _ _ _ _ _).2

theorem Game.checkUpgrade_erase (g : Game) (inp : TickInput) (i : Nat) :
    (g.eraseEnemy i).checkUpgrade inp = (g.checkUpgrade inp).eraseEnemy i ∧
    (g.checkUpgrade inp).enemies = g.enemies := by
  simp only [Game.checkUpgrade, Game.eraseEnemy, Game.offerUpgrades]
  split_ifs <;> exact ⟨rfl, rfl⟩

theorem Game.selectUpgrade_erase (g : Game) (inp : TickInput) (i : Nat) :
    (g.eraseEnemy i).selectUpgrade inp = (g.selectUpgrade inp).map (fun g1 => g1.eraseEnemy i) ∧
    (∀ g1, g.selectUpgrade inp = some g1 → g1.enemies = g.enemies) := by
  have ho : (g.eraseEnemy i).offeredUpgrades = g.offeredUpgrades := rfl
  cases hc : readChoice 0 inp.chars with
  | none =>
    simp only [Game.selectUpgrade, hc]
    exact ⟨rfl, fun g1 h1 => absurd h1 (by simp)⟩
  | some choice =>
    cases hu : g.offeredUpgrades.get? (choice - 1).toNat with
    | none =>
      simp only [Game.selectUpgrade, hc, ho, hu]
      exact ⟨rfl, fun g1 h1 => absurd h1 (by simp)⟩
    | some upg =>
      simp only [Game.selectUpgrade, hc, ho, hu]
      refine ⟨rfl, ?_⟩
      intro g1 h1
      simp only [Option.some.injEq] at h1
      rw [← h1]
      rfl

theorem Game.playerFire_erase (g : Game) (inp : TickInput) (i : Nat) :
    (g.eraseEnemy i).playerFire inp = (g.playerFire inp).eraseEnemy i ∧
    (g.playerFire inp).enemies = g.enemies := by
  simp only [Game.playerFire, Game.eraseEnemy]
  split_ifs <;> exact ⟨rfl, rfl⟩

theorem Game.advance_erase (g : Game) (i : Nat) (e : Enemy) (he : g.enemies[i]? = some e) :
    (g.eraseEnemy i).advance = g.advance.eraseEnemy i ∧ g.advance.enemies[i]? = some e := by
  have hi : i < g.enemies.length := (List.getElem?_eq_some.1 he).1
  have h1 : ∀ xs : List Enemy, (g.enemies ++ xs).eraseIdx i = g.enemies.eraseIdx i ++ xs :=
    fun xs => List.eraseIdx_append_of_lt_length hi xs
  have h2 : ∀ xs : List Enemy, (g.enemies ++ xs)[i]? = some e := by
    intro xs; rw [List.getElem?_append_left hi, he]
  have h3 : ∀ xs ys : List Enemy, (g.enemies ++ xs ++ ys).eraseIdx i =
      g.enemies.eraseIdx i ++ xs ++ ys := by
    intro xs ys; rw [List.append_assoc, h1]; simp only [List.append_assoc]
  have h4 : ∀ xs ys : List Enemy, (g.enemies ++ xs ++ ys)[i]? = some e := by
    intro xs ys; rw [List.append_assoc]; exact h2 _
  have h5 : ∀ xs ys zs : List Enemy, (g.enemies ++ xs ++ ys ++ zs).eraseIdx i =
      g.enemies.eraseIdx i ++ xs ++ ys ++ zs := by
    intro xs ys zs; rw [List.append_assoc, List.append_assoc, h1]; simp only [List.append_assoc]
  have h6 : ∀ xs ys zs : List Enemy, (g.enemies ++ xs ++ ys ++ zs)[i]? = some e := by
    intro xs ys zs; rw [List.append_assoc, List.append_assoc]; exact h2 _
  simp only [Game.advance, Game.eraseEnemy]
  split_ifs <;> simp only [h1, h2, h3, h4, h5, h6, he, and_self]

theorem Game.tick_erase (g : Game) (inp : TickInput) (i : Nat) (e : Enemy)
    (he : g.enemies[i]? = some e) (hd : e.hp ≤ 0) :
    (g.eraseEnemy i).tick inp = (g.tick inp).map (fun g1 => g1.eraseEnemy i) ∧
    (∀ g1, g.tick inp = some g1 → g1.enemies[i]? = some e) := by
  obtain ⟨hr1, hr2⟩ := Game.resolve_erase g inp i e he hd
  obtain ⟨hc1, hc2⟩ := Game.checkUpgrade_erase (g.resolve inp) inp i
  rw [← hc2] at hr2
  simp only [Game.tick, hr1, hc1]
  generalize (g.resolve inp).checkUpgrade inp = r at hr2
  have hp : (r.eraseEnemy i).upgradePending = r.upgradePending := rfl
  rw [hp]
  split_ifs
  · obtain ⟨hs1, hs2⟩ := Game.selectUpgrade_erase r inp i
    refine ⟨hs1, ?_⟩
    intro g1 h1
    rw [hs2 g1 h1]
    exact hr2
  · obtain ⟨hf1, hf2⟩ := Game.playerFire_erase r inp i
    rw [← hf2] at hr2
    obtain ⟨ha1, ha2⟩ := Game.advance_erase (r.playerFire inp) i e hr2
    rw [hf1, ha1]
    refine ⟨rfl, ?_⟩
    intro g1 h1
    simp only [Option.some.injEq] at h1
    rw [← h1]
    exact ha2

theorem Game.runTicks_erase (inps : List TickInput) (i : Nat) (e : Enemy) (hd : e.hp ≤ 0) :
    ∀ g : Game, g.enemies[i]? = some e →
      (g.eraseEnemy i).runTicks inps = (g.runTicks inps).map (fun g1 => g1.eraseEnemy i) ∧
      (∀ g1, g.runTicks inps = some g1 → g1.enemies[i]? = some e) := by
  induction inps with
  | nil =>
    intro g he
    simp only [Game.runTicks, Option.map_some', Option.some.injEq, true_and]
    intro g1 h1
    rw [← h1]
    exact he
  | cons inp rest ih =>
    intro g he
    obtain ⟨ht1, ht2⟩ := Game.tick_erase g inp i e he hd
    have hrun : (g.eraseEnemy i).running = g.running := rfl
    simp only [Game.runTicks, hrun, ht1]
    split_ifs
    · simp only [Option.map_some', Option.some.injEq, true_and]
      intro g1 h1
      rw [← h1]
      exact he
    · simp only [Option.map_some', Option.some.injEq, true_and]
      intro g1 h1
      rw [← h1]
      exact he
    · cases hg : g.tick inp with
      | none => simp
      | some g2 =>
        simp only [Option.map_some']
        exact ih g2 (ht2 g2 hg)

/-- C9: for every enemy of any variant with `hp ≤ 0` in the collection: the
update pass leaves it unchanged (position, movement, fire and hazard-phase
state), draws no random number for it and adds no bullet; the player-bullet
pass does not hit it and marks no bullet spent on it; neither hazard rule
changes the player or the `running` flag on its account, whatever its hazard
state, Firing included. This holds on every subsequent tick: after any number
of ticks with any inputs the enemy is still in its place and unchanged, and
the run of the game is exactly the run of the game without that enemy. -/
theorem C9_dead_enemy_is_inert (g : Game) (i : Nat) (e : Enemy)
    (he : g.enemies[i]? = some e) (hd : e.hp ≤ 0) :
    (∀ (player : Player) (rng : Rng) (bullets : List Bullet),
      updateEnemy player rng bullets e = (rng, bullets, e)) ∧
    (∀ (p : Player) (score : Int) (bullets : List Bullet),
      damageEnemy p score bullets e = (p, score, bullets, e)) ∧
    (∀ (p : Player) (running : Bool), alignEnemy p running e = (p, running)) ∧
    (∀ (p : Player) (running : Bool) (es : List Enemy),
      crossEnemies p running (e :: es) =
        ((crossEnemies p running es).1, (crossEnemies p running es).2.1,
          e :: (crossEnemies p running es).2.2)) ∧
    (∀ (inps : List TickInput) (g1 : Game), g.runTicks inps = some g1 →
      g1.enemies[i]? = some e) ∧
    (∀ inps : List TickInput,
      (g.eraseEnemy i).runTicks inps = (g.runTicks inps).map (fun g1 => g1.eraseEnemy i)) := by
  refine ⟨fun pl rng bs => updateEnemy_dead pl rng bs e hd,
    fun p sc bs => damageEnemy_dead p sc bs e hd,
    fun p r => alignEnemy_dead p r e hd,
    fun p r es => crossEnemies_dead p r e es hd,
    fun inps g1 h1 => (Game.runTicks_erase inps i e hd g he).2 g1 h1,
    fun inps => (Game.runTicks_erase inps i e hd g he).1⟩


/-- Witness for C9: a Hazard enemy that died while Firing, in the column of the
player and three rows above it. The alignment rule leaves the player alone,
and after one whole tick the player still has all 10 hit points, the game is
still running and no bullet was added. -/
theorem C9_dead_enemy_is_inert_witness :
    (({ player := { x := 29, y := 16 },
        enemies := [{ RayEnemy.new 29 13 with hp := 0, state := RayState.Firing }],
        rng := { stream := fun _ => 0, pos := 0 } } : Game).runTicks [{}]).map
        (fun g1 => (g1.player.hp, g1.running, g1.bullets.length)) = some (10, true, 0) ∧
    alignEnemy { x := 29, y := 16 } true
        { RayEnemy.new 29 13 with hp := 0, state := RayState.Firing } =
      ({ x := 29, y := 16 }, true) :=
  ⟨by rfl,
   (C9_dead_enemy_is_inert
      { player := { x := 29, y := 16 },
        enemies := [{ RayEnemy.new 29 13 with hp := 0, state := RayState.Firing }],
        rng := { stream := fun _ => 0, pos := 0 } } 0
      { RayEnemy.new 29 13 with hp := 0, state := RayState.Firing } rfl (by decide)).2.2.1
      { x := 29, y := 16 } true⟩


/-! ## Facts that hold in every run -/

theorem Player.move_stats (p : Player) (inputs : List Char) :
    (p.move inputs).hp = p.hp ∧ (p.move inputs).damage = p.damage ∧
    (p.move inputs).lifeStealPercent = p.lifeStealPercent := by
  have h1 : ∀ q : Player, q.clamp.hp = q.hp ∧ q.clamp.damage = q.damage ∧
      q.clamp.lifeStealPercent = q.lifeStealPercent := by
    intro q
    simp only [Player.clamp]
    split_ifs <;> exact ⟨rfl, rfl, rfl⟩
  have h2 : (p.stepKeys inputs).hp = p.hp ∧ (p.stepKeys inputs).damage = p.damage ∧
      (p.stepKeys inputs).lifeStealPercent = p.lifeStealPercent := by
    simp only [Player.stepKeys]
    split_ifs <;> exact ⟨rfl, rfl, rfl⟩
  have h3 := h1 (p.stepKeys inputs)
  simp only [Player.move]
  exact ⟨h3.1.trans h2.1, h3.2.1.trans h2.2.1, h3.2.2.trans h2.2.2⟩

theorem bulletsVsPlayer_stats (bullets : List Bullet) :
    ∀ (p : Player) (running : Bool),
      (bulletsVsPlayer p running bullets).1.damage = p.damage ∧
      (bulletsVsPlayer p running bullets).1.lifeStealPercent = p.lifeStealPercent := by
  induction bullets with
  | nil => intro p running; exact ⟨rfl, rfl⟩
  | cons b bs ih =>
    intro p running
    simp only [bulletsVsPlayer]
    split_ifs
    all_goals first
      | exact ⟨rfl, rfl⟩
      | exact ih _ _

theorem lifeSteal_hp_ge (p : Player) (dealt : Int) (h : p.hp ≤ p.maxHp) :
    p.hp ≤ (lifeSteal p dealt).hp := by
  simp only [lifeSteal]
  split_ifs <;> (try simp only []) <;> omega

/-- The scan of the bullets against one enemy never lowers the player's hit
points and leaves damage and life-steal percent alone. -/
theorem hitBullets_stats (bs : List Bullet) :
    ∀ s : Scan, s.player.hpOk →
      s.player.hp ≤ (hitBullets s bs).1.player.hp ∧
      (hitBullets s bs).1.player.damage = s.player.damage ∧
      (hitBullets s bs).1.player.lifeStealPercent = s.player.lifeStealPercent := by
  induction bs with
  | nil => intro s _; exact ⟨le_refl _, rfl, rfl⟩
  | cons b bs ih =>
    intro s hs
    simp only [hitBullets]
    split_ifs
    · exact ⟨le_refl _, rfl, rfl⟩
    · exact ih s hs
    · rw [hitCells_eq]
      split_ifs
      · have hp := hitApply_player s b
        have hok := hitCell_hpOk s b (0, 0) hs
        have hge := lifeSteal_hp_ge s.player (hitDealt s.enemy.hp (hitDmg s.player)) hs.2
        have hok2 : (hitApply s b).1.player.hpOk := by
          have h1 := lifeSteal_hpOk s.player (hitDealt s.enemy.hp (hitDmg s.player)) hs
          simp only [Player.hpOk] at h1 ⊢
          rw [hp.1, hp.2.1]
          rw [(lifeSteal_fields s.player _).1] at h1
          exact h1
        have h := ih (hitApply s b).1 hok2
        rw [hp.1, hp.2.2.1, hp.2.2.2.1] at h
        exact ⟨le_trans hge h.1, h.2.1, h.2.2⟩
      · exact ih s hs

theorem damageEnemies_stats (es : List Enemy) :
    ∀ (p : Player) (score : Int) (bullets : List Bullet), p.hpOk →
      p.hp ≤ (damageEnemies p score bullets es).1.hp ∧
      (damageEnemies p score bullets es).1.damage = p.damage ∧
      (damageEnemies p score bullets es).1.lifeStealPercent = p.lifeStealPercent := by
  induction es with
  | nil => intro p score bullets _; exact ⟨le_refl _, rfl, rfl⟩
  | cons e es ih =>
    intro p score bullets hp
    have h1 : p.hp ≤ (damageEnemy p score bullets e).1.hp ∧
        (damageEnemy p score bullets e).1.damage = p.damage ∧
        (damageEnemy p score bullets e).1.lifeStealPercent = p.lifeStealPercent := by
      simp only [damageEnemy]
      split_ifs
      · exact ⟨le_refl _, rfl, rfl⟩
      · exact hitBullets_stats bullets _ hp
    have h2 := ih (damageEnemy p score bullets e).1 (damageEnemy p score bullets e).2.1
      (damageEnemy p score bullets e).2.2.1 (damageEnemy_hpOk p score bullets e hp)
    simp only [damageEnemies]
    exact ⟨le_trans h1.1 h2.1, h2.2.1.trans h1.2.1, h2.2.2.trans h1.2.2⟩

theorem alignEnemies_stats (es : List Enemy) :
    ∀ (p : Player) (running : Bool), (running = true → 0 < p.hp) →
      ((alignEnemies p running es).2 = true → 0 < (alignEnemies p running es).1.hp) ∧
      (alignEnemies p running es).1.damage = p.damage ∧
      (alignEnemies p running es).1.lifeStealPercent = p.lifeStealPercent := by
  induction es with
  | nil => intro p running h; exact ⟨h, rfl, rfl⟩
  | cons e es ih =>
    intro p running h
    have h1 : ((alignEnemy p running e).2 = true → 0 < (alignEnemy p running e).1.hp) ∧
        (alignEnemy p running e).1.damage = p.damage ∧
        (alignEnemy p running e).1.lifeStealPercent = p.lifeStealPercent := by
      simp only [alignEnemy]
      split_ifs <;> simp <;> exact h
    have h2 := ih (alignEnemy p running e).1 (alignEnemy p running e).2 h1.1
    simp only [alignEnemies]
    exact ⟨h2.1, h2.2.1.trans h1.2.1, h2.2.2.trans h1.2.2⟩

theorem crossEnemies_stats (es : List Enemy) :
    ∀ (p : Player) (running : Bool), (running = true → 0 < p.hp) →
      ((crossEnemies p running es).2.1 = true → 0 < (crossEnemies p running es).1.hp) ∧
      (crossEnemies p running es).1.damage = p.damage ∧
      (crossEnemies p running es).1.lifeStealPercent = p.lifeStealPercent := by
  induction es with
  | nil => intro p running h; exact ⟨h, rfl, rfl⟩
  | cons e es ih =>
    intro p running h
    simp only [crossEnemies]
    split_ifs
    all_goals first
      | exact ih p running h
      | omega
      | exact ⟨fun hf => absurd hf (by simp), rfl, rfl⟩
      | exact ih _ running (fun _ => by simp only; omega)

theorem Game.resolve_inv (g : Game) (inp : TickInput) (hr : g.running = true) (h : g.inv) :
    (g.resolve inp).inv := by
  obtain ⟨hok, hdmg, hls, hpos⟩ := h
  have hm := Player.move_stats g.player inp.keys
  have hmok := Player.move_hpOk g.player inp.keys hok
  have hb := bulletsVsPlayer_spec
    ((((g.bulletManager.spawnBullets g.frame g.bullets).2.map Bullet.update).filter
      fun b => !b.isOutOfBounds)) (g.player.move inp.keys) g.running (by rw [hm.1]; exact hpos hr)
  have hbs := bulletsVsPlayer_stats
    ((((g.bulletManager.spawnBullets g.frame g.bullets).2.map Bullet.update).filter
      fun b => !b.isOutOfBounds)) (g.player.move inp.keys) g.running
  have hbok := bulletsVsPlayer_hpOk
    ((((g.bulletManager.spawnBullets g.frame g.bullets).2.map Bullet.update).filter
      fun b => !b.isOutOfBounds)) (g.player.move inp.keys) g.running hmok
  refine ⟨Game.resolve_hpOk g inp hok, ?_, ?_, ?_⟩ <;> simp only [Game.resolve]
  all_goals
    generalize bulletsVsPlayer (g.player.move inp.keys) g.running
      ((((g.bulletManager.spawnBullets g.frame g.bullets).2.map Bullet.update).filter
        fun b => !b.isOutOfBounds)) = pr at hb hbs hbok
    generalize ((((g.bulletManager.spawnBullets g.frame g.bullets).2.map Bullet.update).filter
        fun b => !b.isOutOfBounds)) = bl at hb
    generalize updateEnemies pr.1 g.rng bl g.enemies = ue
    have hd := damageEnemies_stats ue.2.2 pr.1 g.score ue.2.1 hbok
    generalize damageEnemies pr.1 g.score ue.2.1 ue.2.2 = de at hd
    have hrun : pr.2 = true → 0 < de.1.hp := by
      intro h2
      rw [hb.2] at h2
      simp only [Bool.and_eq_true, decide_eq_true_eq] at h2
      have : 0 < pr.1.hp := by rw [hb.1]; omega
      omega
    have ha := alignEnemies_stats de.2.2.2 de.1 pr.2 hrun
    have hc := crossEnemies_stats de.2.2.2 (alignEnemies de.1 pr.2 de.2.2.2).1
      (alignEnemies de.1 pr.2 de.2.2.2).2 ha.1
  · rw [hc.2.1, ha.2.1, hd.2.1, hbs.1, hm.2.1]; exact hdmg
  · rw [hc.2.2, ha.2.2, hd.2.2, hbs.2, hm.2.2]; exact hls
  · exact hc.1

theorem Player.applyUpgrade_stats (p : Player) (upg : UpgradeType) :
    p.hp ≤ (p.applyUpgrade upg).hp ∧ p.damage ≤ (p.applyUpgrade upg).damage ∧
    p.lifeStealPercent ≤ (p.applyUpgrade upg).lifeStealPercent := by
  cases upg <;> simp only [Player.applyUpgrade] <;>
    first | (refine ⟨?_, ?_, ?_⟩ <;> omega) | (split_ifs <;> exact ⟨le_refl _, le_refl _, le_refl _⟩)

/-- The tick preserves the run invariant. -/
theorem Game.tick_inv (g g1 : Game) (inp : TickInput) (hr : g.running = true) (h : g.inv)
    (ht : g.tick inp = some g1) : g1.inv := by
  have hi := Game.resolve_inv g inp hr h
  have hc : ((g.resolve inp).checkUpgrade inp).inv := by
    simp only [Game.checkUpgrade]
    split_ifs
    · exact hi
    · exact hi
  simp only [Game.tick] at ht
  generalize (g.resolve inp).checkUpgrade inp = r at hc ht
  split_ifs at ht
  · simp only [Game.selectUpgrade] at ht
    split at ht
    · exact absurd ht (by simp)
    · split at ht
      · exact absurd ht (by simp)
      · rename_i upg _
        simp only [Option.some.injEq] at ht
        subst ht
        obtain ⟨hok, hdmg, hls, hpos⟩ := hc
        have hs := Player.applyUpgrade_stats r.player upg
        have hok2 := applyUpgrade_hpOk r.player upg hok
        refine ⟨by simpa [Player.hpOk, Game.applyUpgrade] using hok2, ?_, ?_, ?_⟩
        · simp only [Game.applyUpgrade]; omega
        · simp only [Game.applyUpgrade]; omega
        · intro h2
          have := hpos h2
          simp only [Game.applyUpgrade]; omega
  · simp only [Option.some.injEq] at ht
    subst ht
    have hf : (r.playerFire inp).inv := by
      simp only [Game.playerFire]
      split_ifs <;> exact hc
    exact hf

/-- Every state reached from the start of `Game::run` satisfies the run
invariant: hit points within bounds, damage at least 10, life steal not
negative, and positive hit points while running. -/
theorem Game.run_inv (inps : List TickInput) :
    ∀ g g1 : Game, g.inv → g.runTicks inps = some g1 → g1.inv := by
  induction inps with
  | nil =>
    intro g g1 h hrun
    simp only [Game.runTicks, Option.some.injEq] at hrun
    exact hrun ▸ h
  | cons inp rest ih =>
    intro g g1 h hrun
    simp only [Game.runTicks] at hrun
    split_ifs at hrun with h1 h2
    · simp only [Option.some.injEq] at hrun
      exact hrun ▸ h
    · simp only [Option.some.injEq] at hrun
      exact hrun ▸ h
    · cases ht : g.tick inp with
      | none => simp [ht] at hrun
      | some g2 =>
        simp only [ht] at hrun
        exact ih g2 g1 (Game.tick_inv g g2 inp (by simpa using h1) h ht) hrun

theorem Game.start_inv (spawns : List BulletSpawn) (rng : Rng) : (Game.start spawns rng).inv := by
  simp only [Game.inv, Player.hpOk, Game.start]
  refine ⟨⟨by decide, by decide⟩, by decide, by decide, fun _ => by decide⟩


/-! ## The alignment kill -/

/-- C12: for every player position and every enemy, the alignment rule sets
the player's hit points to 0 and clears the running flag when the enemy is a
Hazard, alive, in the Firing state and either `player.x = hazard.x` with
`|player.y - hazard.y| ≤ 3` or `player.y = hazard.y` with
`|player.x - hazard.x| ≤ 8`; otherwise it leaves the player and the flag
unchanged. For a player with positive hit points the rule yields 0 hit points
iff that condition holds. -/
theorem C12_alignment_kill (p : Player) (running : Bool) (e : Enemy) :
    (aligned p e → alignEnemy p running e = ({ p with hp := 0 }, false)) ∧
    (¬ aligned p e → alignEnemy p running e = (p, running)) ∧
    (0 < p.hp → ((alignEnemy p running e).1.hp = 0 ↔ aligned p e)) := by
  have h1 : aligned p e → alignEnemy p running e = ({ p with hp := 0 }, false) := by
    rintro ⟨hk, ha, hs, hg⟩
    have hal : e.isAlive = true := by simpa [Enemy.isAlive] using ha
    have hfi : e.isFiring = true := by simp [Enemy.isFiring, hs]
    simp only [alignEnemy, hk, hal, hfi, and_self, if_true]
    have e1 : ∀ a b : Int, a + 1 - (b + 1) = a - b := fun a b => by ring
    simp only [add_left_inj, e1]
    rcases hg with hg | hg
    · rw [if_pos hg]
      split_ifs <;> rfl
    · split_ifs with h2
      · rfl
      · rfl
  have h2 : ¬ aligned p e → alignEnemy p running e = (p, running) := by
    intro hn
    simp only [alignEnemy]
    by_cases hc : e.kind = EnemyKind.Ray ∧ e.isFiring = true ∧ e.isAlive = true
    · obtain ⟨hk, hfi, hal⟩ := hc
      have ha : 0 < e.hp := by simpa [Enemy.isAlive] using hal
      have hs : e.state = RayState.Firing := by simpa [Enemy.isFiring] using hfi
      have e1 : ∀ a b : Int, a + 1 - (b + 1) = a - b := fun a b => by ring
      simp only [hk, hfi, hal, and_self, if_true, add_left_inj, e1]
      have n1 : ¬ (p.x = e.x ∧ |p.y - e.y| ≤ 3) := fun h => hn ⟨hk, ha, hs, Or.inl h⟩
      have n2 : ¬ (p.y = e.y ∧ |p.x - e.x| ≤ 8) := fun h => hn ⟨hk, ha, hs, Or.inr h⟩
      rw [if_neg n1, if_neg n2]
    · rw [if_neg hc]
  refine ⟨h1, h2, ?_⟩
  intro hp
  constructor
  · intro h0
    by_contra hn
    rw [h2 hn] at h0
    simp only at h0
    omega
  · intro ha
    rw [h1 ha]

/-- Witness for C12: a firing Hazard enemy three rows above the player, in its
column. -/
theorem C12_alignment_kill_witness :
    alignEnemy { x := 29, y := 16 } true { RayEnemy.new 29 13 with state := RayState.Firing } =
      ({ x := 29, y := 16, hp := 0 }, false) :=
  (C12_alignment_kill { x := 29, y := 16 } true
    { RayEnemy.new 29 13 with state := RayState.Firing }).1
    ⟨rfl, by decide, rfl, Or.inl ⟨rfl, by decide⟩⟩


/-! ## Boss spawns -/

theorem Enemy.vUpdate_kind (e : Enemy) (g : Rng) : (e.vUpdate g).1.kind = e.kind := by
  unfold Enemy.vUpdate
  split
  · exact (RayEnemy.update_phase e g).1
  · exact (Enemy.update_ray e g).1

theorem Enemy.resetFire_kind (e : Enemy) : e.resetFire.kind = e.kind := by
  unfold Enemy.resetFire
  split <;> rfl

theorem updateEnemy_kind (player : Player) (g : Rng) (bullets : List Bullet) (e : Enemy) :
    (updateEnemy player g bullets e).2.2.kind = e.kind := by
  simp only [updateEnemy]
  split_ifs <;> simp only [Enemy.resetFire_kind, Enemy.vUpdate_kind]

theorem updateEnemies_kinds (player : Player) (es : List Enemy) :
    ∀ (g : Rng) (bullets : List Bullet),
      (updateEnemies player g bullets es).2.2.map (fun e => e.kind) = es.map (fun e => e.kind) := by
  induction es with
  | nil => intro g bullets; rfl
  | cons e es ih =>
    intro g bullets
    simp only [updateEnemies, List.map_cons, ih, updateEnemy_kind]

theorem hitBullets_kind (bs : List Bullet) :
    ∀ s : Scan, (hitBullets s bs).1.enemy.kind = s.enemy.kind := by
  induction bs with
  | nil => intro s; rfl
  | cons b bs ih =>
    intro s
    simp only [hitBullets]
    split_ifs
    · rfl
    · exact ih s
    · rw [hitCells_eq]
      split_ifs
      · rw [ih, hitApply_enemy]
      · exact ih s

theorem damageEnemies_kinds (es : List Enemy) :
    ∀ (p : Player) (score : Int) (bullets : List Bullet),
      (damageEnemies p score bullets es).2.2.2.map (fun e => e.kind) =
        es.map (fun e => e.kind) := by
  induction es with
  | nil => intro p score bullets; rfl
  | cons e es ih =>
    intro p score bullets
    have h1 : (damageEnemy p score bullets e).2.2.2.kind = e.kind := by
      simp only [damageEnemy]
      split_ifs
      · rfl
      · exact hitBullets_kind bullets _
    simp only [damageEnemies, List.map_cons, ih, h1]

theorem crossEnemies_kinds (es : List Enemy) :
    ∀ (p : Player) (running : Bool),
      (crossEnemies p running es).2.2.map (fun e => e.kind) = es.map (fun e => e.kind) := by
  induction es with
  | nil => intro p running; rfl
  | cons e es ih =>
    intro p running
    simp only [crossEnemies]
    split_ifs <;> simp only [List.map_cons, ih]

/-- The passes of a tick change no enemy's dynamic type and add or remove no
enemy. -/
theorem Game.resolve_kinds (g : Game) (inp : TickInput) :
    (g.resolve inp).enemies.map (fun e => e.kind) = g.enemies.map (fun e => e.kind) := by
  simp only [Game.resolve, crossEnemies_kinds, damageEnemies_kinds, updateEnemies_kinds]

theorem countP_isBoss_kinds (es fs : List Enemy)
    (h : es.map (fun e => e.kind) = fs.map (fun e => e.kind)) :
    es.countP Enemy.isBoss = fs.countP Enemy.isBoss := by
  have hc : ∀ l : List Enemy, l.countP Enemy.isBoss =
      (l.map (fun e => e.kind)).countP (fun k => decide (k = EnemyKind.Boss)) := by
    intro l
    rw [List.countP_map]
    rfl
  rw [hc es, hc fs, h]

/-- The enemies after the end of the tick: the old ones, then a Basic enemy, a
Hazard enemy and a Boss, each only when its own condition holds. -/
theorem Game.advance_enemies (g : Game) :
    ∃ basic ray : List Enemy,
      (∀ e ∈ basic, e.kind = EnemyKind.Basic) ∧ (∀ e ∈ ray, e.kind = EnemyKind.Ray) ∧
      g.advance.enemies = g.enemies ++ basic ++ ray ++
        (if g.frame + 1 ≥ 2250 ∧ Int.tmod (g.frame + 1 - 2250) 500 = 0 then
          [Boss.new (Int.tdiv GRID_COLS 2 - 1) 1] else []) := by
  refine ⟨if g.basicSpawnFrameCounter + 1 ≥ spawnInterval 83 (g.frame + 1) then
      [Enemy.new (g.rng.uniform 0 (GRID_COLS - 1)).1
        ((g.rng.uniform 0 (GRID_COLS - 1)).2.uniform 0 2).1] else [],
    if g.enemySpawnFrameCounter + 1 ≥ spawnInterval 100 (g.frame + 1) then
      [RayEnemy.new ((if g.basicSpawnFrameCounter + 1 ≥ spawnInterval 83 (g.frame + 1) then
          ((g.rng.uniform 0 (GRID_COLS - 1)).2.uniform 0 2).2 else g.rng).uniform 0
            (GRID_COLS - 1)).1 (Int.tdiv GRID_ROWS 2)] else [], ?_, ?_, ?_⟩
  · intro e he
    split_ifs at he
    · simp only [List.mem_singleton] at he; rw [he]; rfl
    · simp at he
  · intro e he
    split_ifs at he
    all_goals first
      | (simp only [List.mem_singleton] at he; rw [he]; rfl)
      | (simp at he)
  · simp only [Game.advance]
    split_ifs <;> simp


theorem Game.advance_bossCount (g : Game) :
    g.advance.enemies.countP Enemy.isBoss =
      g.enemies.countP Enemy.isBoss +
        (if 2250 ≤ g.frame + 1 ∧ (g.frame + 1 - 2250) % 500 = 0 then 1 else 0) := by
  obtain ⟨basic, ray, hb, hr, he⟩ := Game.advance_enemies g
  have h1 : basic.countP Enemy.isBoss = 0 := by
    rw [List.countP_eq_zero]
    intro e hm
    simp [Enemy.isBoss, hb e hm]
  have h2 : ray.countP Enemy.isBoss = 0 := by
    rw [List.countP_eq_zero]
    intro e hm
    simp [Enemy.isBoss, hr e hm]
  rw [he]
  simp only [List.countP_append, h1, h2, add_zero]
  by_cases hc : 2250 ≤ g.frame + 1
  · have ht : Int.tmod (g.frame + 1 - 2250) 500 = (g.frame + 1 - 2250) % 500 :=
      Int.tmod_eq_emod (by omega) (by decide)
    rw [ht]
    by_cases hm : (g.frame + 1 - 2250) % 500 = 0
    · simp only [ge_iff_le, hc, hm, and_self, if_true]
      rfl
    · simp only [ge_iff_le, hc, hm, and_false, if_false]
      rfl
  · have n1 : ¬ (g.frame + 1 ≥ 2250 ∧ Int.tmod (g.frame + 1 - 2250) 500 = 0) := fun h => hc h.1
    have n2 : ¬ (2250 ≤ g.frame + 1 ∧ (g.frame + 1 - 2250) % 500 = 0) := fun h => hc h.1
    rw [if_neg n1, if_neg n2]
    rfl

theorem Game.advance_bossLast (g : Game)
    (h : 2250 ≤ g.frame + 1 ∧ (g.frame + 1 - 2250) % 500 = 0) :
    g.advance.enemies.getLast? = some (Boss.new 29 1) := by
  obtain ⟨basic, ray, _, _, he⟩ := Game.advance_enemies g
  have ht : Int.tmod (g.frame + 1 - 2250) 500 = (g.frame + 1 - 2250) % 500 :=
    Int.tmod_eq_emod (by omega) (by decide)
  have hc : g.frame + 1 ≥ 2250 ∧ Int.tmod (g.frame + 1 - 2250) 500 = 0 := ⟨h.1, by rw [ht]; exact h.2⟩
  rw [he, if_pos hc]
  simp [GRID_COLS]
  rfl

theorem Game.selectUpgrade_frame (g g1 : Game) (inp : TickInput)
    (h : g.selectUpgrade inp = some g1) :
    g1.frame = g.frame ∧ g1.enemies = g.enemies ∧
    g1.enemySpawnFrameCounter = g.enemySpawnFrameCounter ∧
    g1.basicSpawnFrameCounter = g.basicSpawnFrameCounter := by
  simp only [Game.selectUpgrade] at h
  split at h
  · exact absurd h (by simp)
  · split at h
    · exact absurd h (by simp)
    · simp only [Option.some.injEq] at h
      subst h
      exact ⟨rfl, rfl, rfl, rfl⟩

theorem Game.checkUpgrade_frame (g : Game) (inp : TickInput) :
    (g.checkUpgrade inp).frame = g.frame ∧ (g.checkUpgrade inp).enemies = g.enemies ∧
    (g.checkUpgrade inp).enemySpawnFrameCounter = g.enemySpawnFrameCounter ∧
    (g.checkUpgrade inp).basicSpawnFrameCounter = g.basicSpawnFrameCounter := by
  simp only [Game.checkUpgrade]
  split_ifs <;> exact ⟨rfl, rfl, rfl, rfl⟩

theorem Game.playerFire_frame (g : Game) (inp : TickInput) :
    (g.playerFire inp).frame = g.frame ∧ (g.playerFire inp).enemies = g.enemies ∧
    (g.playerFire inp).enemySpawnFrameCounter = g.enemySpawnFrameCounter ∧
    (g.playerFire inp).basicSpawnFrameCounter = g.basicSpawnFrameCounter := by
  simp only [Game.playerFire]
  split_ifs <;> exact ⟨rfl, rfl, rfl, rfl⟩

/-- A tick either ends at the upgrade selection, leaving the frame counter as
it was, or runs to its end, which is `advance` after the passes, the upgrade
check and the player fire. -/
theorem Game.tick_cases (g g1 : Game) (inp : TickInput) (h : g.tick inp = some g1) :
    (((g.resolve inp).checkUpgrade inp).upgradePending = true ∧
      ((g.resolve inp).checkUpgrade inp).selectUpgrade inp = some g1 ∧ g1.frame = g.frame) ∨
    (((g.resolve inp).checkUpgrade inp).upgradePending = false ∧
      g1 = (((g.resolve inp).checkUpgrade inp).playerFire inp).advance ∧
      g1.frame = g.frame + 1) := by
  simp only [Game.tick] at h
  split_ifs at h with hp
  · left
    refine ⟨hp, h, ?_⟩
    rw [(Game.selectUpgrade_frame _ _ _ h).1, (Game.checkUpgrade_frame _ _).1]
    rfl
  · right
    simp only [Option.some.injEq] at h
    refine ⟨by simpa using hp, h.symm, ?_⟩
    rw [← h]
    show (((g.resolve inp).checkUpgrade inp).playerFire inp).frame + 1 = g.frame + 1
    rw [(Game.playerFire_frame _ _).1, (Game.checkUpgrade_frame _ _).1]
    rfl

/-- C14: on a tick that advances the frame counter to the value `f`, a Boss
is added to the enemy collection iff `f ≥ 2250` and `(f - 2250) mod 500 = 0`,
whatever the two spawn counters hold: the number of Bosses in the collection
grows by one exactly then, at the end of the tick (`advance`) and over the
whole tick. The Boss is the last enemy of the collection, placed at
`(W/2 - 1, 1) = (29, 1)` with `hp = maxHp = 150` and fire cooldown 60. -/
theorem C14_boss_spawn_schedule (g : Game) :
    g.advance.frame = g.frame + 1 ∧
    g.advance.enemies.countP Enemy.isBoss =
      g.enemies.countP Enemy.isBoss +
        (if 2250 ≤ g.frame + 1 ∧ (g.frame + 1 - 2250) % 500 = 0 then 1 else 0) ∧
    ((2250 ≤ g.frame + 1 ∧ (g.frame + 1 - 2250) % 500 = 0) →
      g.advance.enemies.getLast? = some (Boss.new 29 1)) ∧
    (∀ (inp : TickInput) (g1 : Game), g.tick inp = some g1 → g1.frame = g.frame + 1 →
      g1.enemies.countP Enemy.isBoss =
        g.enemies.countP Enemy.isBoss +
          (if 2250 ≤ g1.frame ∧ (g1.frame - 2250) % 500 = 0 then 1 else 0)) ∧
    (Int.tdiv GRID_COLS 2 - 1 = 29 ∧ (Boss.new 29 1).kind = EnemyKind.Boss ∧
      (Boss.new 29 1).x = 29 ∧ (Boss.new 29 1).y = 1 ∧ (Boss.new 29 1).hp = 150 ∧
      (Boss.new 29 1).maxHp = 150 ∧ (Boss.new 29 1).fireCooldown = 60) := by
  refine ⟨rfl, Game.advance_bossCount g, Game.advance_bossLast g, ?_,
    by decide, rfl, rfl, rfl, rfl, rfl, rfl⟩
  intro inp g1 ht hf
  rcases Game.tick_cases g g1 inp ht with ⟨_, _, h3⟩ | ⟨_, h2, _⟩
  · omega
  · have hb := Game.advance_bossCount (((g.resolve inp).checkUpgrade inp).playerFire inp)
    rw [← h2] at hb
    rw [hb, (Game.playerFire_frame _ _).1, (Game.playerFire_frame _ _).2.1,
      (Game.checkUpgrade_frame _ _).1, (Game.checkUpgrade_frame _ _).2.1,
      countP_isBoss_kinds _ _ (Game.resolve_kinds g inp), hf]
    rfl

/-- Witness for C14: the tick that takes the frame counter from 2249 to 2250
ends with the Boss as the last enemy. -/
theorem C14_boss_spawn_schedule_witness :
    (Game.advance
      { player := { x := 29, y := 16 }, frame := 2249,
        rng := { stream := fun _ => 0, pos := 0 } }).enemies.getLast? =
      some (Boss.new 29 1) :=
  (C14_boss_spawn_schedule
      { player := { x := 29, y := 16 }, frame := 2249,
        rng := { stream := fun _ => 0, pos := 0 } }).2.2.1 (by decide)


/-! ## The boss burst -/

theorem Enemy.decFireTimer_pos (e : Enemy) :
    e.decFireTimer.x = e.x ∧ e.decFireTimer.y = e.y ∧
    e.decFireTimer.fireCooldown = e.fireCooldown ∧ e.decFireTimer.hp = e.hp := by
  simp only [Enemy.decFireTimer]
  split_ifs <;> exact ⟨rfl, rfl, rfl, rfl⟩

theorem Enemy.clampX_pos (e : Enemy) :
    0 ≤ e.clampX.x ∧ e.clampX.x ≤ GRID_COLS - 1 ∧ e.clampX.y = e.y ∧
    e.clampX.fireCooldown = e.fireCooldown ∧ e.clampX.hp = e.hp := by
  simp only [Enemy.clampX, GRID_COLS]
  split_ifs <;> first | (simp at *; done) | (simp at *; omega)

theorem Enemy.clampY_pos (e : Enemy) :
    0 ≤ e.clampY.y ∧ e.clampY.y ≤ GRID_ROWS - 1 ∧ e.clampY.x = e.x ∧
    e.clampY.fireCooldown = e.fireCooldown ∧ e.clampY.hp = e.hp := by
  simp only [Enemy.clampY, GRID_ROWS]
  split_ifs <;> first | (simp at *; done) | (simp at *; omega)

theorem Enemy.stepMove_keeps (e : Enemy) :
    e.stepMove.fireCooldown = e.fireCooldown ∧ e.stepMove.hp = e.hp := by
  simp only [Enemy.stepMove]
  split_ifs <;> exact ⟨rfl, rfl⟩

theorem Enemy.pickBurst_keeps (e : Enemy) (g : Rng) :
    (e.pickBurst g).1.fireCooldown = e.fireCooldown ∧ (e.pickBurst g).1.hp = e.hp ∧
    (e.pickBurst g).1.x = e.x ∧ (e.pickBurst g).1.y = e.y := by
  simp only [Enemy.pickBurst]
  split_ifs <;> exact ⟨rfl, rfl, rfl, rfl⟩

/-- The base update leaves an enemy alone when paused and clamps it into the
arena otherwise; it never changes the fire cooldown or the hit points. -/
theorem Enemy.update_pos (e : Enemy) (g : Rng) :
    (0 < e.pauseTimer → (e.update g).1.x = e.x ∧ (e.update g).1.y = e.y) ∧
    (¬ 0 < e.pauseTimer → (e.update g).1.inArena) ∧
    (e.update g).1.fireCooldown = e.fireCooldown ∧ (e.update g).1.hp = e.hp := by
  simp only [Enemy.update]
  split_ifs with hp
  · obtain ⟨h1, h2, h3, h4⟩ := Enemy.decFireTimer_pos { e with pauseTimer := e.pauseTimer - 1 }
    exact ⟨fun _ => ⟨h1, h2⟩, fun h => absurd hp h, h3, h4⟩
  · obtain ⟨p1, p2, _, _⟩ := Enemy.pickBurst_keeps e g
    obtain ⟨s1, s2⟩ := Enemy.stepMove_keeps (e.pickBurst g).1
    obtain ⟨x1, x2, x3, x4, x5⟩ := Enemy.clampX_pos (e.pickBurst g).1.stepMove
    obtain ⟨y1, y2, y3, y4, y5⟩ := Enemy.clampY_pos (e.pickBurst g).1.stepMove.clampX
    obtain ⟨d1, d2, d3, d4⟩ := Enemy.decFireTimer_pos (e.pickBurst g).1.stepMove.clampX.clampY
    refine ⟨fun h => absurd h hp, fun _ => ?_, ?_, ?_⟩
    · simp only [Enemy.inArena, d1, d2, y3]
      exact ⟨x1, x2, y1, y2⟩
    · rw [d3, y4, x4, s1, p1]
    · rw [d4, y5, x5, s2, p2]

theorem Enemy.update_inArena (e : Enemy) (g : Rng) (h : e.inArena) : (e.update g).1.inArena := by
  obtain ⟨h1, h2, _, _⟩ := Enemy.update_pos e g
  by_cases hp : 0 < e.pauseTimer
  · obtain ⟨hx, hy⟩ := h1 hp
    simp only [Enemy.inArena] at h ⊢
    rw [hx, hy]
    exact h
  · exact h2 hp

theorem bossBurst_eq (cx cy : Int) (ds : List (Int × Int)) :
    ∀ bullets : List Bullet,
      bossBurst cx cy ds bullets =
        if cx ≥ 0 ∧ cx < GRID_COLS ∧ cy ≥ 0 ∧ cy < GRID_ROWS then
          bullets ++ ds.map fun d => { x := cx, y := cy, dx := d.1, dy := d.2, symbol := 'O' }
        else bullets := by
  induction ds with
  | nil => intro bullets; simp [bossBurst]
  | cons d ds ih =>
    intro bullets
    simp only [bossBurst]
    split_ifs with h
    · rw [ih, if_pos h]
      simp
    · rw [ih, if_neg h]

/-- C15 (as stated) fails: a live Boss at `x = 59`, inside the arena and able
to fire, adds no bullet at all, because the burst starts from the cell
`(x + 1, y)` and is dropped when that cell is outside the grid; and a Boss at
`(29, 1)` starts its 16 bullets from `(30, 1)`, not from its reference cell. -/
theorem C15_counterexample :
    (0 ≤ (59 : Int) ∧ (59 : Int) ≤ GRID_COLS - 1 ∧ 0 < (Boss.new 59 1).hp ∧
      ((Enemy.vUpdate { Boss.new 59 1 with pauseTimer := 3 }
        { stream := fun _ => 0, pos := 0 }).1.fireTimer = 0) ∧
      (updateEnemy { x := 29, y := 16 } { stream := fun _ => 0, pos := 0 } []
        { Boss.new 59 1 with pauseTimer := 3 }).2.1 = []) ∧
    ((updateEnemy { x := 29, y := 16 } { stream := fun _ => 0, pos := 0 } []
        { Boss.new 29 1 with pauseTimer := 3 }).2.1.map (fun b => (b.x, b.y)) =
      List.replicate 16 (30, 1)) := by
  decide

/-- C15 (amended): whenever a live Boss is able to fire (its fire timer is 0
after its update), its fire timer is reset to its cooldown, and the burst
starts from the centre cell `(x + 1, y)` of its top row: if that cell is
inside the grid, exactly 16 bullets of kind `'O'` are added, all starting
there, with the 16 pairwise distinct velocities of the table (4 cardinal
`(0,±2),(±2,0)`, 4 diagonal `(±2,±2)`, 8 knight's-move `(±2,±1),(±1,±2)`);
if it is not, no bullet is added. For a Boss inside the arena the cell is
inside the grid exactly when `x ≤ 58` after the update. -/
theorem C15_boss_burst_from_centre (player : Player) (g : Rng) (bullets : List Bullet)
    (e : Enemy) (hk : e.kind = EnemyKind.Boss) (ha : 0 < e.hp)
    (hf : (e.vUpdate g).1.fireTimer = 0) :
    ((e.vUpdate g).1.burstInGrid →
      (updateEnemy player g bullets e).2.1 =
        bullets ++ bossDirs.map fun d =>
          { x := (e.vUpdate g).1.x + 1, y := (e.vUpdate g).1.y, dx := d.1, dy := d.2,
            symbol := 'O' }) ∧
    (¬ (e.vUpdate g).1.burstInGrid → (updateEnemy player g bullets e).2.1 = bullets) ∧
    (updateEnemy player g bullets e).2.2.fireTimer = e.fireCooldown ∧
    (e.inArena → (e.vUpdate g).1.inArena ∧
      ((e.vUpdate g).1.burstInGrid ↔ (e.vUpdate g).1.x ≤ 58)) ∧
    bossDirs.length = 16 ∧ bossDirs.Nodup ∧
    bossDirs.Perm
      ([(0, -2), (0, 2), (-2, 0), (2, 0)] ++
       [(2, 2), (2, -2), (-2, 2), (-2, -2)] ++
       [(2, 1), (2, -1), (-2, 1), (-2, -1), (1, 2), (1, -2), (-1, 2), (-1, -2)]) := by
  have hal : e.isAlive = true := by simpa [Enemy.isAlive] using ha
  have hk1 : (e.vUpdate g).1.kind = EnemyKind.Boss := by rw [Enemy.vUpdate_kind, hk]
  have hcf : (e.vUpdate g).1.canFire = true := by
    simp only [Enemy.canFire, hk1, hf, decide_True]
  have hv : e.vUpdate g = e.update g := by
    simp only [Enemy.vUpdate, hk]
  have hu : updateEnemy player g bullets e =
      ((e.vUpdate g).2, bossBurst ((e.vUpdate g).1.x + 1) ((e.vUpdate g).1.y + 0) bossDirs bullets,
        (e.vUpdate g).1.resetFire) := by
    simp only [updateEnemy, hal, Bool.true_eq_false, if_false, hcf, if_true, hk1]
  refine ⟨?_, ?_, ?_, ?_, by decide, by decide, by decide⟩
  · intro hg
    rw [hu, bossBurst_eq, if_pos (by exact hg)]
    simp
  · intro hg
    rw [hu, bossBurst_eq, if_neg (by exact hg)]
  · rw [hu]
    simp only [Enemy.resetFire, hk1]
    rw [hv]
    exact (Enemy.update_pos e g).2.2.1
  · intro hin
    have h2 := Enemy.update_inArena e g hin
    rw [← hv] at h2
    refine ⟨h2, ?_⟩
    simp only [Enemy.inArena, Enemy.burstInGrid, GRID_COLS, GRID_ROWS] at h2 ⊢
    omega

/-- Witness for the amended C15: a Boss at (29, 1), paused, with its fire
timer at 0. -/
theorem C15_boss_burst_from_centre_witness :
    (updateEnemy { x := 29, y := 16 } { stream := fun _ => 0, pos := 0 } []
        { Boss.new 29 1 with pauseTimer := 3 }).2.2.fireTimer =
      (Boss.new 29 1).fireCooldown :=
  (C15_boss_burst_from_centre { x := 29, y := 16 } { stream := fun _ => 0, pos := 0 } []
    { Boss.new 29 1 with pauseTimer := 3 } rfl (by decide) (by decide)).2.2.1


/-! ## Upgrades -/

/-- C18: for every permutation of the 7-entry catalog that the shuffle can
produce, `offerUpgrades` leaves `offeredUpgrades` with exactly 3 entries,
pairwise distinct, each one of the 7 upgrade kinds, and sets the pending
flag. -/
theorem C18_offer_three_distinct (g : Game) (shuffled : List UpgradeType)
    (hperm : shuffled.Perm allUpgrades) :
    (g.offerUpgrades shuffled).offeredUpgrades.length = 3 ∧
    (g.offerUpgrades shuffled).offeredUpgrades.Nodup ∧
    (∀ u ∈ (g.offerUpgrades shuffled).offeredUpgrades, u ∈ allUpgrades) ∧
    (g.offerUpgrades shuffled).upgradePending = true ∧
    allUpgrades.length = 7 ∧ allUpgrades.Nodup := by
  have hlen : shuffled.length = 7 := by rw [hperm.length_eq]; rfl
  have hnd : shuffled.Nodup := hperm.nodup_iff.2 (by decide)
  refine ⟨?_, ?_, ?_, rfl, rfl, by decide⟩
  · simp only [Game.offerUpgrades, List.length_take, hlen]
    rfl
  · simp only [Game.offerUpgrades]
    exact hnd.sublist (List.take_sublist 3 shuffled)
  · intro u hu
    simp only [Game.offerUpgrades] at hu
    exact hperm.subset (List.mem_of_mem_take hu)

/-- Witness for C18: the catalog reversed. -/
theorem C18_offer_three_distinct_witness :
    (Game.offerUpgrades { player := { x := 29, y := 16 }, rng := { stream := fun _ => 0, pos := 0 } }
      allUpgrades.reverse).offeredUpgrades.length = 3 :=
  (C18_offer_three_distinct { player := { x := 29, y := 16 }, rng := { stream := fun _ => 0, pos := 0 } }
    allUpgrades.reverse (List.reverse_perm allUpgrades)).1

theorem Player.applyUpgrade_streams (p : Player) (upg : UpgradeType) :
    (p.applyUpgrade upg).bulletStreams =
      (if upg = UpgradeType.BulletsAmount ∧ p.bulletStreams < 8 then p.bulletStreams + 1
       else p.bulletStreams) ∧
    (p.applyUpgrade upg).lifeStealPercent =
      (if upg = UpgradeType.LifeSteal then p.lifeStealPercent + 5 else p.lifeStealPercent) := by
  cases upg <;> simp [Player.applyUpgrade]
  split_ifs <;> exact ⟨rfl, rfl⟩

/-- After any sequence of upgrades the streams stay within the bounds they
started in, and the life-steal percent has grown by 5 per LifeSteal upgrade. -/
theorem applyUpgrades_streams (upgs : List UpgradeType) :
    ∀ p : Player, 1 ≤ p.bulletStreams → p.bulletStreams ≤ 8 →
      1 ≤ (upgs.foldl Player.applyUpgrade p).bulletStreams ∧
      (upgs.foldl Player.applyUpgrade p).bulletStreams ≤ 8 ∧
      (upgs.foldl Player.applyUpgrade p).lifeStealPercent =
        p.lifeStealPercent + 5 * (upgs.count UpgradeType.LifeSteal : Int) := by
  induction upgs with
  | nil => intro p h1 h8; simp [h1, h8]
  | cons u us ih =>
    intro p h1 h8
    obtain ⟨hs, hl⟩ := Player.applyUpgrade_streams p u
    have hs1 : 1 ≤ (p.applyUpgrade u).bulletStreams := by rw [hs]; split_ifs <;> omega
    have hs8 : (p.applyUpgrade u).bulletStreams ≤ 8 := by rw [hs]; split_ifs <;> omega
    obtain ⟨i1, i2, i3⟩ := ih (p.applyUpgrade u) hs1 hs8
    refine ⟨i1, i2, ?_⟩
    simp only [List.foldl_cons]
    rw [i3, hl]
    by_cases hu : u = UpgradeType.LifeSteal
    · subst hu
      simp only [if_true, List.count_cons_self]
      push_cast
      ring
    · rw [if_neg hu, List.count_cons_of_ne (fun h => hu h.symm)]

/-- C20 (as stated) fails: twenty LifeSteal upgrades from the initial player
bring the life-steal percent to 100, which is not below 100. -/
theorem C20_counterexample :
    ((List.replicate 20 UpgradeType.LifeSteal).foldl Player.applyUpgrade
      { x := 29, y := 16, bulletStreams := 1, lifeStealPercent := 0 }).lifeStealPercent = 100 ∧
    ¬ (((List.replicate 20 UpgradeType.LifeSteal).foldl Player.applyUpgrade
      { x := 29, y := 16, bulletStreams := 1, lifeStealPercent := 0 }).lifeStealPercent < 100) := by
  decide

/-- C20 (amended): for every sequence of upgrade applications starting from
the initial player (`bulletStreams = 1`, `lifeStealPercent = 0`), the player's
`bulletStreams` stays in `[1, 8]`, and `lifeStealPercent` is 5 times the
number of LifeSteal upgrades applied: it is never negative, it has no upper
bound, and it is below 100 exactly while fewer than 20 LifeSteal upgrades have
been applied. -/
theorem C20_streams_bounded_lifesteal_unbounded (upgs : List UpgradeType) (x y : Int) :
    1 ≤ (upgs.foldl Player.applyUpgrade { x := x, y := y }).bulletStreams ∧
    (upgs.foldl Player.applyUpgrade { x := x, y := y }).bulletStreams ≤ 8 ∧
    (upgs.foldl Player.applyUpgrade { x := x, y := y }).lifeStealPercent =
      5 * (upgs.count UpgradeType.LifeSteal : Int) ∧
    0 ≤ (upgs.foldl Player.applyUpgrade { x := x, y := y }).lifeStealPercent ∧
    ((upgs.foldl Player.applyUpgrade { x := x, y := y }).lifeStealPercent < 100 ↔
      upgs.count UpgradeType.LifeSteal < 20) := by
  obtain ⟨h1, h2, h3⟩ := applyUpgrades_streams upgs { x := x, y := y } (by simp) (by simp)
  have h4 : (upgs.foldl Player.applyUpgrade { x := x, y := y }).lifeStealPercent =
      5 * (upgs.count UpgradeType.LifeSteal : Int) := by
    rw [h3]; simp
  refine ⟨h1, h2, h4, ?_, ?_⟩
  · rw [h4]; omega
  · rw [h4]; omega


/-! ## Scripted bullets -/

/-- The `while` loop spawns the longest run of due records at the cursor. -/
theorem spawnLoop_eq (frame : Int) (rest : List BulletSpawn) :
    ∀ (n : Nat) (bs : List Bullet),
      spawnLoop frame rest n bs =
        (n + (rest.takeWhile fun s => decide (s.time ≤ frame)).length,
         bs ++ ((rest.takeWhile fun s => decide (s.time ≤ frame)).map BulletSpawn.toBullet)) := by
  induction rest with
  | nil => intro n bs; simp [spawnLoop]
  | cons s rest ih =>
    intro n bs
    simp only [spawnLoop]
    split_ifs with h
    · rw [ih]
      simp only [List.takeWhile_cons, h, decide_True, if_true, List.length_cons, List.map_cons,
        List.append_assoc, List.singleton_append, BulletSpawn.toBullet]
      congr 1
      omega
    · simp [List.takeWhile_cons, h]

/-- In a schedule sorted by trigger frame, the run of due records is exactly
the set of due records. -/
theorem takeWhile_due_sorted (frame : Int) (l : List BulletSpawn)
    (hs : l.Pairwise fun a b => a.time ≤ b.time) :
    ∀ (j : Nat) (s : BulletSpawn), l[j]? = some s →
      (j < (l.takeWhile fun s => decide (s.time ≤ frame)).length ↔ s.time ≤ frame) := by
  induction l with
  | nil => intro j s h; simp at h
  | cons a t ih =>
    intro j s h
    rw [List.pairwise_cons] at hs
    by_cases ha : a.time ≤ frame
    · simp only [List.takeWhile_cons, ha, decide_True, if_true, List.length_cons]
      cases j with
      | zero =>
        simp only [List.getElem?_cons_zero, Option.some.injEq] at h
        subst h
        simp [ha]
      | succ j =>
        simp only [List.getElem?_cons_succ] at h
        have := ih hs.2 j s h
        omega
    · simp only [List.takeWhile_cons, ha, decide_False, Bool.false_eq_true, if_false,
        List.length_nil, Nat.not_lt_zero, false_iff]
      cases j with
      | zero =>
        simp only [List.getElem?_cons_zero, Option.some.injEq] at h
        subst h
        exact ha
      | succ j =>
        simp only [List.getElem?_cons_succ] at h
        have hm : s ∈ t := List.getElem?_mem h
        have := hs.1 s hm
        omega

theorem takeWhile_length_le (frame : Int) (l : List BulletSpawn) :
    (l.takeWhile fun s => decide (s.time ≤ frame)).length ≤ l.length :=
  (List.takeWhile_sublist _).length_le

theorem takeWhile_eq_take (frame : Int) (l : List BulletSpawn) :
    l.takeWhile (fun s => decide (s.time ≤ frame)) =
      l.take (l.takeWhile fun s => decide (s.time ≤ frame)).length := by
  induction l with
  | nil => rfl
  | cons a t ih =>
    simp only [List.takeWhile_cons]
    split_ifs
    · simp only [List.length_cons, List.take_succ_cons]
      rw [← ih]
    · rfl

/-- One call of `spawnBullets`: the schedule is untouched, the cursor moves
forward over the run of due records, and these are appended in order. -/
theorem BulletManager.spawnBullets_eq (m : BulletManager) (frame : Int) (bs : List Bullet) :
    (m.spawnBullets frame bs).1.spawns = m.spawns ∧
    (m.spawnBullets frame bs).1.nextSpawn =
      m.nextSpawn +
        ((m.spawns.drop m.nextSpawn).takeWhile fun s => decide (s.time ≤ frame)).length ∧
    (m.spawnBullets frame bs).2 =
      bs ++ (((m.spawns.drop m.nextSpawn).takeWhile fun s => decide (s.time ≤ frame)).map
        BulletSpawn.toBullet) := by
  simp only [BulletManager.spawnBullets, spawnLoop_eq, and_self]


/-- A sequence of calls from cursor `n`: the cursor only moves forward and
stays within the schedule, the bullets appended are the records between the
old and the new cursor, in schedule order; and when the schedule is sorted by
trigger frame, a record from the old cursor on has been passed iff its trigger
frame is at most one of the frames. -/
theorem spawnSeq_spec (spawns : List BulletSpawn) (fs : List Int) :
    ∀ (n : Nat) (bs : List Bullet), n ≤ spawns.length →
      (spawnSeq { spawns := spawns, nextSpawn := n } bs fs).1.spawns = spawns ∧
      n ≤ (spawnSeq { spawns := spawns, nextSpawn := n } bs fs).1.nextSpawn ∧
      (spawnSeq { spawns := spawns, nextSpawn := n } bs fs).1.nextSpawn ≤ spawns.length ∧
      (spawnSeq { spawns := spawns, nextSpawn := n } bs fs).2 =
        bs ++ (((spawns.drop n).take
          ((spawnSeq { spawns := spawns, nextSpawn := n } bs fs).1.nextSpawn - n)).map
            BulletSpawn.toBullet) ∧
      ((spawns.Pairwise fun a b => a.time ≤ b.time) →
        ∀ (i : Nat) (s : BulletSpawn), spawns[i]? = some s → n ≤ i →
          (i < (spawnSeq { spawns := spawns, nextSpawn := n } bs fs).1.nextSpawn ↔
            ∃ f ∈ fs, s.time ≤ f)) := by
  induction fs with
  | nil =>
    intro n bs hn
    simp only [spawnSeq, le_refl, Nat.sub_self, List.take_zero, List.map_nil, List.append_nil,
      true_and, List.not_mem_nil, false_and, exists_false, iff_false]
    exact ⟨hn, fun _ i s _ hi => by omega⟩
  | cons f fs ih =>
    intro n bs hn
    obtain ⟨e1, e2, e3⟩ := BulletManager.spawnBullets_eq { spawns := spawns, nextSpawn := n } f bs
    simp only at e1 e2 e3
    have hk := takeWhile_length_le f (spawns.drop n)
    rw [List.length_drop] at hk
    generalize hkdef : ((spawns.drop n).takeWhile fun s => decide (s.time ≤ f)).length = k
      at e2 e3 hk
    have hm1 : (BulletManager.spawnBullets { spawns := spawns, nextSpawn := n } f bs).1 =
        { spawns := spawns, nextSpawn := n + k } := by
      cases hb : (BulletManager.spawnBullets { spawns := spawns, nextSpawn := n } f bs).1 with
      | mk sp nx =>
        rw [hb] at e1 e2
        simp only at e1 e2
        rw [e1, e2]
    have hb1 : (BulletManager.spawnBullets { spawns := spawns, nextSpawn := n } f bs).2 =
        bs ++ ((spawns.drop n).take k).map BulletSpawn.toBullet := by
      rw [e3, takeWhile_eq_take, hkdef]
    obtain ⟨i1, i2, i3, i4, i5⟩ := ih (n + k)
      (bs ++ ((spawns.drop n).take k).map BulletSpawn.toBullet) (by omega)
    simp only [spawnSeq, hm1, hb1]
    generalize (spawnSeq { spawns := spawns, nextSpawn := n + k }
      (bs ++ ((spawns.drop n).take k).map BulletSpawn.toBullet) fs) = r at i1 i2 i3 i4 i5
    refine ⟨i1, by omega, i3, ?_, ?_⟩
    · rw [i4, List.append_assoc, ← List.map_append]
      congr 2
      have hc : r.1.nextSpawn - n = k + (r.1.nextSpawn - (n + k)) := by omega
      rw [hc, List.take_add, List.drop_drop]
    · intro hs i s hi hni
      have hsd : (spawns.drop n).Pairwise fun a b => a.time ≤ b.time :=
        hs.sublist (List.drop_sublist n spawns)
      have hget : (spawns.drop n)[i - n]? = some s := by
        rw [List.getElem?_drop]
        have : n + (i - n) = i := by omega
        rw [this, hi]
      have h1 := takeWhile_due_sorted f (spawns.drop n) hsd (i - n) s hget
      rw [hkdef] at h1
      by_cases hik : i < n + k
      · have hsf : s.time ≤ f := h1.1 (by omega)
        constructor
        · intro _
          exact ⟨f, List.mem_cons_self f fs, hsf⟩
        · intro _
          omega
      · have hsf : ¬ s.time ≤ f := fun h => hik (by have := h1.2 h; omega)
        rw [i5 hs i s hi (by omega)]
        constructor
        · rintro ⟨f2, hf2, ht⟩
          exact ⟨f2, List.mem_cons_of_mem f hf2, ht⟩
        · rintro ⟨f2, hf2, ht⟩
          rcases List.mem_cons.1 hf2 with h | h
          · exact absurd (h ▸ ht) hsf
          · exact ⟨f2, h, ht⟩

/-- C16: a sequence of `spawnBullets` calls with frames `f1, f2, ...` over a
schedule sorted by trigger frame, from a fresh cursor: no call moves the
cursor backwards; the bullets added are exactly the records before the final
cursor, each once, in schedule order, each as a `'*'` bullet with the
record's `x, y, dx, dy`; and a record has been spawned iff its trigger frame
is at most one of the frames seen, so after a call with frame `f` every
record due at `f` has been spawned and no record later than every frame seen
has. -/
theorem C16_scripted_bullets_spawn_once (spawns : List BulletSpawn) (bs : List Bullet)
    (fs : List Int) (hs : spawns.Pairwise fun a b => a.time ≤ b.time) :
    (∀ (m : BulletManager) (f : Int) (bullets : List Bullet),
      m.nextSpawn ≤ (m.spawnBullets f bullets).1.nextSpawn) ∧
    (spawnSeq { spawns := spawns, nextSpawn := 0 } bs fs).1.nextSpawn ≤ spawns.length ∧
    (spawnSeq { spawns := spawns, nextSpawn := 0 } bs fs).2 =
      bs ++ ((spawns.take (spawnSeq { spawns := spawns, nextSpawn := 0 } bs fs).1.nextSpawn).map
        fun s => { x := s.x, y := s.y, dx := s.dx, dy := s.dy, symbol := '*' }) ∧
    (∀ (i : Nat) (s : BulletSpawn), spawns[i]? = some s →
      (i < (spawnSeq { spawns := spawns, nextSpawn := 0 } bs fs).1.nextSpawn ↔
        ∃ f ∈ fs, s.time ≤ f)) := by
  obtain ⟨_, _, h3, h4, h5⟩ := spawnSeq_spec spawns fs 0 bs (Nat.zero_le _)
  refine ⟨?_, h3, ?_, ?_⟩
  · intro m f bullets
    rw [(BulletManager.spawnBullets_eq m f bullets).2.1]
    omega
  · rw [h4]
    simp only [List.drop_zero, Nat.sub_zero]
    rfl
  · intro i s hi
    exact h5 hs i s hi (Nat.zero_le _)

/-- Witness for C16: a schedule of three records and the frames 0 and 1. -/
theorem C16_scripted_bullets_spawn_once_witness :
    (spawnSeq
      { spawns := [{ time := 0, x := 5, y := 1, dx := 0, dy := 1 },
                   { time := 1, x := 6, y := 1, dx := 0, dy := 1 },
                   { time := 9, x := 7, y := 1, dx := 0, dy := 1 }],
        nextSpawn := 0 } [] [0, 1]).1.nextSpawn ≤ 3 :=
  (C16_scripted_bullets_spawn_once
      [{ time := 0, x := 5, y := 1, dx := 0, dy := 1 },
       { time := 1, x := 6, y := 1, dx := 0, dy := 1 },
       { time := 9, x := 7, y := 1, dx := 0, dy := 1 }] [] [0, 1] (by decide)).2.1

/-! ## Loading the pattern -/

/-- C17 (the code at the failing input): the pattern text with the lines
`0 5 5 0 1` and `oops` makes `loadPattern` throw at the second line, but the
record of the first line stays in the schedule; the run that follows spawns it
on its first tick, where it then sits at `(5, 6)` in the bullet collection. -/
theorem C17_failed_load_keeps_records :
    BulletManager.loadPattern {} (some ["0 5 5 0 1".toList, "oops".toList]) =
      ({ spawns := [{ time := 0, x := 5, y := 5, dx := 0, dy := 1 }], nextSpawn := 0 },
        some LoadError.invalidFormat) ∧
    (((Game.boot (some ["0 5 5 0 1".toList, "oops".toList])
        { stream := fun _ => 0, pos := 0 }).runTicks [{}]).map
      fun g => decide (({ x := 5, y := 6, dx := 0, dy := 1, symbol := '*' } : Bullet) ∈ g.bullets)) =
      some true := by
  decide


/-- A failed load keeps what it had pushed: when the lines `good` all parse
and the next line is neither empty nor a comment and does not parse, the
loop throws with the records of `good` appended to the schedule. -/
theorem loadLines_throw (good : List (List Char)) (bad : List Char) (rest : List (List Char)) :
    ∀ (spawns recs : List BulletSpawn),
      good.map parseLine = recs.map some →
      (∀ l ∈ good, ¬ (l = [] ∨ l.head? = some '#')) →
      ¬ (bad = [] ∨ bad.head? = some '#') → parseLine bad = none →
      loadLines spawns (good ++ bad :: rest) = (spawns ++ recs, true) := by
  induction good with
  | nil =>
    intro spawns recs hg _ hb hp
    cases recs with
    | nil => simp [loadLines, hb, hp]
    | cons r rs => simp at hg
  | cons l ls ih =>
    intro spawns recs hg hn hb hp
    cases recs with
    | nil => simp at hg
    | cons r rs =>
      simp only [List.map_cons, List.cons.injEq] at hg
      have hl := hn l (List.mem_cons_self l ls)
      simp only [List.cons_append, loadLines, hl, if_false, hg.1]
      have h := ih (spawns ++ [r]) rs hg.2 (fun l2 h2 => hn l2 (List.mem_cons_of_mem l h2)) hb hp
      simpa using h

/-! ## The upgrade pause -/

theorem readChoice_valid (c : Char) (rest : List Char) (hc : validChoice c) :
    ∀ (junk : List Char) (n : Int), (n < 1 ∨ n > 3) → (∀ d ∈ junk, ¬ validChoice d) →
      readChoice n (junk ++ c :: rest) = some ((c.toNat : Int) - 48) := by
  intro junk
  induction junk with
  | nil =>
    intro n hn _
    simp only [List.nil_append, readChoice, hn, if_true]
    cases rest with
    | nil =>
      have : ¬ ((c.toNat : Int) - 48 < 1 ∨ (c.toNat : Int) - 48 > 3) := by
        simp only [validChoice] at hc; omega
      simp only [readChoice, this, if_false]
    | cons r rs =>
      have : ¬ ((c.toNat : Int) - 48 < 1 ∨ (c.toNat : Int) - 48 > 3) := by
        simp only [validChoice] at hc; omega
      simp only [readChoice, this, if_false]
  | cons d ds ih =>
    intro n hn hj
    have hd := hj d (List.mem_cons_self d ds)
    simp only [List.cons_append, readChoice, hn, if_true]
    apply ih
    · simp only [validChoice] at hd; omega
    · exact fun x hx => hj x (List.mem_cons_of_mem d hx)

theorem readChoice_invalid (chars : List Char) :
    ∀ n : Int, (n < 1 ∨ n > 3) → (∀ d ∈ chars, ¬ validChoice d) → readChoice n chars = none := by
  induction chars with
  | nil => intro n hn _; simp [readChoice, hn]
  | cons d ds ih =>
    intro n hn hj
    have hd := hj d (List.mem_cons_self d ds)
    simp only [readChoice, hn, if_true]
    apply ih
    · simp only [validChoice] at hd; omega
    · exact fun x hx => hj x (List.mem_cons_of_mem d hx)

theorem readChoice_range (chars : List Char) :
    ∀ n m : Int, readChoice n chars = some m → 1 ≤ m ∧ m ≤ 3 := by
  induction chars with
  | nil =>
    intro n m h
    simp only [readChoice] at h
    split_ifs at h with hn
    simp only [Option.some.injEq] at h
    omega
  | cons d ds ih =>
    intro n m h
    simp only [readChoice] at h
    split_ifs at h with hn
    · exact ih _ m h
    · simp only [Option.some.injEq] at h
      omega

/-- The cross-contact check on one Hazard enemy that is alive and Firing. -/
theorem crossOne_firing (p : Player) (running : Bool) (e : Enemy)
    (hk : e.kind = EnemyKind.Ray) (ha : 0 < e.hp) (hs : e.state = RayState.Firing) :
    crossOne p running e =
      if e.playerDamagedThisFire = true then (p, running, e)
      else if crossHit p e = true then
        ({ p with hp := if p.hp - 2 < 0 then 0 else p.hp - 2 },
          (if (if p.hp - 2 < 0 then (0 : Int) else p.hp - 2) ≤ 0 then false else running),
          { e with playerDamagedThisFire := true })
      else (p, running, e) := by
  have hal : e.isAlive = true := by simpa [Enemy.isAlive] using ha
  have hfi : e.isFiring = true := by simp [Enemy.isFiring, hs]
  simp only [crossOne, crossEnemies, hk, hal, hfi, not_true_eq_false, Bool.true_eq_false,
    or_self, if_false, RayEnemy.DAMAGE]
  split_ifs <;> rfl

/-- The cross-contact check leaves alone everything but a live, Firing Hazard
enemy whose flag is not set. -/
theorem crossOne_idle (p : Player) (running : Bool) (e : Enemy)
    (h : e.kind ≠ EnemyKind.Ray ∨ e.hp ≤ 0 ∨ e.state ≠ RayState.Firing ∨
      e.playerDamagedThisFire = true) :
    crossOne p running e = (p, running, e) := by
  by_cases hc : ¬ (e.kind = EnemyKind.Ray) ∨ e.isAlive = false ∨ e.isFiring = false
  · simp only [crossOne, crossEnemies, hc, if_true, List.headD_cons]
  · have hk : e.kind = EnemyKind.Ray := by
      by_contra hn; exact hc (Or.inl hn)
    have hal : ¬ e.isAlive = false := fun hn => hc (Or.inr (Or.inl hn))
    have hfi : ¬ e.isFiring = false := fun hn => hc (Or.inr (Or.inr hn))
    have hflag : e.playerDamagedThisFire = true := by
      rcases h with h | h | h | h
      · exact absurd hk h
      · exact absurd (Enemy.isAlive_dead e h) hal
      · exfalso; apply hfi; simp [Enemy.isFiring, h]
      · exact h
    simp only [crossOne, crossEnemies, hc, if_false, hflag, if_true, List.headD_cons]

theorem RayEnemy.update_firing (e : Enemy) (g : Rng) (hs : e.state = RayState.Firing)
    (ht : 1 < e.timer) : RayEnemy.update e g = ({ e with timer := e.timer - 1 }, g) := by
  unfold RayEnemy.update
  rw [hs]
  simp only
  rw [if_neg (by omega)]

theorem RayEnemy.update_enter (e : Enemy) (g : Rng) (hs : e.state = RayState.Flashing)
    (ht : e.timer ≤ 1) :
    RayEnemy.update e g =
      ({ e with state := RayState.Firing, timer := RayEnemy.FIRE_FRAMES,
                playerDamagedThisFire := false }, g) := by
  unfold RayEnemy.update
  rw [hs]
  simp only
  rw [if_pos (by omega)]

theorem updateEnemy_ray (player : Player) (g : Rng) (bullets : List Bullet) (e : Enemy)
    (hk : e.kind = EnemyKind.Ray) (ha : 0 < e.hp) :
    updateEnemy player g bullets e =
      ((RayEnemy.update e g).2, bullets, (RayEnemy.update e g).1) := by
  have hal : e.isAlive = true := by simpa [Enemy.isAlive] using ha
  have hv : e.vUpdate g = RayEnemy.update e g := by simp only [Enemy.vUpdate, hk]
  have hk1 : (RayEnemy.update e g).1.kind = EnemyKind.Ray := by
    rw [(RayEnemy.update_phase e g).1, hk]
  simp only [updateEnemy, hal, Bool.true_eq_false, Bool.false_eq_true, if_false, hv,
    Enemy.canFire, hk1]

theorem crossHit_congr (p : Player) (e f : Enemy) (hx : e.x = f.x) (hy : e.y = f.y) :
    crossHit p e = crossHit p f := by
  simp only [crossHit, hx, hy]

theorem crossOnce_congr (e f : Enemy) (hx : e.x = f.x) (hy : e.y = f.y) (ps : List Player) :
    ∀ d : Bool, crossOnce e d ps = crossOnce f d ps := by
  induction ps with
  | nil => intro d; cases d <;> rfl
  | cons p ps ih =>
    intro d
    cases d
    · simp only [crossOnce, crossHit_congr p e f hx hy, ih]
    · simp only [crossOnce, ih]

theorem hp_floor (h : Int) : (if h - 2 < 0 then 0 else h - 2) = h - min h 2 := by
  split_ifs <;> omega

theorem crossOnce_cons (e : Enemy) (d : Bool) (p : Player) (ps : List Player) :
    crossOnce e d (p :: ps) =
      (if d = false ∧ crossHit p e = true then
          { p with hp := p.hp - min p.hp 2 } else p) ::
        crossOnce e (d || crossHit p e) ps := by
  cases d
  · by_cases hh : crossHit p e = true
    · simp [crossOnce, hh]
    · simp [crossOnce, hh]
  · simp [crossOnce]

/-- One tick of a Hazard enemy that stays Firing: the update only counts the
timer down, the cross check damages the player iff the flag is clear and the
cross is touched, and then sets the flag. -/
theorem hazard_step (p : Player) (e : Enemy) (g : Rng)
    (hk : e.kind = EnemyKind.Ray) (ha : 0 < e.hp) (hs : e.state = RayState.Firing)
    (ht : 1 < e.timer) :
    (updateEnemy p g [] e).1 = g ∧
    (crossOne p true (updateEnemy p g [] e).2.2).1 =
      (if e.playerDamagedThisFire = false ∧ crossHit p e = true then
        { p with hp := p.hp - min p.hp 2 } else p) ∧
    (crossOne p true (updateEnemy p g [] e).2.2).2.2.kind = EnemyKind.Ray ∧
    0 < (crossOne p true (updateEnemy p g [] e).2.2).2.2.hp ∧
    (crossOne p true (updateEnemy p g [] e).2.2).2.2.state = RayState.Firing ∧
    (crossOne p true (updateEnemy p g [] e).2.2).2.2.timer = e.timer - 1 ∧
    (crossOne p true (updateEnemy p g [] e).2.2).2.2.x = e.x ∧
    (crossOne p true (updateEnemy p g [] e).2.2).2.2.y = e.y ∧
    (crossOne p true (updateEnemy p g [] e).2.2).2.2.playerDamagedThisFire =
      (e.playerDamagedThisFire || crossHit p e) := by
  have hu : updateEnemy p g [] e = (g, [], { e with timer := e.timer - 1 }) := by
    rw [updateEnemy_ray p g [] e hk ha, RayEnemy.update_firing e g hs ht]
  have hc := crossOne_firing p true { e with timer := e.timer - 1 } hk ha hs
  have hch : crossHit p { e with timer := e.timer - 1 } = crossHit p e :=
    crossHit_congr p _ e rfl rfl
  rw [hch, hp_floor] at hc
  rw [hu]
  refine ⟨rfl, ?_⟩
  simp only at hc ⊢
  rw [hc]
  by_cases hf : e.playerDamagedThisFire = true
  · simp [hf, hk, ha, hs]
  · have hff : e.playerDamagedThisFire = false := by simpa using hf
    by_cases hh : crossHit p e = true
    · simp [hff, hh, hk, ha, hs]
    · simp [hff, hh, hk, ha, hs]

/-- While a Hazard enemy stays Firing, the players after the cross-contact
checks are those of `crossOnce`, the enemy stays where it is and Firing. -/
theorem hazardRun_firing (ps : List Player) :
    ∀ (e : Enemy) (g : Rng), e.kind = EnemyKind.Ray → 0 < e.hp → e.state = RayState.Firing →
      (ps.length : Int) < e.timer →
      (hazardRun e g ps).map Prod.fst = crossOnce e e.playerDamagedThisFire ps ∧
      (∀ pe ∈ hazardRun e g ps, pe.2.state = RayState.Firing ∧ pe.2.x = e.x ∧ pe.2.y = e.y) := by
  induction ps with
  | nil => intro e g _ _ _ _; simp [hazardRun, crossOnce]
  | cons p ps ih =>
    intro e g hk ha hs ht
    simp only [List.length_cons, Nat.cast_add, Nat.cast_one] at ht
    obtain ⟨h0, h1, h2, h3, h4, h5, h6, h7, h8⟩ := hazard_step p e g hk ha hs (by omega)
    obtain ⟨i1, i2⟩ := ih (crossOne p true (updateEnemy p g [] e).2.2).2.2 g h2 h3 h4
      (by rw [h5]; omega)
    rw [crossOnce_cons]
    simp only [hazardRun, List.map_cons, List.mem_cons, forall_eq_or_imp, h0]
    refine ⟨?_, ⟨h4, h6, h7⟩, ?_⟩
    · rw [i1, h1, h8, crossOnce_congr _ e h6 h7]
    · intro pe hpe
      have := i2 pe hpe
      rw [h6, h7] at this
      exact this

theorem ite_one_le (c : Prop) [Decidable c] : (if c then 1 else 0) ≤ 1 := by
  split_ifs <;> omega

/-- The cross contact changes at most one player of the sequence. -/
theorem crossOnce_changes (e : Enemy) (ps : List Player) :
    ∀ d : Bool,
      ((ps.zip (crossOnce e d ps)).countP fun pq => decide (pq.1 ≠ pq.2)) ≤
        (if d = true then 0 else 1) := by
  induction ps with
  | nil => intro d; cases d <;> simp [crossOnce]
  | cons p ps ih =>
    intro d
    rw [crossOnce_cons, List.zip_cons_cons, List.countP_cons]
    have h := ih (d || crossHit p e)
    generalize List.countP _ (ps.zip (crossOnce e (d || crossHit p e) ps)) = n at h ⊢
    cases d
    · by_cases hh : crossHit p e = true
      · simp only [hh, Bool.or_true, if_true] at h
        have hn : n = 0 := by omega
        rw [hn, zero_add]
        exact ite_one_le _
      · have hh2 : crossHit p e = false := by simpa using hh
        simp only [hh2, Bool.or_false, Bool.false_eq_true, if_false] at h
        simp only [hh2, Bool.false_eq_true, and_false, if_false, ne_eq, not_true_eq_false,
          decide_False, add_zero]
        exact h
    · simp only [Bool.true_or, if_true] at h
      simp only [Bool.true_eq_false, false_and, if_false, ne_eq, not_true_eq_false,
        decide_False, Bool.false_eq_true, add_zero, if_true]
      exact h

/-- The cross of a Hazard enemy is touched iff an occupied cell of the player
footprint has its column within 1 of the enemy column or its row within 1 of
the enemy row. -/
theorem crossHit_iff (p : Player) (e : Enemy) :
    crossHit p e = true ↔
      ∃ c ∈ [((1 : Int), (0 : Int)), (0, 1), (1, 1), (2, 1)],
        |p.x + c.1 - e.x| ≤ 1 ∨ |p.y + c.2 - e.y| ≤ 1 := by
  simp only [crossHit, Player.shape_cells, List.any_eq_true, decide_eq_true_eq, abs_le]
  constructor
  · rintro ⟨c, hc, h⟩
    refine ⟨c, hc, ?_⟩
    rcases h with h | h
    · left; constructor <;> omega
    · right; constructor <;> omega
  · rintro ⟨c, hc, h⟩
    refine ⟨c, hc, ?_⟩
    rcases h with h | h
    · left; constructor <;> omega
    · right; constructor <;> omega

/-- Claim C11. Take a live Hazard enemy about to enter Firing (Flashing with
its timer run out) and any players of the next up to 25 ticks, which are the
ticks of that Firing phase. Running the update and the cross-contact check
tick by tick gives exactly the players of `crossOnce`: the first one whose
footprint touches the cross (a cell with column within 1 or row within 1 of
the enemy) loses `min hp 2`, all the others are unchanged, so at most one
player of the sequence is changed; the enemy is Firing at its place in all
these ticks. Outside Firing, or with the flag set, for a dead enemy or another
kind the check changes nothing. -/
theorem C11_cross_contact_once_per_firing (e : Enemy) (g : Rng) (ps : List Player)
    (hk : e.kind = EnemyKind.Ray) (ha : 0 < e.hp) (hs : e.state = RayState.Flashing)
    (ht : e.timer ≤ 1) (hl : ps.length ≤ 25) :
    (hazardRun e g ps).map Prod.fst = crossOnce e false ps ∧
    (∀ pe ∈ hazardRun e g ps,
      pe.2.state = RayState.Firing ∧ pe.2.x = e.x ∧ pe.2.y = e.y) ∧
    ((ps.zip ((hazardRun e g ps).map Prod.fst)).countP fun pq => decide (pq.1 ≠ pq.2)) ≤ 1 ∧
    (∀ p : Player, crossHit p e = true ↔
      ∃ c ∈ [((1 : Int), (0 : Int)), (0, 1), (1, 1), (2, 1)],
        |p.x + c.1 - e.x| ≤ 1 ∨ |p.y + c.2 - e.y| ≤ 1) ∧
    (∀ (p : Player) (running : Bool) (f : Enemy),
      f.kind ≠ EnemyKind.Ray ∨ f.hp ≤ 0 ∨ f.state ≠ RayState.Firing ∨
        f.playerDamagedThisFire = true →
      crossOne p running f = (p, running, f)) := by
  have hrun : (hazardRun e g ps).map Prod.fst = crossOnce e false ps ∧
      (∀ pe ∈ hazardRun e g ps,
        pe.2.state = RayState.Firing ∧ pe.2.x = e.x ∧ pe.2.y = e.y) := by
    cases ps with
    | nil => simp [hazardRun, crossOnce]
    | cons p ps =>
      simp only [List.length_cons] at hl
      have hu : updateEnemy p g [] e =
          (g, [], { e with state := RayState.Firing, timer := RayEnemy.FIRE_FRAMES,
                           playerDamagedThisFire := false }) := by
        rw [updateEnemy_ray p g [] e hk ha, RayEnemy.update_enter e g hs ht]
      obtain ⟨h0, h1, h2, h3, h4, h5, h6, h7, h8⟩ :
          (updateEnemy p g [] e).1 = g ∧
          (crossOne p true (updateEnemy p g [] e).2.2).1 =
            (if crossHit p e = true then { p with hp := p.hp - min p.hp 2 } else p) ∧
          (crossOne p true (updateEnemy p g [] e).2.2).2.2.kind = EnemyKind.Ray ∧
          0 < (crossOne p true (updateEnemy p g [] e).2.2).2.2.hp ∧
          (crossOne p true (updateEnemy p g [] e).2.2).2.2.state = RayState.Firing ∧
          (crossOne p true (updateEnemy p g [] e).2.2).2.2.timer = 25 ∧
          (crossOne p true (updateEnemy p g [] e).2.2).2.2.x = e.x ∧
          (crossOne p true (updateEnemy p g [] e).2.2).2.2.y = e.y ∧
          (crossOne p true (updateEnemy p g [] e).2.2).2.2.playerDamagedThisFire =
            crossHit p e := by
        have hc := crossOne_firing p true
          { e with state := RayState.Firing, timer := RayEnemy.FIRE_FRAMES,
                   playerDamagedThisFire := false } hk ha rfl
        have hch : crossHit p
            { e with state := RayState.Firing, timer := RayEnemy.FIRE_FRAMES,
                     playerDamagedThisFire := false } = crossHit p e :=
          crossHit_congr p _ e rfl rfl
        rw [hch, hp_floor] at hc
        rw [hu]
        refine ⟨rfl, ?_⟩
        simp only at hc ⊢
        rw [hc]
        have hF : RayEnemy.FIRE_FRAMES = 25 := by decide
        by_cases hh : crossHit p e = true
        · simp [hh, hk, ha, hF]
        · simp [hh, hk, ha, hF]
      obtain ⟨i1, i2⟩ := hazardRun_firing ps
        (crossOne p true (updateEnemy p g [] e).2.2).2.2 g h2 h3 h4 (by rw [h5]; omega)
      rw [crossOnce_cons]
      simp only [hazardRun, List.map_cons, List.mem_cons, forall_eq_or_imp, h0]
      refine ⟨?_, ⟨h4, h6, h7⟩, ?_⟩
      · rw [i1, h1, h8, crossOnce_congr _ e h6 h7]
        simp
      · intro pe hpe
        have := i2 pe hpe
        rw [h6, h7] at this
        exact this
  refine ⟨hrun.1, hrun.2, ?_, fun p => crossHit_iff p e, crossOne_idle⟩
  rw [hrun.1]
  exact crossOnce_changes e ps false

theorem C11_cross_contact_once_per_firing_witness :
    (hazardRun { RayEnemy.new 29 10 with state := RayState.Flashing, timer := 1 }
        (Rng.mk (fun _ => 0) 0)
        [{ x := 5, y := 5 }, { x := 28, y := 20 }, { x := 28, y := 20 },
          { x := 5, y := 5 }]).map Prod.fst =
      [{ x := 5, y := 5 }, { x := 28, y := 20, hp := 8 }, { x := 28, y := 20 },
        { x := 5, y := 5 }] :=
  ((C11_cross_contact_once_per_firing
      { RayEnemy.new 29 10 with state := RayState.Flashing, timer := 1 }
      (Rng.mk (fun _ => 0) 0)
      [{ x := 5, y := 5 }, { x := 28, y := 20 }, { x := 28, y := 20 }, { x := 5, y := 5 }]
      rfl (by decide) rfl (by decide) (by decide)).1).trans (by decide)


/-! ## Spawn-interval scaling in binary64 -/

theorem ilog2Go_le (p : Nat) : ∀ (k l : Nat), (l ≠ 0 → 2 ^ l ≤ p) →
    ilog2Go k l p ≠ 0 → 2 ^ ilog2Go k l p ≤ p := by
  intro k
  induction k with
  | zero => intro l hl h; exact hl h
  | succ k ih =>
    intro l hl h
    unfold ilog2Go at h ⊢
    apply ih _ _ h
    intro h2
    split_ifs with hc
    · exact hc
    · rw [if_neg hc] at h2
      exact hl h2

theorem ilog2_le (p : Nat) (h : ilog2 p ≠ 0) : 2 ^ ilog2 p ≤ p :=
  ilog2Go_le p 12 0 (fun h0 => absurd rfl h0) h

/-- Rounding to binary64 exceeds the exact quotient by at most one unit in the
last place of the result (or one unit of the scale). -/
theorem f64Round_le (p d : Nat) : f64Round p d ≤ p / 2 ^ d + p / 2 ^ (52 + d) + 1 := by
  unfold f64Round
  simp only
  generalize hs : max (ilog2 p + 1 - 53) d = s
  have hds : d ≤ s := by rw [← hs]; exact le_max_right _ _
  have hm : (if 2 * (p % 2 ^ s) > 2 ^ s ∨ (2 * (p % 2 ^ s) = 2 ^ s ∧ p / 2 ^ s % 2 = 1)
      then p / 2 ^ s + 1 else p / 2 ^ s) ≤ p / 2 ^ s + 1 := by
    split_ifs <;> omega
  have h1 : p / 2 ^ s * 2 ^ (s - d) ≤ p / 2 ^ d := by
    rw [Nat.le_div_iff_mul_le (Nat.two_pow_pos _), mul_assoc, ← pow_add,
      Nat.sub_add_cancel hds]
    exact Nat.div_mul_le_self _ _
  have h2 : 2 ^ (s - d) ≤ p / 2 ^ (52 + d) + 1 := by
    by_cases hsd : s = d
    · rw [hsd, Nat.sub_self, pow_zero]; exact Nat.le_add_left 1 _
    · have hs2 : s = ilog2 p + 1 - 53 := by
        rcases max_choice (ilog2 p + 1 - 53) d with h | h
        · rw [← hs, h]
        · exact absurd (hs.symm.trans h) hsd
      have hl : ilog2 p ≠ 0 := by omega
      have hp := ilog2_le p hl
      have : 2 ^ (s - d) ≤ p / 2 ^ (52 + d) := by
        rw [Nat.le_div_iff_mul_le (Nat.two_pow_pos _), ← pow_add]
        have he : s - d + (52 + d) = ilog2 p := by omega
        rw [he]
        exact hp
      exact Nat.le_succ_of_le this
  calc _ ≤ (p / 2 ^ s + 1) * 2 ^ (s - d) := Nat.mul_le_mul_right _ hm
    _ = p / 2 ^ s * 2 ^ (s - d) + 2 ^ (s - d) := by rw [Nat.add_mul, one_mul]
    _ ≤ p / 2 ^ d + (p / 2 ^ (52 + d) + 1) := Nat.add_le_add h1 h2
    _ = _ := by rw [Nat.add_assoc]

theorem f64Tail_mul :
    f64Tail * f64_0_925 / 2 ^ 1074 + f64Tail * f64_0_925 / 2 ^ (52 + 1074) + 1 ≤ f64Tail := by
  decide!

theorem f64Tail_add :
    (f64Tail + f64_0_5) / 2 ^ 0 + (f64Tail + f64_0_5) / 2 ^ (52 + 0) + 1 < 2 ^ 1074 := by
  decide!

theorem f64Mul_tail (n : Nat) (h : n ≤ f64Tail) : f64Mul n f64_0_925 ≤ f64Tail := by
  unfold f64Mul
  refine le_trans (f64Round_le _ _) (le_trans ?_ f64Tail_mul)
  have hm : n * f64_0_925 ≤ f64Tail * f64_0_925 := Nat.mul_le_mul_right _ h
  exact Nat.add_le_add_right
    (Nat.add_le_add (Nat.div_le_div_right hm) (Nat.div_le_div_right hm)) 1

theorem shrinkLoop_tail : ∀ (k b : Nat), b ≤ f64Tail → shrinkLoop k b ≤ f64Tail := by
  intro k
  induction k with
  | zero => intro b h; exact h
  | succ k ih => intro b h; exact ih _ (f64Mul_tail b h)

theorem shrinkLoop_add : ∀ (a b x : Nat),
    shrinkLoop (a + b) x = shrinkLoop b (shrinkLoop a x) := by
  intro a
  induction a with
  | zero => intro b x; rw [Nat.zero_add]; rfl
  | succ a ih =>
    intro b x
    rw [Nat.add_right_comm]
    exact ih b _

theorem f64Add_tail (n : Nat) (h : n ≤ f64Tail) : f64ToInt (f64Add n f64_0_5) = 0 := by
  unfold f64ToInt f64Add
  have hlt : f64Round (n + f64_0_5) 0 < 2 ^ 1074 := by
    refine lt_of_le_of_lt (f64Round_le _ _) (lt_of_le_of_lt ?_ f64Tail_add)
    have hm : n + f64_0_5 ≤ f64Tail + f64_0_5 := Nat.add_le_add_right h _
    exact Nat.add_le_add_right
      (Nat.add_le_add (Nat.div_le_div_right hm) (Nat.div_le_div_right hm)) 1
  rw [Nat.div_eq_of_lt hlt]
  rfl

theorem shrinkLoop_70 :
    shrinkLoop 70 (f64OfNat 83) ≤ f64Tail ∧ shrinkLoop 70 (f64OfNat 100) ≤ f64Tail := by
  decide!

set_option maxRecDepth 100000 in
theorem interval_head_83 : ∀ k < 70,
    f64ToInt (f64Add (shrinkLoop k (f64OfNat 83)) f64_0_5) = (exactInterval 83 k : Int) := by
  decide!

set_option maxRecDepth 100000 in
theorem interval_head_100 : ∀ k < 70,
    f64ToInt (f64Add (shrinkLoop k (f64OfNat 100)) f64_0_5) = (exactInterval 100 k : Int) := by
  decide!

theorem pow_37_40 : ∀ k, 70 ≤ k → 200 * 37 ^ k < 40 ^ k := by
  intro k hk
  induction k, hk using Nat.le_induction with
  | base => decide
  | succ k _ ih =>
    rw [pow_succ, pow_succ]
    generalize 37 ^ k = a at ih ⊢
    generalize 40 ^ k = b at ih ⊢
    omega

theorem exactInterval_tail (base k : Nat) (hb : base ≤ 100) (hk : 70 ≤ k) :
    exactInterval base k = 0 := by
  unfold exactInterval
  apply Nat.div_eq_of_lt
  have h := pow_37_40 k hk
  have hm : 2 * base * 37 ^ k ≤ 200 * 37 ^ k :=
    Nat.mul_le_mul_right _ (by omega)
  generalize 37 ^ k = a at h hm ⊢
  generalize 40 ^ k = b at h ⊢
  omega

theorem exactInterval_le (base k : Nat) : exactInterval base k ≤ base := by
  unfold exactInterval
  apply Nat.le_of_lt_succ
  rw [Nat.div_lt_iff_lt_mul (by positivity)]
  have h : 37 ^ k ≤ 40 ^ k := Nat.pow_le_pow_left (by decide) k
  have hp : 0 < 40 ^ k := by positivity
  have hm : 2 * base * 37 ^ k ≤ 2 * base * 40 ^ k := Nat.mul_le_mul_left _ h
  calc 2 * base * 37 ^ k + 40 ^ k ≤ 2 * base * 40 ^ k + 40 ^ k := by omega
    _ < 2 * base * 40 ^ k + 2 * 40 ^ k := by omega
    _ = (base + 1) * (2 * 40 ^ k) := by ring

/-- The quotient `exactInterval` is the rounding of `base * 0.925^k`. -/
theorem round_eq_exactInterval (base k : Nat) :
    round ((base : ℚ) * (0.925 : ℚ) ^ k) = (exactInterval base k : Int) := by
  have hx : (base : ℚ) * (0.925 : ℚ) ^ k + 1 / 2 =
      ((2 * base * 37 ^ k + 40 ^ k : Nat) : ℚ) / ((2 * 40 ^ k : Nat) : ℚ) := by
    have h40 : (40 : ℚ) ^ k ≠ 0 := by positivity
    have h925 : (0.925 : ℚ) = 37 / 40 := by norm_num
    rw [h925, div_pow]
    push_cast
    field_simp
    ring
  rw [round_eq, hx, Rat.floor_natCast_div_natCast]
  rfl

/-- The binary64 loop and the exact rounding agree for every number of steps. -/
theorem interval_eq (base : Nat) (hb : base = 83 ∨ base = 100) (k : Nat) :
    f64ToInt (f64Add (shrinkLoop k (f64OfNat base)) f64_0_5) = (exactInterval base k : Int) := by
  by_cases hk : k < 70
  · rcases hb with rfl | rfl
    · exact interval_head_83 k hk
    · exact interval_head_100 k hk
  · have hk2 : 70 ≤ k := by omega
    have hsplit : k = 70 + (k - 70) := by omega
    have h70 : shrinkLoop 70 (f64OfNat base) ≤ f64Tail := by
      rcases hb with rfl | rfl
      · exact shrinkLoop_70.1
      · exact shrinkLoop_70.2
    rw [exactInterval_tail base k (by omega) hk2]
    rw [hsplit, shrinkLoop_add]
    exact f64Add_tail _ (shrinkLoop_tail _ _ h70)


theorem floor_steps (f : Int) (h : 1500 < f) :
    ⌊((f : ℚ) - 1500) / 100⌋ = Int.tdiv (f - 1500) 100 := by
  have h1 : ((f : ℚ) - 1500) / 100 = (((f - 1500 : Int) : ℚ)) / ((100 : Nat) : ℚ) := by
    push_cast
    ring
  rw [h1, Rat.floor_intCast_div_natCast, Int.tdiv_eq_ediv (by omega) (by decide)]
  rfl

theorem spawnInterval_over (base : Nat) (f : Int) (h : 1500 < f) :
    spawnInterval base f =
      max 1 (f64ToInt (f64Add (shrinkLoop (Int.tdiv (f - 1500) 100).toNat (f64OfNat base))
        f64_0_5)) := by
  unfold spawnInterval
  simp only
  rw [if_pos (by omega)]
  split_ifs with hc
  · rw [max_eq_left (by omega)]
  · rw [max_eq_right (by omega)]

theorem spawnInterval_under (base : Nat) (f : Int) (h : f ≤ 1500) :
    spawnInterval base f = base := by
  unfold spawnInterval
  simp only
  rw [if_neg (by omega)]

/-- Claim C13. With the `double` arithmetic modelled as IEEE 754 binary64
(round to nearest, ties to even): at frame 1700 the basic spawn interval is
round(83 * 0.925^2) = 71 and the hazard spawn interval is
round(100 * 0.925^2) = 86; for a base of 83 or 100 and every frame `f`, the
interval is the base when `f ≤ 1500` and
max(1, round(base * 0.925^floor((f - 1500)/100))) when `f > 1500`, computed
exactly over the rationals; it is at least 1 and at most the base. -/
theorem C13_spawn_interval_scaling (base : Nat) (f : Int) (hb : base = 83 ∨ base = 100) :
    spawnInterval 83 1700 = round ((83 : ℚ) * (0.925 : ℚ) ^ 2) ∧
    round ((83 : ℚ) * (0.925 : ℚ) ^ 2) = 71 ∧
    spawnInterval 100 1700 = round ((100 : ℚ) * (0.925 : ℚ) ^ 2) ∧
    round ((100 : ℚ) * (0.925 : ℚ) ^ 2) = 86 ∧
    (f ≤ 1500 → spawnInterval base f = base) ∧
    (1500 < f → spawnInterval base f =
      max 1 (round ((base : ℚ) * (0.925 : ℚ) ^ ⌊((f : ℚ) - 1500) / 100⌋.toNat))) ∧
    1 ≤ spawnInterval base f ∧ spawnInterval base f ≤ base := by
  have r83 : round ((83 : ℚ) * (0.925 : ℚ) ^ 2) = 71 := by
    have h := round_eq_exactInterval 83 2
    simp only [Nat.cast_ofNat] at h
    rw [h]
    decide
  have r100 : round ((100 : ℚ) * (0.925 : ℚ) ^ 2) = 86 := by
    have h := round_eq_exactInterval 100 2
    simp only [Nat.cast_ofNat] at h
    rw [h]
    decide
  have s83 : spawnInterval 83 1700 = 71 := by decide!
  have s100 : spawnInterval 100 1700 = 86 := by decide!
  have hover : 1500 < f → spawnInterval base f =
      max 1 (exactInterval base (Int.tdiv (f - 1500) 100).toNat : Int) := by
    intro h
    rw [spawnInterval_over base f h, interval_eq base hb]
  have hbase : 1 ≤ base := by omega
  refine ⟨s83.trans r83.symm, r83, s100.trans r100.symm, r100, spawnInterval_under base f, ?_,
    ?_, ?_⟩
  · intro h
    rw [hover h, floor_steps f h, round_eq_exactInterval]
  · by_cases h : 1500 < f
    · rw [hover h]
      exact le_max_left _ _
    · rw [spawnInterval_under base f (by omega)]
      exact_mod_cast hbase
  · by_cases h : 1500 < f
    · rw [hover h]
      apply max_le
      · exact_mod_cast hbase
      · exact_mod_cast exactInterval_le base _
    · rw [spawnInterval_under base f (by omega)]

theorem C13_spawn_interval_scaling_witness :
    spawnInterval 100 2000 =
      max 1 (round (((100 : Nat) : ℚ) * (0.925 : ℚ) ^ ⌊(((2000 : Int) : ℚ) - 1500) / 100⌋.toNat)) ∧
    1 ≤ spawnInterval 100 2000 ∧ spawnInterval 100 2000 ≤ (100 : Nat) :=
  ⟨(C13_spawn_interval_scaling 100 2000 (Or.inr rfl)).2.2.2.2.2.1 (by decide),
    (C13_spawn_interval_scaling 100 2000 (Or.inr rfl)).2.2.2.2.2.2⟩


/-! ## Aimed fire -/

theorem sign_cases (a : Int) :
    (if a < 0 then (-1 : Int) else if a > 0 then 1 else 0) = Int.sign a := by
  rcases lt_trichotomy a 0 with h | h | h
  · rw [if_pos h, Int.sign_eq_neg_one_of_neg h]
  · subst h; rfl
  · rw [if_neg (by omega), if_pos h, Int.sign_eq_one_of_pos h]

/-- The aimed bullet in closed form: the `+ 1` offsets cancel and the special
case agrees with the sign. -/
theorem aimedBullet_eq (player : Player) (e : Enemy) :
    aimedBullet player e =
      { x := e.x, y := e.y + 1, dx := Int.sign (player.x - e.x),
        dy := Int.sign (player.y - e.y), symbol := '*' } := by
  have hx : player.x + 1 - (e.x + 1) = player.x - e.x := by omega
  have hy : player.y + 1 - (e.y + 1) = player.y - e.y := by omega
  simp only [aimedBullet, hx, hy, sign_cases]
  by_cases h : player.y + 1 > e.y + 1
  · rw [if_pos h, Int.sign_eq_one_of_pos (show 0 < player.y - e.y by omega)]
  · rw [if_neg h]

/-- Claim C21. A live enemy that is not a Boss and can fire after its update
(at `(ex, ey)`, its position after that update) adds exactly one bullet: of
kind `'*'`, starting at `(ex, ey + 1)`, with velocity
`(sign (px - ex), sign (py - ey))`. Both components lie in `{-1, 0, 1}`, and
`dy = 1` exactly when the player's row is strictly below the enemy's, so the
special case `if (py > ey) dy = 1` never changes the sign-based value. -/
theorem C21_aimed_bullet (player : Player) (g : Rng) (bullets : List Bullet) (e : Enemy)
    (hk : e.kind ≠ EnemyKind.Boss) (ha : 0 < e.hp)
    (hf : (e.vUpdate g).1.canFire = true) :
    (updateEnemy player g bullets e).2.1 =
      bullets ++ [{ x := (e.vUpdate g).1.x, y := (e.vUpdate g).1.y + 1,
                    dx := Int.sign (player.x - (e.vUpdate g).1.x),
                    dy := Int.sign (player.y - (e.vUpdate g).1.y), symbol := '*' }] ∧
    (∀ (p : Player) (f : Enemy),
      aimedBullet p f =
        { x := f.x, y := f.y + 1, dx := Int.sign (p.x - f.x), dy := Int.sign (p.y - f.y),
          symbol := '*' } ∧
      ((aimedBullet p f).dx = -1 ∨ (aimedBullet p f).dx = 0 ∨ (aimedBullet p f).dx = 1) ∧
      ((aimedBullet p f).dy = -1 ∨ (aimedBullet p f).dy = 0 ∨ (aimedBullet p f).dy = 1) ∧
      ((aimedBullet p f).dy = 1 ↔ p.y > f.y) ∧
      (aimedBullet p f).dy =
        (if p.y + 1 - (f.y + 1) < 0 then -1 else if p.y + 1 - (f.y + 1) > 0 then 1 else 0)) := by
  constructor
  · have hal : e.isAlive = true := by simpa [Enemy.isAlive] using ha
    have hk2 : ¬ (e.vUpdate g).1.kind = EnemyKind.Boss := by
      rw [Enemy.vUpdate_kind]; exact hk
    simp only [updateEnemy, hal, Bool.true_eq_false, if_false, hf, if_true, hk2, aimedBullet_eq]
  · intro p f
    rw [aimedBullet_eq]
    refine ⟨rfl, ?_, ?_, ?_, ?_⟩
    · simp only
      rcases lt_trichotomy (p.x - f.x) 0 with h | h | h
      · left; exact Int.sign_eq_neg_one_of_neg h
      · right; left; rw [h]; rfl
      · right; right; exact Int.sign_eq_one_of_pos h
    · simp only
      rcases lt_trichotomy (p.y - f.y) 0 with h | h | h
      · left; exact Int.sign_eq_neg_one_of_neg h
      · right; left; rw [h]; rfl
      · right; right; exact Int.sign_eq_one_of_pos h
    · simp only
      rw [Int.sign_eq_one_iff_pos]
      constructor <;> intro h <;> omega
    · simp only
      rw [sign_cases]
      congr 1
      omega

theorem C21_aimed_bullet_witness :
    (updateEnemy { x := 29, y := 16 } { stream := fun _ => 0, pos := 0 } [] (Enemy.new 40 2)).2.1 =
      [{ x := 40, y := 3, dx := -1, dy := 1, symbol := '*' }] :=
  ((C21_aimed_bullet { x := 29, y := 16 } { stream := fun _ => 0, pos := 0 } [] (Enemy.new 40 2)
    (by decide) (by decide) (by decide)).1).trans (by decide)

/-! ## The base update keeps enemies in the arena -/

/-- Claim C22. `Enemy::update` keeps an enemy inside the arena
(`0 ≤ x ≤ 59`, `0 ≤ y ≤ 19`) for every movement state and every drawn
direction, and an update that is not skipped by the pause leaves the enemy
inside the arena wherever it was before. -/
theorem C22_update_keeps_in_arena (e : Enemy) (g : Rng) :
    ((0 ≤ e.x ∧ e.x ≤ 59 ∧ 0 ≤ e.y ∧ e.y ≤ 19) →
      (0 ≤ (e.update g).1.x ∧ (e.update g).1.x ≤ 59 ∧
        0 ≤ (e.update g).1.y ∧ (e.update g).1.y ≤ 19)) ∧
    (¬ e.pauseTimer > 0 →
      (0 ≤ (e.update g).1.x ∧ (e.update g).1.x ≤ 59 ∧
        0 ≤ (e.update g).1.y ∧ (e.update g).1.y ≤ 19)) ∧
    (e.pauseTimer > 0 → (e.update g).1.x = e.x ∧ (e.update g).1.y = e.y) := by
  have h1 := Enemy.update_inArena e g
  obtain ⟨h3, h2, _, _⟩ := Enemy.update_pos e g
  simp only [Enemy.inArena, GRID_COLS, GRID_ROWS] at h1 h2
  refine ⟨fun h => ?_, fun h => ?_, fun h => h3 h⟩
  · have := h1 (by omega)
    omega
  · have := h2 h
    omega

theorem C22_update_keeps_in_arena_witness :
    0 ≤ (Enemy.update
        { Enemy.new 59 0 with dx := 1, dy := -1, burstSteps := 3, moveFrameCounter := 2 }
        { stream := fun _ => 0, pos := 0 }).1.x ∧
      (Enemy.update
        { Enemy.new 59 0 with dx := 1, dy := -1, burstSteps := 3, moveFrameCounter := 2 }
        { stream := fun _ => 0, pos := 0 }).1.x ≤ 59 ∧
      0 ≤ (Enemy.update
        { Enemy.new 59 0 with dx := 1, dy := -1, burstSteps := 3, moveFrameCounter := 2 }
        { stream := fun _ => 0, pos := 0 }).1.y ∧
      (Enemy.update
        { Enemy.new 59 0 with dx := 1, dy := -1, burstSteps := 3, moveFrameCounter := 2 }
        { stream := fun _ => 0, pos := 0 }).1.y ≤ 19 :=
  (C22_update_keeps_in_arena
      { Enemy.new 59 0 with dx := 1, dy := -1, burstSteps := 3, moveFrameCounter := 2 }
      { stream := fun _ => 0, pos := 0 }).1
    ⟨by decide, by decide, by decide, by decide⟩


/-! ## The fire timer -/

theorem Enemy.decFireTimer_timer (e : Enemy) :
    e.decFireTimer.fireTimer = (if e.fireTimer > 0 then e.fireTimer - 1 else e.fireTimer) := by
  simp only [Enemy.decFireTimer]
  split_ifs <;> rfl

theorem Enemy.clampX_timer (e : Enemy) : e.clampX.fireTimer = e.fireTimer := by
  simp only [Enemy.clampX]
  split_ifs <;> rfl

theorem Enemy.clampY_timer (e : Enemy) : e.clampY.fireTimer = e.fireTimer := by
  simp only [Enemy.clampY]
  split_ifs <;> rfl

theorem Enemy.stepMove_timer (e : Enemy) : e.stepMove.fireTimer = e.fireTimer := by
  simp only [Enemy.stepMove]
  split_ifs <;> rfl

theorem Enemy.pickBurst_timer (e : Enemy) (g : Rng) :
    (e.pickBurst g).1.fireTimer = e.fireTimer := by
  simp only [Enemy.pickBurst]
  split_ifs <;> rfl

/-- Every base update, paused or not, counts the fire timer down by one while
it is positive. -/
theorem Enemy.update_timer (e : Enemy) (g : Rng) :
    (e.update g).1.fireTimer = (if e.fireTimer > 0 then e.fireTimer - 1 else e.fireTimer) := by
  by_cases hp : e.pauseTimer > 0
  · simp only [Enemy.update, hp, if_true]
    rw [Enemy.decFireTimer_timer]
  · simp only [Enemy.update, hp, if_false]
    rw [Enemy.decFireTimer_timer, Enemy.clampY_timer, Enemy.clampX_timer, Enemy.stepMove_timer,
      Enemy.pickBurst_timer]

/-- One tick of a live Basic enemy in the update-and-fire loop. -/
theorem updateEnemy_basic (p : Player) (g : Rng) (bullets : List Bullet) (e : Enemy)
    (hk : e.kind = EnemyKind.Basic) (ha : 0 < e.hp) (hn : 0 ≤ e.fireTimer) :
    (updateEnemy p g bullets e).2.2.kind = EnemyKind.Basic ∧
    (updateEnemy p g bullets e).2.2.hp = e.hp ∧
    (updateEnemy p g bullets e).2.2.fireCooldown = e.fireCooldown ∧
    (e.fireTimer ≤ 1 →
      (updateEnemy p g bullets e).2.1 = bullets ++ [aimedBullet p (e.update g).1] ∧
      (updateEnemy p g bullets e).2.2.fireTimer = e.fireCooldown) ∧
    (1 < e.fireTimer →
      (updateEnemy p g bullets e).2.1 = bullets ∧
      (updateEnemy p g bullets e).2.2.fireTimer = e.fireTimer - 1) := by
  have hal : e.isAlive = true := by simpa [Enemy.isAlive] using ha
  have hv : e.vUpdate g = e.update g := by simp only [Enemy.vUpdate, hk]
  have hk1 : (e.update g).1.kind = EnemyKind.Basic := by rw [(Enemy.update_ray e g).1, hk]
  obtain ⟨_, _, hcd, hhp⟩ := Enemy.update_pos e g
  have ht := Enemy.update_timer e g
  have hcf : (e.update g).1.canFire = decide ((e.update g).1.fireTimer = 0) := by
    simp only [Enemy.canFire, hk1]
  have hrf : (e.update g).1.resetFire =
      { (e.update g).1 with fireTimer := (e.update g).1.fireCooldown } := by
    simp only [Enemy.resetFire, hk1]
  by_cases h1 : e.fireTimer ≤ 1
  · have h0 : (e.update g).1.fireTimer = 0 := by
      rw [ht]; split_ifs <;> omega
    have hc : (e.update g).1.canFire = true := by rw [hcf, h0]; rfl
    have hnb : ¬ (e.update g).1.kind = EnemyKind.Boss := by rw [hk1]; decide
    have hu : updateEnemy p g bullets e =
        ((e.update g).2, bullets ++ [aimedBullet p (e.update g).1],
          { (e.update g).1 with fireTimer := (e.update g).1.fireCooldown }) := by
      simp only [updateEnemy, hal, Bool.true_eq_false, if_false, hv, hc, if_true, hnb, hrf]
    rw [hu]
    exact ⟨hk1, hhp, hcd, fun _ => ⟨rfl, hcd⟩, fun h => absurd h1 (by omega)⟩
  · have h0 : (e.update g).1.fireTimer = e.fireTimer - 1 := by
      rw [ht]; split_ifs <;> omega
    have hc : (e.update g).1.canFire = false := by
      rw [hcf, h0]
      simp only [decide_eq_false_iff_not]
      omega
    have hu : updateEnemy p g bullets e = ((e.update g).2, bullets, (e.update g).1) := by
      simp only [updateEnemy, hal, Bool.true_eq_false, if_false, hv, hc, Bool.false_eq_true]
    rw [hu]
    exact ⟨hk1, hhp, hcd, fun h => absurd h h1, fun _ => ⟨rfl, h0⟩⟩

/-- A live Basic enemy with cooldown 60 whose fire timer is `61 - c` (or 0,
with `c = 60`) fires in the tick of index `i` iff `60` divides `i + c`. -/
theorem fireRun_phase (ps : List Player) :
    ∀ (e : Enemy) (g : Rng) (c : Nat), e.kind = EnemyKind.Basic → 0 < e.hp →
      e.fireCooldown = 60 → 1 ≤ c → c ≤ 60 →
      (e.fireTimer = 61 - (c : Int) ∨ (c = 60 ∧ e.fireTimer = 0)) →
      (fireRun e g ps).length = ps.length ∧
      ∀ (i : Nat) (bs : List Bullet), (fireRun e g ps)[i]? = some bs →
        bs.length = if (i + c) % 60 = 0 then 1 else 0 := by
  induction ps with
  | nil => intro e g c _ _ _ _ _ _; simp [fireRun]
  | cons p ps ih =>
    intro e g c hk ha hcd hc1 hc2 ht
    have hn : 0 ≤ e.fireTimer := by omega
    obtain ⟨u1, u2, u3, u4, u5⟩ := updateEnemy_basic p g [] e hk ha hn
    by_cases hf : e.fireTimer ≤ 1
    · have hc60 : c = 60 := by omega
      obtain ⟨v1, v2⟩ := u4 hf
      obtain ⟨i1, i2⟩ := ih (updateEnemy p g [] e).2.2 (updateEnemy p g [] e).1 1 u1
        (by rw [u2]; exact ha) (by rw [u3]; exact hcd) (le_refl 1) (by omega)
        (Or.inl (by rw [v2, hcd]; rfl))
      refine ⟨by simp only [fireRun, List.length_cons, i1], ?_⟩
      intro i bs hbs
      cases i with
      | zero =>
        simp only [fireRun, List.getElem?_cons_zero, Option.some.injEq] at hbs
        rw [← hbs, v1, hc60]
        rfl
      | succ i =>
        simp only [fireRun, List.getElem?_cons_succ] at hbs
        rw [i2 i bs hbs, hc60]
        have : (i + 1 + 60) % 60 = (i + 1) % 60 := by omega
        rw [this]
    · have hf2 : 1 < e.fireTimer := by omega
      have hc59 : c < 60 := by omega
      obtain ⟨v1, v2⟩ := u5 hf2
      obtain ⟨i1, i2⟩ := ih (updateEnemy p g [] e).2.2 (updateEnemy p g [] e).1 (c + 1) u1
        (by rw [u2]; exact ha) (by rw [u3]; exact hcd) (by omega) (by omega)
        (Or.inl (by rw [v2]; push_cast; omega))
      refine ⟨by simp only [fireRun, List.length_cons, i1], ?_⟩
      intro i bs hbs
      cases i with
      | zero =>
        simp only [fireRun, List.getElem?_cons_zero, Option.some.injEq] at hbs
        rw [← hbs, v1]
        have : ¬ (0 + c) % 60 = 0 := by omega
        rw [if_neg this]
        rfl
      | succ i =>
        simp only [fireRun, List.getElem?_cons_succ] at hbs
        rw [i2 i bs hbs]
        have : i + (c + 1) = i + 1 + c := by omega
        rw [this]

/-- Claim C23. Every `Enemy::update`, paused or not, lowers the fire timer by
exactly 1 when it is positive and leaves it as it is otherwise (at 0, since it
is never negative); for an enemy that is not a Hazard, `canFire` holds iff the
timer is 0 and `resetFire` sets it to the cooldown. Hence a live Basic enemy
with cooldown 60 and timer 0, run through the update-and-fire loop tick after
tick, fires one bullet in its first update (index 0) and then in exactly every
60th update after it (the indices divisible by 60), and none in between. -/
theorem C23_fire_timer (e : Enemy) (g : Rng) (ps : List Player)
    (hk : e.kind = EnemyKind.Basic) (ha : 0 < e.hp) (ht : e.fireTimer = 0)
    (hc : e.fireCooldown = 60) :
    (∀ (f : Enemy) (r : Rng),
      (f.update r).1.fireTimer = (if f.fireTimer > 0 then f.fireTimer - 1 else f.fireTimer)) ∧
    (∀ f : Enemy, f.kind ≠ EnemyKind.Ray →
      (f.canFire = true ↔ f.fireTimer = 0) ∧ f.resetFire.fireTimer = f.fireCooldown) ∧
    (fireRun e g ps).length = ps.length ∧
    (∀ (i : Nat) (bs : List Bullet), (fireRun e g ps)[i]? = some bs →
      bs.length = if i % 60 = 0 then 1 else 0) := by
  refine ⟨Enemy.update_timer, ?_, ?_, ?_⟩
  · intro f hf
    cases hkf : f.kind with
    | Ray => exact absurd hkf hf
    | Basic => simp [Enemy.canFire, Enemy.resetFire, hkf]
    | Boss => simp [Enemy.canFire, Enemy.resetFire, hkf]
  · exact (fireRun_phase ps e g 60 hk ha hc (by decide) (le_refl 60) (Or.inr ⟨rfl, ht⟩)).1
  · intro i bs hbs
    rw [(fireRun_phase ps e g 60 hk ha hc (by decide) (le_refl 60) (Or.inr ⟨rfl, ht⟩)).2 i bs hbs]
    have : (i + 60) % 60 = i % 60 := by omega
    rw [this]

theorem C23_fire_timer_witness :
    (fireRun (Enemy.new 40 2) { stream := fun _ => 0, pos := 0 }
      [{ x := 29, y := 16 }, { x := 29, y := 16 }]).length = 2 :=
  (C23_fire_timer (Enemy.new 40 2) { stream := fun _ => 0, pos := 0 }
    [{ x := 29, y := 16 }, { x := 29, y := 16 }] rfl (by decide) rfl rfl).2.2.1


/-! ## The burst and the pause -/

theorem Enemy.decFireTimer_move (e : Enemy) :
    e.decFireTimer.moveState = e.moveState ∧ e.decFireTimer.dx = e.dx ∧
    e.decFireTimer.dy = e.dy ∧ e.decFireTimer.x = e.x ∧ e.decFireTimer.y = e.y := by
  simp only [Enemy.decFireTimer]
  split_ifs <;> exact ⟨rfl, rfl, rfl, rfl, rfl⟩

theorem Enemy.clampX_move (e : Enemy) :
    e.clampX.moveState = e.moveState ∧ e.clampX.dx = e.dx ∧ e.clampX.dy = e.dy ∧
    e.clampX.x = max 0 (min 59 e.x) ∧ e.clampX.y = e.y := by
  simp only [Enemy.clampX, GRID_COLS]
  split_ifs <;> refine ⟨rfl, rfl, rfl, ?_, rfl⟩ <;> simp only at * <;> omega

theorem Enemy.clampY_move (e : Enemy) :
    e.clampY.moveState = e.moveState ∧ e.clampY.dx = e.dx ∧ e.clampY.dy = e.dy ∧
    e.clampY.x = e.x ∧ e.clampY.y = max 0 (min 19 e.y) := by
  simp only [Enemy.clampY, GRID_ROWS]
  split_ifs <;> refine ⟨rfl, rfl, rfl, rfl, ?_⟩ <;> simp only at * <;> omega

theorem Enemy.stepMove_move (e : Enemy) :
    e.stepMove.moveState =
      (if e.moveFrameCounter + 1 ≥ 3 then (e.pauseTimer, e.burstSteps - 1, 0)
        else (e.pauseTimer, e.burstSteps, e.moveFrameCounter + 1)) ∧
    e.stepMove.dx = e.dx ∧ e.stepMove.dy = e.dy ∧
    e.stepMove.x = e.x + (if e.moveFrameCounter + 1 ≥ 3 then e.dx else 0) ∧
    e.stepMove.y = e.y + (if e.moveFrameCounter + 1 ≥ 3 then e.dy else 0) := by
  simp only [Enemy.stepMove, Enemy.moveState]
  by_cases h : e.moveFrameCounter + 1 ≥ 3
  · simp only [h, if_true, and_self]
  · simp only [h, if_false, add_zero, and_self]

theorem Enemy.pickBurst_move (e : Enemy) (g : Rng) :
    (e.pickBurst g).1.moveState =
      ((if e.burstSteps ≤ 0 then 16 else e.pauseTimer),
        (if e.burstSteps ≤ 0 then 5 else e.burstSteps), e.moveFrameCounter) ∧
    (e.pickBurst g).1.dx = (if e.burstSteps ≤ 0 then (dirDist g).1 else e.dx) ∧
    (e.pickBurst g).1.dy = (if e.burstSteps ≤ 0 then (dirDist (dirDist g).2).1 else e.dy) ∧
    (e.pickBurst g).1.x = e.x ∧ (e.pickBurst g).1.y = e.y ∧
    (e.pickBurst g).2 = (if e.burstSteps ≤ 0 then (dirDist (dirDist g).2).2 else g) := by
  simp only [Enemy.pickBurst, Enemy.moveState]
  by_cases h : e.burstSteps ≤ 0
  · simp only [h, if_true, and_self]
  · simp only [h, if_false, and_self]

/-- A paused update only counts the pause timer (and the fire timer) down. -/
theorem Enemy.update_paused (e : Enemy) (g : Rng) (h : e.pauseTimer > 0) :
    (e.update g).1.moveState = (e.pauseTimer - 1, e.burstSteps, e.moveFrameCounter) ∧
    (e.update g).1.dx = e.dx ∧ (e.update g).1.dy = e.dy ∧
    (e.update g).1.x = e.x ∧ (e.update g).1.y = e.y ∧ (e.update g).2 = g := by
  simp only [Enemy.update, h, if_true]
  obtain ⟨d1, d2, d3, d4, d5⟩ := Enemy.decFireTimer_move { e with pauseTimer := e.pauseTimer - 1 }
  exact ⟨d1, d2, d3, d4, d5, trivial⟩

/-- An update that is not paused: pick a burst if none is left, count the
sub-frame, step on every 3rd count, clamp. -/
theorem Enemy.update_moving (e : Enemy) (g : Rng) (h : ¬ e.pauseTimer > 0) :
    (e.update g).1.moveState =
      (if e.moveFrameCounter + 1 ≥ 3 then
        ((if e.burstSteps ≤ 0 then 16 else e.pauseTimer),
          (if e.burstSteps ≤ 0 then 5 else e.burstSteps) - 1, 0)
       else
        ((if e.burstSteps ≤ 0 then 16 else e.pauseTimer),
          (if e.burstSteps ≤ 0 then 5 else e.burstSteps), e.moveFrameCounter + 1)) ∧
    (e.update g).1.dx = (if e.burstSteps ≤ 0 then (dirDist g).1 else e.dx) ∧
    (e.update g).1.dy = (if e.burstSteps ≤ 0 then (dirDist (dirDist g).2).1 else e.dy) ∧
    (e.update g).1.x =
      max 0 (min 59 (e.x + (if e.moveFrameCounter + 1 ≥ 3 then (e.update g).1.dx else 0))) ∧
    (e.update g).1.y =
      max 0 (min 19 (e.y + (if e.moveFrameCounter + 1 ≥ 3 then (e.update g).1.dy else 0))) ∧
    (e.update g).2 = (if e.burstSteps ≤ 0 then (dirDist (dirDist g).2).2 else g) := by
  simp only [Enemy.update, h, if_false]
  obtain ⟨p1, p2, p3, p4, p5, p6⟩ := Enemy.pickBurst_move e g
  obtain ⟨s1, s2, s3, s4, s5⟩ := Enemy.stepMove_move (e.pickBurst g).1
  obtain ⟨x1, x2, x3, x4, x5⟩ := Enemy.clampX_move (e.pickBurst g).1.stepMove
  obtain ⟨y1, y2, y3, y4, y5⟩ := Enemy.clampY_move (e.pickBurst g).1.stepMove.clampX
  obtain ⟨d1, d2, d3, d4, d5⟩ := Enemy.decFireTimer_move (e.pickBurst g).1.stepMove.clampX.clampY
  simp only [Enemy.moveState, Prod.mk.injEq] at p1
  obtain ⟨q1, q2, q3⟩ := p1
  rw [q1, q2, q3] at s1
  rw [q3, p2, p4] at s4
  rw [q3, p3, p5] at s5
  refine ⟨?_, ?_, ?_, ?_, ?_, p6⟩
  · rw [d1, y1, x1, s1]
  · rw [d2, y2, x2, s2, p2]
  · rw [d3, y3, x3, s3, p3]
  · rw [d4, y4, x4, s4, d2, y2, x2, s2, p2]
  · rw [d5, y5, x5, s5, d3, y3, x3, s3, p3]

theorem Enemy.update_nextMove (e : Enemy) (g : Rng) :
    (e.update g).1.moveState = nextMove e.moveState := by
  by_cases h : e.pauseTimer > 0
  · rw [(Enemy.update_paused e g h).1]
    simp only [nextMove, Enemy.moveState, h, if_true]
  · rw [(Enemy.update_moving e g h).1]
    simp only [nextMove, Enemy.moveState, h, if_false]

theorem Enemy.updateN_nextMove (e : Enemy) (g : Rng) :
    ∀ n : Nat, (Enemy.updateN n e g).1.moveState = nextMove^[n] e.moveState := by
  intro n
  induction n with
  | zero => rfl
  | succ n ih =>
    rw [Function.iterate_succ_apply', ← ih]
    exact Enemy.update_nextMove _ _

/-- The movement state over the 32 updates that follow a fresh state: the pick,
16 paused updates, then 14 moving updates with a step on every 3rd, and the
next pick. -/
theorem nextMove_trace : ∀ k : Fin 33,
    nextMove^[k.val] (0, 0, 0) =
      if k.val = 0 then (0, 0, 0)
      else if k.val ≤ 17 then (17 - (k.val : Int), 5, 1)
      else if k.val ≤ 31 then (0, 5 - ((k.val : Int) - 16) / 3, ((k.val : Int) - 16) % 3)
      else (16, 5, 1) := by
  decide


/-- The movement state after `k ≤ 32` updates from a fresh state. -/
theorem Enemy.updateN_fresh (e : Enemy) (g : Rng) (hb : e.burstSteps = 0)
    (hp : e.pauseTimer = 0) (hm : e.moveFrameCounter = 0) (k : Nat) (hk : k ≤ 32) :
    ((Enemy.updateN k e g).1.pauseTimer, (Enemy.updateN k e g).1.burstSteps,
        (Enemy.updateN k e g).1.moveFrameCounter) =
      if k = 0 then (0, 0, 0)
      else if k ≤ 17 then (17 - (k : Int), 5, 1)
      else if k ≤ 31 then (0, 5 - ((k : Int) - 16) / 3, ((k : Int) - 16) % 3)
      else (16, 5, 1) := by
  have h0 : e.moveState = (0, 0, 0) := by simp only [Enemy.moveState, hb, hp, hm]
  have h1 := Enemy.updateN_nextMove e g k
  rw [h0] at h1
  have h2 := nextMove_trace ⟨k, by omega⟩
  simp only at h2
  rw [h2] at h1
  exact h1

/-- Between the pick and the next pick the direction stays as picked. -/
theorem Enemy.updateN_dir (e : Enemy) (g : Rng) (hb : e.burstSteps = 0)
    (hp : e.pauseTimer = 0) (hm : e.moveFrameCounter = 0) :
    ∀ k : Nat, 1 ≤ k → k ≤ 31 →
      (Enemy.updateN k e g).1.dx = (Enemy.updateN 1 e g).1.dx ∧
      (Enemy.updateN k e g).1.dy = (Enemy.updateN 1 e g).1.dy := by
  intro k hk1
  induction k, hk1 using Nat.le_induction with
  | base => intro _; exact ⟨rfl, rfl⟩
  | succ k hk1 ih =>
    intro hk
    obtain ⟨i1, i2⟩ := ih (by omega)
    have hs := Enemy.updateN_fresh e g hb hp hm k (by omega)
    rw [if_neg (by omega)] at hs
    show ((Enemy.updateN k e g).1.update (Enemy.updateN k e g).2).1.dx = _ ∧
      ((Enemy.updateN k e g).1.update (Enemy.updateN k e g).2).1.dy = _
    by_cases h17 : k ≤ 16
    · rw [if_pos (by omega)] at hs
      simp only [Prod.mk.injEq] at hs
      obtain ⟨_, d2, d3, _, _, _⟩ :=
        Enemy.update_paused (Enemy.updateN k e g).1 (Enemy.updateN k e g).2 (by omega)
      rw [d2, d3]
      exact ⟨i1, i2⟩
    · have hpt : ¬ (Enemy.updateN k e g).1.pauseTimer > 0 := by
        by_cases h : k ≤ 17
        · rw [if_pos h] at hs
          simp only [Prod.mk.injEq] at hs
          omega
        · rw [if_neg h, if_pos (by omega)] at hs
          simp only [Prod.mk.injEq] at hs
          omega
      have hbs : ¬ (Enemy.updateN k e g).1.burstSteps ≤ 0 := by
        by_cases h : k ≤ 17
        · rw [if_pos h] at hs
          simp only [Prod.mk.injEq] at hs
          omega
        · rw [if_neg h, if_pos (by omega)] at hs
          simp only [Prod.mk.injEq] at hs
          omega
      obtain ⟨_, d2, d3, _, _, _⟩ :=
        Enemy.update_moving (Enemy.updateN k e g).1 (Enemy.updateN k e g).2 hpt
      rw [d2, d3, if_neg hbs, if_neg hbs]
      exact ⟨i1, i2⟩

/-- During the 16 paused updates the enemy does not move. -/
theorem Enemy.updateN_still (e : Enemy) (g : Rng) (hb : e.burstSteps = 0)
    (hp : e.pauseTimer = 0) (hm : e.moveFrameCounter = 0) :
    ∀ k : Nat, 1 ≤ k → k ≤ 17 →
      (Enemy.updateN k e g).1.x = (Enemy.updateN 1 e g).1.x ∧
      (Enemy.updateN k e g).1.y = (Enemy.updateN 1 e g).1.y := by
  intro k hk1
  induction k, hk1 using Nat.le_induction with
  | base => intro _; exact ⟨rfl, rfl⟩
  | succ k hk1 ih =>
    intro hk
    obtain ⟨i1, i2⟩ := ih (by omega)
    have hs := Enemy.updateN_fresh e g hb hp hm k (by omega)
    rw [if_neg (by omega), if_pos (by omega)] at hs
    simp only [Prod.mk.injEq] at hs
    show ((Enemy.updateN k e g).1.update (Enemy.updateN k e g).2).1.x = _ ∧
      ((Enemy.updateN k e g).1.update (Enemy.updateN k e g).2).1.y = _
    obtain ⟨_, _, _, d4, d5, _⟩ :=
      Enemy.update_paused (Enemy.updateN k e g).1 (Enemy.updateN k e g).2 (by omega)
    rw [d4, d5]
    exact ⟨i1, i2⟩

/-- Counterexample to C24: a fresh Basic enemy at `(10, 10)` that draws the
direction `(1, 0)`. The update that picks the direction already sets the pause
timer to 16; after 17 updates the pause is over and no step has been executed
(still at `(10, 10)` with 5 steps left); the first step comes with update 19
and the fifth with update 31. -/
theorem C24_counterexample :
    (Enemy.updateN 1 (Enemy.new 10 10)
        { stream := fun n => if n % 2 = 0 then 2 else 1, pos := 0 }).1.pauseTimer = 16 ∧
    ((Enemy.updateN 17 (Enemy.new 10 10)
        { stream := fun n => if n % 2 = 0 then 2 else 1, pos := 0 }).1.x = 10 ∧
      (Enemy.updateN 17 (Enemy.new 10 10)
        { stream := fun n => if n % 2 = 0 then 2 else 1, pos := 0 }).1.burstSteps = 5 ∧
      (Enemy.updateN 17 (Enemy.new 10 10)
        { stream := fun n => if n % 2 = 0 then 2 else 1, pos := 0 }).1.pauseTimer = 0) ∧
    ((Enemy.updateN 19 (Enemy.new 10 10)
        { stream := fun n => if n % 2 = 0 then 2 else 1, pos := 0 }).1.x = 11 ∧
      (Enemy.updateN 19 (Enemy.new 10 10)
        { stream := fun n => if n % 2 = 0 then 2 else 1, pos := 0 }).1.burstSteps = 4) ∧
    ((Enemy.updateN 31 (Enemy.new 10 10)
        { stream := fun n => if n % 2 = 0 then 2 else 1, pos := 0 }).1.x = 15 ∧
      (Enemy.updateN 31 (Enemy.new 10 10)
        { stream := fun n => if n % 2 = 0 then 2 else 1, pos := 0 }).1.burstSteps = 0 ∧
      (Enemy.updateN 31 (Enemy.new 10 10)
        { stream := fun n => if n % 2 = 0 then 2 else 1, pos := 0 }).1.pauseTimer = 0) := by
  decide

/-- Claim C24, amended. From a fresh movement state (no burst, not paused,
sub-frame counter 0) the first update picks a direction, commits to 5 steps and
sets the pause timer to 16 at once, without moving. Updates 2 to 17 are the
pause: the timer counts down to 0, no step is executed, the enemy stays where
it is. Updates 18 to 31 are not paused and execute the 5 steps, one on every
3rd non-paused update counted from the pick (updates 19, 22, 25, 28, 31), each
decrementing `burstSteps` and moving by the picked direction, clamped to the
arena. After update 31 the state is fresh again and update 32 picks anew. -/
theorem C24_pause_precedes_burst (e : Enemy) (g : Rng) (hb : e.burstSteps = 0)
    (hp : e.pauseTimer = 0) (hm : e.moveFrameCounter = 0) :
    ((Enemy.updateN 1 e g).1.burstSteps = 5 ∧ (Enemy.updateN 1 e g).1.pauseTimer = 16 ∧
      (Enemy.updateN 1 e g).1.moveFrameCounter = 1 ∧
      (Enemy.updateN 1 e g).1.dx = (dirDist g).1 ∧
      (Enemy.updateN 1 e g).1.dy = (dirDist (dirDist g).2).1 ∧
      (Enemy.updateN 1 e g).1.x = max 0 (min 59 e.x) ∧
      (Enemy.updateN 1 e g).1.y = max 0 (min 19 e.y)) ∧
    (∀ k : Nat, 1 ≤ k → k ≤ 17 →
      (Enemy.updateN k e g).1.pauseTimer = 17 - (k : Int) ∧
      (Enemy.updateN k e g).1.burstSteps = 5 ∧
      (Enemy.updateN k e g).1.moveFrameCounter = 1 ∧
      (Enemy.updateN k e g).1.x = (Enemy.updateN 1 e g).1.x ∧
      (Enemy.updateN k e g).1.y = (Enemy.updateN 1 e g).1.y) ∧
    (∀ k : Nat, 17 ≤ k → k ≤ 31 →
      (Enemy.updateN k e g).1.pauseTimer = 0 ∧
      (Enemy.updateN k e g).1.burstSteps = 5 - ((k : Int) - 16) / 3 ∧
      (Enemy.updateN k e g).1.moveFrameCounter = ((k : Int) - 16) % 3) ∧
    (∀ k : Nat, 1 ≤ k → k ≤ 31 →
      (Enemy.updateN k e g).1.dx = (Enemy.updateN 1 e g).1.dx ∧
      (Enemy.updateN k e g).1.dy = (Enemy.updateN 1 e g).1.dy) ∧
    (∀ k : Nat, 17 ≤ k → k < 31 →
      (Enemy.updateN (k + 1) e g).1.x =
        max 0 (min 59 ((Enemy.updateN k e g).1.x +
          (if ((k : Int) + 1 - 16) % 3 = 0 then (Enemy.updateN 1 e g).1.dx else 0))) ∧
      (Enemy.updateN (k + 1) e g).1.y =
        max 0 (min 19 ((Enemy.updateN k e g).1.y +
          (if ((k : Int) + 1 - 16) % 3 = 0 then (Enemy.updateN 1 e g).1.dy else 0)))) ∧
    ((Enemy.updateN 32 e g).1.burstSteps = 5 ∧ (Enemy.updateN 32 e g).1.pauseTimer = 16) := by
  have hfresh := Enemy.updateN_fresh e g hb hp hm
  have hdir := Enemy.updateN_dir e g hb hp hm
  have hstill := Enemy.updateN_still e g hb hp hm
  refine ⟨?_, ?_, ?_, hdir, ?_, ?_⟩
  · have h1 := hfresh 1 (by decide)
    rw [if_neg (by decide), if_pos (by decide)] at h1
    simp only [Prod.mk.injEq] at h1
    obtain ⟨_, d2, d3, d4, d5, _⟩ := Enemy.update_moving e g (by omega)
    rw [hm] at d4 d5
    rw [hb] at d2 d3
    refine ⟨by omega, by omega, by omega, ?_, ?_, ?_, ?_⟩
    · exact d2
    · exact d3
    · show (e.update g).1.x = _
      rw [d4]; simp
    · show (e.update g).1.y = _
      rw [d5]; simp
  · intro k h1 h17
    have hs := hfresh k (by omega)
    rw [if_neg (by omega), if_pos h17] at hs
    simp only [Prod.mk.injEq] at hs
    exact ⟨hs.1, hs.2.1, hs.2.2, hstill k h1 h17⟩
  · intro k h17 h31
    have hs := hfresh k (by omega)
    by_cases h : k ≤ 17
    · rw [if_neg (by omega), if_pos h] at hs
      simp only [Prod.mk.injEq] at hs
      have hk : k = 17 := by omega
      subst hk
      refine ⟨by omega, ?_, ?_⟩
      · rw [hs.2.1]; decide
      · rw [hs.2.2]; decide
    · rw [if_neg (by omega), if_neg h, if_pos h31] at hs
      simp only [Prod.mk.injEq] at hs
      exact hs
  · intro k h17 h31
    have hs := hfresh k (by omega)
    have hpt : ¬ (Enemy.updateN k e g).1.pauseTimer > 0 ∧
        (Enemy.updateN k e g).1.moveFrameCounter = ((k : Int) - 16) % 3 := by
      by_cases h : k ≤ 17
      · rw [if_neg (by omega), if_pos h] at hs
        simp only [Prod.mk.injEq] at hs
        have hk : k = 17 := by omega
        subst hk
        refine ⟨by omega, ?_⟩
        rw [hs.2.2]; decide
      · rw [if_neg (by omega), if_neg h, if_pos (by omega)] at hs
        simp only [Prod.mk.injEq] at hs
        exact ⟨by omega, hs.2.2⟩
    obtain ⟨_, _, _, d4, d5, _⟩ :=
      Enemy.update_moving (Enemy.updateN k e g).1 (Enemy.updateN k e g).2 hpt.1
    have hd := hdir (k + 1) (by omega) (by omega)
    have hc : ((Enemy.updateN k e g).1.moveFrameCounter + 1 ≥ 3) ↔
        (((k : Int) + 1 - 16) % 3 = 0) := by
      rw [hpt.2]; omega
    show ((Enemy.updateN k e g).1.update (Enemy.updateN k e g).2).1.x = _ ∧
      ((Enemy.updateN k e g).1.update (Enemy.updateN k e g).2).1.y = _
    rw [d4, d5]
    have hd1 : ((Enemy.updateN k e g).1.update (Enemy.updateN k e g).2).1.dx =
        (Enemy.updateN 1 e g).1.dx := hd.1
    have hd2 : ((Enemy.updateN k e g).1.update (Enemy.updateN k e g).2).1.dy =
        (Enemy.updateN 1 e g).1.dy := hd.2
    rw [hd1, hd2]
    simp only [hc]
    exact ⟨trivial, trivial⟩
  · have hs := hfresh 32 (by decide)
    rw [if_neg (by decide), if_neg (by decide), if_neg (by decide)] at hs
    simp only [Prod.mk.injEq] at hs
    exact ⟨by omega, by omega⟩

theorem C24_pause_precedes_burst_witness :
    (Enemy.updateN 1 (Enemy.new 10 10) { stream := fun _ => 0, pos := 0 }).1.burstSteps = 5 ∧
      (Enemy.updateN 1 (Enemy.new 10 10) { stream := fun _ => 0, pos := 0 }).1.pauseTimer = 16 :=
  ⟨(C24_pause_precedes_burst (Enemy.new 10 10) { stream := fun _ => 0, pos := 0 }
      rfl rfl rfl).1.1,
    (C24_pause_precedes_burst (Enemy.new 10 10) { stream := fun _ => 0, pos := 0 }
      rfl rfl rfl).1.2.1⟩


/-! ## Spent bullets are pruned -/

theorem eq_some_getD {α : Type} (o : Option α) (d : α) (h : o.isSome = true) :
    o = some (o.getD d) := by
  cases o with
  | none => exact absurd h (by simp)
  | some a => rfl

/-- A property of states that every tick preserves holds along every run. -/
theorem Game.run_preserves (P : Game → Prop)
    (hstep : ∀ (g g1 : Game) (inp : TickInput), P g → g.tick inp = some g1 → P g1)
    (inps : List TickInput) :
    ∀ g g1 : Game, P g → g.runTicks inps = some g1 → P g1 := by
  induction inps with
  | nil =>
    intro g g1 h hrun
    simp only [Game.runTicks, Option.some.injEq] at hrun
    exact hrun ▸ h
  | cons inp rest ih =>
    intro g g1 h hrun
    simp only [Game.runTicks] at hrun
    split_ifs at hrun with h1 h2
    · simp only [Option.some.injEq] at hrun
      exact hrun ▸ h
    · simp only [Option.some.injEq] at hrun
      exact hrun ▸ h
    · cases ht : g.tick inp with
      | none => simp [ht] at hrun
      | some g2 =>
        simp only [ht] at hrun
        exact ih g2 g1 (hstep g g2 inp h ht) hrun

theorem Bullet.flownOk_shotOk (b : Bullet) (h : b.flownOk) : b.shotOk := by
  intro ho
  obtain ⟨hd, hx⟩ := h ho
  rcases hx with hx | hx
  · exact Or.inl hx
  · exact Or.inr ⟨hx, hd⟩

/-- A spent player shot with a horizontal speed below 100 is out of bounds
after its next update. -/
theorem Bullet.spent_out (b : Bullet) (hx : b.x = -100) (hd : b.dx < 100) :
    b.update.isOutOfBounds = true := by
  simp only [Bullet.update, Bullet.isOutOfBounds, Bool.or_eq_true, decide_eq_true_eq]
  left; left; left
  omega

/-- The prune drops a bullet that is out of bounds after its update, and
nothing else changes. -/
theorem pruneBullets_drop (pre post : List Bullet) (b : Bullet)
    (h : b.update.isOutOfBounds = true) :
    pruneBullets (pre ++ b :: post) = pruneBullets (pre ++ post) := by
  simp only [pruneBullets, List.map_append, List.map_cons, List.filter_append, List.filter_cons,
    h, Bool.not_true, Bool.false_eq_true, if_false]

theorem pruneBullets_flown (bs : List Bullet) (h : ∀ b ∈ bs, b.shotOk) :
    ∀ b ∈ pruneBullets bs, b.flownOk := by
  intro b hb
  simp only [pruneBullets, List.mem_filter, List.mem_map, Bool.not_eq_true', Bullet.isOutOfBounds,
    Bool.or_eq_false_iff, decide_eq_false_iff_not, GRID_COLS, GRID_ROWS] at hb
  obtain ⟨⟨b0, hb0, rfl⟩, ⟨⟨hx1, hx2⟩, _⟩, _⟩ := hb
  intro ho
  have h0 := h b0 hb0 ho
  simp only [Bullet.update] at hx1 hx2 ⊢
  rcases h0 with h0 | h0
  · exact ⟨⟨by omega, by omega⟩, Or.inl ⟨by omega, by omega⟩⟩
  · omega

theorem spawnBullets_shotOk (m : BulletManager) (frame : Int) (bs : List Bullet)
    (h : ∀ b ∈ bs, b.shotOk) : ∀ b ∈ (m.spawnBullets frame bs).2, b.shotOk := by
  intro b hb
  rw [(BulletManager.spawnBullets_eq m frame bs).2.2, List.mem_append] at hb
  rcases hb with hb | hb
  · exact h b hb
  · simp only [List.mem_map] at hb
    obtain ⟨s, _, rfl⟩ := hb
    intro ho
    exact absurd ho (by simp [BulletSpawn.toBullet])

theorem bossBurst_flown (cx cy : Int) (ds : List (Int × Int)) :
    ∀ bullets : List Bullet, (∀ b ∈ bullets, b.flownOk) →
      ∀ b ∈ bossBurst cx cy ds bullets, b.flownOk := by
  induction ds with
  | nil => intro bullets h; exact h
  | cons d ds ih =>
    intro bullets h
    simp only [bossBurst]
    split_ifs
    · apply ih
      intro b hb
      rw [List.mem_append, List.mem_singleton] at hb
      rcases hb with hb | hb
      · exact h b hb
      · intro ho
        rw [hb] at ho
        exact absurd ho (by simp)
    · exact ih bullets h

theorem updateEnemy_flown (p : Player) (g : Rng) (bullets : List Bullet) (e : Enemy)
    (h : ∀ b ∈ bullets, b.flownOk) : ∀ b ∈ (updateEnemy p g bullets e).2.1, b.flownOk := by
  simp only [updateEnemy]
  split_ifs
  · exact h
  · exact bossBurst_flown _ _ _ _ h
  · intro b hb
    rw [List.mem_append, List.mem_singleton] at hb
    rcases hb with hb | hb
    · exact h b hb
    · intro ho
      rw [hb, aimedBullet_eq] at ho
      exact absurd ho (by simp)
  · exact h

theorem updateEnemies_flown (p : Player) (es : List Enemy) :
    ∀ (g : Rng) (bullets : List Bullet), (∀ b ∈ bullets, b.flownOk) →
      ∀ b ∈ (updateEnemies p g bullets es).2.1, b.flownOk := by
  induction es with
  | nil => intro g bullets h; exact h
  | cons e es ih =>
    intro g bullets h
    simp only [updateEnemies]
    exact ih _ _ (updateEnemy_flown p g bullets e h)

theorem Bullet.flownOk_mark (b : Bullet) (h : b.flownOk) :
    Bullet.flownOk { b with x := -100 } := by
  intro ho
  exact ⟨(h ho).1, Or.inr rfl⟩

theorem hitBullets_flown (bs : List Bullet) :
    ∀ s : Scan, (∀ b ∈ bs, b.flownOk) → ∀ b ∈ (hitBullets s bs).2, b.flownOk := by
  induction bs with
  | nil => intro s h; simp [hitBullets]
  | cons b bs ih =>
    intro s h
    have hb := h b (List.mem_cons_self _ _)
    have hbs : ∀ c ∈ bs, c.flownOk := fun c hc => h c (List.mem_cons_of_mem _ hc)
    by_cases hd : s.enemyDied = true
    · rw [hitBullets_died s _ hd]
      exact h
    · have hd2 : s.enemyDied = false := by simpa using hd
      by_cases ho : b.symbol = 'o'
      · rw [hitBullets_cons_shot s b bs hd2 ho]
        split_ifs
        · intro c hc
          rw [List.mem_cons] at hc
          rcases hc with hc | hc
          · rw [hc]; exact Bullet.flownOk_mark b hb
          · exact ih _ hbs c hc
        · intro c hc
          rw [List.mem_cons] at hc
          rcases hc with hc | hc
          · rw [hc]; exact hb
          · exact ih _ hbs c hc
      · rw [hitBullets_cons_other s b bs hd2 ho]
        intro c hc
        rw [List.mem_cons] at hc
        rcases hc with hc | hc
        · rw [hc]; exact hb
        · exact ih _ hbs c hc

theorem damageEnemies_flown (es : List Enemy) :
    ∀ (p : Player) (score : Int) (bullets : List Bullet), (∀ b ∈ bullets, b.flownOk) →
      ∀ b ∈ (damageEnemies p score bullets es).2.2.1, b.flownOk := by
  induction es with
  | nil => intro p score bullets h; exact h
  | cons e es ih =>
    intro p score bullets h
    simp only [damageEnemies]
    apply ih
    simp only [damageEnemy]
    split_ifs
    · exact h
    · exact hitBullets_flown bullets _ h

theorem pushPlayerBullets_shotOk (bx by0 : Int) (ds : List (Int × Int)) :
    ∀ bullets : List Bullet, (∀ b ∈ bullets, b.shotOk) →
      ∀ b ∈ pushPlayerBullets bx by0 ds bullets, b.shotOk := by
  induction ds with
  | nil => intro bullets h; exact h
  | cons d ds ih =>
    intro bullets h
    simp only [pushPlayerBullets]
    split_ifs with hg
    · apply ih
      intro b hb
      rw [List.mem_append, List.mem_singleton] at hb
      rcases hb with hb | hb
      · exact h b hb
      · intro _
        rw [hb]
        simp only [GRID_COLS] at hg
        refine Or.inl ⟨?_, ?_⟩ <;> simp only <;> omega
    · exact ih bullets h

/-- Every tick keeps the bullets in the shape `shotOk`. -/
theorem Game.tick_shotOk (g g1 : Game) (inp : TickInput) (h : ∀ b ∈ g.bullets, b.shotOk)
    (ht : g.tick inp = some g1) : ∀ b ∈ g1.bullets, b.shotOk := by
  have hres : ∀ b ∈ (g.resolve inp).bullets, b.shotOk := by
    intro b hb
    apply Bullet.flownOk_shotOk
    revert b
    simp only [Game.resolve]
    apply damageEnemies_flown
    apply updateEnemies_flown
    exact pruneBullets_flown _ (spawnBullets_shotOk _ _ _ h)
  have hchk : ((g.resolve inp).checkUpgrade inp).bullets = (g.resolve inp).bullets := by
    simp only [Game.checkUpgrade, Game.offerUpgrades]
    split_ifs <;> rfl
  rcases Game.tick_cases g g1 inp ht with ⟨_, hsel, _⟩ | ⟨_, hadv, _⟩
  · have hb : g1.bullets = ((g.resolve inp).checkUpgrade inp).bullets := by
      simp only [Game.selectUpgrade] at hsel
      split at hsel
      · exact absurd hsel (by simp)
      · split at hsel
        · exact absurd hsel (by simp)
        · simp only [Option.some.injEq] at hsel
          rw [← hsel]
          rfl
    rw [hb, hchk]
    exact hres
  · have hb : g1.bullets = (((g.resolve inp).checkUpgrade inp).playerFire inp).bullets := by
      rw [hadv]; rfl
    rw [hb]
    simp only [Game.playerFire]
    split_ifs
    · exact pushPlayerBullets_shotOk _ _ _ _ (by rw [hchk]; exact hres)
    · rw [hchk]; exact hres
    · rw [hchk]; exact hres

/-- Claim C25. In every run from the start state, a player bullet that has
been moved to the sentinel `x = -100` (which is what a hit does, leaving its
kind and velocity as they are) has a horizontal speed of at most 59, so it is
out of bounds after the update of the following tick and the prune of that
tick, applied to the collection after the scripted spawns, drops it and
changes nothing else. -/
theorem C25_spent_bullet_pruned (spawns : List BulletSpawn) (rng : Rng)
    (inps : List TickInput) (g1 : Game)
    (hrun : (Game.start spawns rng).runTicks inps = some g1) :
    (∀ b ∈ g1.bullets, b.symbol = 'o' → b.x = -100 →
      (-59 ≤ b.dx ∧ b.dx ≤ 59) ∧ b.update.isOutOfBounds = true ∧
      ∀ pre post : List Bullet,
        (g1.bulletManager.spawnBullets g1.frame g1.bullets).2 = pre ++ b :: post →
        pruneBullets (g1.bulletManager.spawnBullets g1.frame g1.bullets).2 =
          pruneBullets (pre ++ post)) ∧
    (∀ inp : TickInput,
      (g1.resolve inp).bullets =
        (damageEnemies
          (bulletsVsPlayer (g1.player.move inp.keys) g1.running
            (pruneBullets (g1.bulletManager.spawnBullets g1.frame g1.bullets).2)).1 g1.score
          (updateEnemies
            (bulletsVsPlayer (g1.player.move inp.keys) g1.running
              (pruneBullets (g1.bulletManager.spawnBullets g1.frame g1.bullets).2)).1 g1.rng
            (pruneBullets (g1.bulletManager.spawnBullets g1.frame g1.bullets).2) g1.enemies).2.1
          (updateEnemies
            (bulletsVsPlayer (g1.player.move inp.keys) g1.running
              (pruneBullets (g1.bulletManager.spawnBullets g1.frame g1.bullets).2)).1 g1.rng
            (pruneBullets (g1.bulletManager.spawnBullets g1.frame g1.bullets).2)
            g1.enemies).2.2).2.2.1) ∧
    (∃ rest : List Bullet,
      (g1.bulletManager.spawnBullets g1.frame g1.bullets).2 = g1.bullets ++ rest) ∧
    (∀ (s : Scan) (b : Bullet), (hitApply s b).2.1 = { b with x := -100 }) := by
  have hinv : ∀ b ∈ g1.bullets, b.shotOk :=
    Game.run_preserves (fun g => ∀ b ∈ g.bullets, b.shotOk) Game.tick_shotOk inps
      (Game.start spawns rng) g1 (by intro b hb; simp [Game.start] at hb) hrun
  refine ⟨?_, fun _ => rfl, ⟨_, (BulletManager.spawnBullets_eq _ _ _).2.2⟩, hitApply_bullet⟩
  intro b hb ho hx
  have hd : -59 ≤ b.dx ∧ b.dx ≤ 59 := by
    rcases hinv b hb ho with h | h
    · omega
    · exact h.2
  have hout := Bullet.spent_out b hx (by omega)
  refine ⟨hd, hout, ?_⟩
  intro pre post hsplit
  rw [hsplit]
  exact pruneBullets_drop pre post b hout

theorem C25_spent_bullet_pruned_witness :
    (Game.after (Game.start [] { stream := fun _ => 0, pos := 0 })
        [{ keys := [' '] }, {}, {}, {}, {}, {}, {}]).bullets =
      [{ x := 29, y := 9, dx := 0, dy := 1, symbol := '*' },
        { x := -100, y := 10, dx := 0, dy := -1, symbol := 'o' }] ∧
    (-59 ≤ Bullet.dx { x := -100, y := 10, dx := 0, dy := -1, symbol := 'o' } ∧
      Bullet.dx { x := -100, y := 10, dx := 0, dy := -1, symbol := 'o' } ≤ 59) ∧
    Bullet.isOutOfBounds
      (Bullet.update { x := -100, y := 10, dx := 0, dy := -1, symbol := 'o' }) = true ∧
    pruneBullets
        ([{ x := 29, y := 9, dx := 0, dy := 1, symbol := '*' }] ++
          { x := -100, y := 10, dx := 0, dy := -1, symbol := 'o' } :: []) =
      pruneBullets ([{ x := 29, y := 9, dx := 0, dy := 1, symbol := '*' }] ++ []) := by
  have hrun : (Game.start [] { stream := fun _ => 0, pos := 0 }).runTicks
        [{ keys := [' '] }, {}, {}, {}, {}, {}, {}] =
      some (Game.after (Game.start [] { stream := fun _ => 0, pos := 0 })
        [{ keys := [' '] }, {}, {}, {}, {}, {}, {}]) :=
    eq_some_getD _ _ (by decide)
  have hsplit :
      ((Game.after (Game.start [] { stream := fun _ => 0, pos := 0 })
            [{ keys := [' '] }, {}, {}, {}, {}, {}, {}]).bulletManager.spawnBullets
          (Game.after (Game.start [] { stream := fun _ => 0, pos := 0 })
            [{ keys := [' '] }, {}, {}, {}, {}, {}, {}]).frame
          (Game.after (Game.start [] { stream := fun _ => 0, pos := 0 })
            [{ keys := [' '] }, {}, {}, {}, {}, {}, {}]).bullets).2 =
        [{ x := 29, y := 9, dx := 0, dy := 1, symbol := '*' }] ++
          { x := -100, y := 10, dx := 0, dy := -1, symbol := 'o' } :: [] := by
    decide
  have h := (C25_spent_bullet_pruned [] { stream := fun _ => 0, pos := 0 }
    [{ keys := [' '] }, {}, {}, {}, {}, {}, {}] _ hrun).1
      { x := -100, y := 10, dx := 0, dy := -1, symbol := 'o' } (by decide) rfl rfl
  exact ⟨by decide, h.1, h.2.1, (congrArg pruneBullets hsplit).symm.trans (h.2.2 _ _ hsplit)⟩


/-! ## Spawn counters before the interval shrink -/

theorem spawnInterval_early (base : Nat) (hb : base = 83 ∨ base = 100) (f : Int)
    (h : f ≤ 1599) : spawnInterval base f = base := by
  by_cases h1 : f ≤ 1500
  · exact spawnInterval_under base f h1
  · have h2 : 1500 < f := by omega
    have hd : Int.tdiv (f - 1500) 100 = 0 := by
      rw [Int.tdiv_eq_ediv (by omega) (by decide)]
      exact Int.ediv_eq_zero_of_lt (by omega) (by omega)
    rw [spawnInterval_over base f h2, interval_eq base hb, hd]
    rcases hb with rfl | rfl <;> decide

theorem Rng.uniform_range (g : Rng) (lo hi : Int) (h : lo ≤ hi) :
    lo ≤ (g.uniform lo hi).1 ∧ (g.uniform lo hi).1 ≤ hi := by
  simp only [Rng.uniform]
  have h1 := Int.emod_nonneg (g.stream g.pos : Int) (show hi - lo + 1 ≠ 0 by omega)
  have h2 := Int.emod_lt_of_pos (g.stream g.pos : Int) (show 0 < hi - lo + 1 by omega)
  constructor <;> omega

/-- The end of a tick that advances the frame to at most 1599. -/
theorem Game.advance_early (g : Game) (hf : g.frame + 1 ≤ 1599) :
    g.advance.frame = g.frame + 1 ∧
    g.advance.basicSpawnFrameCounter =
      (if g.basicSpawnFrameCounter + 1 ≥ 83 then 0 else g.basicSpawnFrameCounter + 1) ∧
    g.advance.enemySpawnFrameCounter =
      (if g.enemySpawnFrameCounter + 1 ≥ 100 then 0 else g.enemySpawnFrameCounter + 1) ∧
    ∃ bx by0 rx : Int, (0 ≤ bx ∧ bx ≤ 59) ∧ (0 ≤ by0 ∧ by0 ≤ 2) ∧ (0 ≤ rx ∧ rx ≤ 59) ∧
      g.advance.enemies =
        g.enemies ++
          (if g.basicSpawnFrameCounter + 1 ≥ 83 then [Enemy.new bx by0] else []) ++
          (if g.enemySpawnFrameCounter + 1 ≥ 100 then [RayEnemy.new rx 10] else []) := by
  have i83 : spawnInterval 83 (g.frame + 1) = 83 :=
    spawnInterval_early 83 (Or.inl rfl) _ hf
  have i100 : spawnInterval 100 (g.frame + 1) = 100 :=
    spawnInterval_early 100 (Or.inr rfl) _ hf
  have hboss : ¬ (g.frame + 1 ≥ 2250 ∧ Int.tmod (g.frame + 1 - 2250) 500 = 0) := by
    intro h; omega
  have h10 : Int.tdiv GRID_ROWS 2 = 10 := by decide
  have hc : GRID_COLS - 1 = 59 := by decide
  refine ⟨rfl, ?_, ?_, ?_⟩
  · simp only [Game.advance, i83, Nat.cast_ofNat]
    split_ifs <;> rfl
  · simp only [Game.advance, i100, Nat.cast_ofNat]
    split_ifs <;> rfl
  · refine ⟨(g.rng.uniform 0 59).1, ((g.rng.uniform 0 59).2.uniform 0 2).1,
      ((if g.basicSpawnFrameCounter + 1 ≥ 83 then ((g.rng.uniform 0 59).2.uniform 0 2).2
        else g.rng).uniform 0 59).1,
      Rng.uniform_range _ _ _ (by decide), Rng.uniform_range _ _ _ (by decide),
      Rng.uniform_range _ _ _ (by decide), ?_⟩
    simp only [Game.advance, i83, i100, Nat.cast_ofNat, hboss, if_false, h10, hc]
    split_ifs <;> simp

theorem Game.resolve_counters (g : Game) (inp : TickInput) :
    (g.resolve inp).frame = g.frame ∧
    (g.resolve inp).enemySpawnFrameCounter = g.enemySpawnFrameCounter ∧
    (g.resolve inp).basicSpawnFrameCounter = g.basicSpawnFrameCounter :=
  ⟨rfl, rfl, rfl⟩

theorem Game.checkUpgrade_pending (g : Game) (inp : TickInput) :
    (g.checkUpgrade inp).upgradePending = true ↔
      (g.upgradePending = true ∨ g.player.money ≥ g.player.maxMoney) := by
  simp only [Game.checkUpgrade, Game.offerUpgrades]
  by_cases hp : g.upgradePending = true
  · simp [hp]
  · have hp2 : g.upgradePending = false := by simpa using hp
    by_cases hm : g.player.money ≥ g.player.maxMoney
    · simp [hp2, hm]
    · simp [hp2, hm]

/-- A tick is either paused for the upgrade selection (an offer is pending
after the upgrade check), and then leaves the frame, both counters and the
enemies of the passes as they are, or it is not and runs `advance` on a state
with the frame and the counters of its start. -/
theorem Game.tick_counters (g g1 : Game) (inp : TickInput) (h : g.tick inp = some g1) :
    (((g.resolve inp).checkUpgrade inp).upgradePending = true ∧
      g1.frame = g.frame ∧ g1.enemySpawnFrameCounter = g.enemySpawnFrameCounter ∧
      g1.basicSpawnFrameCounter = g.basicSpawnFrameCounter ∧
      g1.enemies = (g.resolve inp).enemies) ∨
    (((g.resolve inp).checkUpgrade inp).upgradePending = false ∧
      ∃ g0 : Game, g1 = g0.advance ∧ g0.frame = g.frame ∧
      g0.enemySpawnFrameCounter = g.enemySpawnFrameCounter ∧
      g0.basicSpawnFrameCounter = g.basicSpawnFrameCounter ∧
      g0.enemies = (g.resolve inp).enemies) := by
  obtain ⟨r1, r2, r3⟩ := Game.resolve_counters g inp
  obtain ⟨c1, c2, c3, c4⟩ := Game.checkUpgrade_frame (g.resolve inp) inp
  rcases Game.tick_cases g g1 inp h with ⟨hp, hsel, _⟩ | ⟨hp, hadv, _⟩
  · left
    obtain ⟨s1, s2, s3, s4⟩ := Game.selectUpgrade_frame _ _ _ hsel
    exact ⟨hp, by rw [s1, c1, r1], by rw [s3, c3, r2], by rw [s4, c4, r3], by rw [s2, c2]⟩
  · right
    obtain ⟨p1, p2, p3, p4⟩ := Game.playerFire_frame ((g.resolve inp).checkUpgrade inp) inp
    exact ⟨hp, _, hadv, by rw [p1, c1, r1], by rw [p3, c3, r2], by rw [p4, c4, r3],
      by rw [p2, c2]⟩

theorem Game.tick_countersOk (g g1 : Game) (inp : TickInput) (h : g.countersOk)
    (ht : g.tick inp = some g1) : g1.countersOk := by
  obtain ⟨h0, hc⟩ := h
  rcases Game.tick_counters g g1 inp ht with ⟨_, f1, f2, f3, _⟩ | ⟨_, g0, rfl, f1, f2, f3, _⟩
  · refine ⟨by omega, fun hf => ?_⟩
    rw [f1, f2, f3]
    exact hc (by omega)
  · have hfr : g0.advance.frame = g0.frame + 1 := rfl
    refine ⟨by omega, fun hf => ?_⟩
    obtain ⟨_, a2, a3, _⟩ := Game.advance_early g0 (by omega)
    obtain ⟨b1, b2⟩ := hc (by omega)
    rw [a2, a3, hfr, f1, f2, f3, b1, b2]
    constructor <;> split_ifs <;> omega

/-- Claim C26. Along every run from the start state (frame 0, both counters
0), a tick that ends with the frame counter at most 1599 (so no interval has
shrunk yet) ends with the basic spawn counter at `frame mod 83` and the hazard
spawn counter at `frame mod 100`. The tick is paused for the upgrade selection
exactly when an offer is pending after the upgrade check, that is when one was
pending before or the currency has reached its maximum. A paused tick leaves
the frame, both counters and the enemies as the passes left them. A tick that
is not paused advances the frame by one and appends, after the enemies the
passes left, exactly one Basic enemy (in a column of the arena, in rows 0 to
2) iff the new frame is a multiple of 83 and then exactly one Hazard enemy (at
row 10) iff it is a multiple of 100, and nothing else. -/
theorem C26_spawn_counters (spawns : List BulletSpawn) (rng : Rng) (inps : List TickInput)
    (g1 g2 : Game) (inp : TickInput)
    (hrun : (Game.start spawns rng).runTicks inps = some g1)
    (ht : g1.tick inp = some g2) (hf : g2.frame ≤ 1599) :
    (0 ≤ g2.frame ∧ g2.basicSpawnFrameCounter = g2.frame % 83 ∧
      g2.enemySpawnFrameCounter = g2.frame % 100) ∧
    (((g1.resolve inp).checkUpgrade inp).upgradePending = true ↔
      ((g1.resolve inp).upgradePending = true ∨
        (g1.resolve inp).player.money ≥ (g1.resolve inp).player.maxMoney)) ∧
    (((g1.resolve inp).checkUpgrade inp).upgradePending = true →
      g2.frame = g1.frame ∧ g2.basicSpawnFrameCounter = g1.basicSpawnFrameCounter ∧
        g2.enemySpawnFrameCounter = g1.enemySpawnFrameCounter ∧
        g2.enemies = (g1.resolve inp).enemies) ∧
    (((g1.resolve inp).checkUpgrade inp).upgradePending = false →
      g2.frame = g1.frame + 1 ∧ 0 < g2.frame ∧
        ∃ bx by0 rx : Int, (0 ≤ bx ∧ bx ≤ 59) ∧ (0 ≤ by0 ∧ by0 ≤ 2) ∧ (0 ≤ rx ∧ rx ≤ 59) ∧
          g2.enemies =
            (g1.resolve inp).enemies ++
              (if g2.frame % 83 = 0 then [Enemy.new bx by0] else []) ++
              (if g2.frame % 100 = 0 then [RayEnemy.new rx 10] else [])) ∧
    ((Game.start spawns rng).frame = 0 ∧ (Game.start spawns rng).basicSpawnFrameCounter = 0 ∧
      (Game.start spawns rng).enemySpawnFrameCounter = 0 ∧ Int.tdiv GRID_ROWS 2 = 10) := by
  have hinv1 : g1.countersOk :=
    Game.run_preserves Game.countersOk Game.tick_countersOk inps (Game.start spawns rng) g1
      ⟨le_refl 0, fun _ => ⟨rfl, rfl⟩⟩ hrun
  have hinv2 := Game.tick_countersOk g1 g2 inp hinv1 ht
  refine ⟨⟨hinv2.1, hinv2.2 hf⟩, Game.checkUpgrade_pending _ _, ?_, ?_, ⟨rfl, rfl, rfl, by decide⟩⟩
  · intro hp
    rcases Game.tick_counters g1 g2 inp ht with ⟨_, f1, f2, f3, f4⟩ | ⟨hq, _⟩
    · exact ⟨f1, f3, f2, f4⟩
    · rw [hp] at hq
      exact absurd hq (by decide)
  · intro hp
    rcases Game.tick_counters g1 g2 inp ht with ⟨hq, _⟩ | ⟨_, g0, rfl, f1, f2, f3, f4⟩
    · rw [hp] at hq
      exact absurd hq (by decide)
    · have hfr : g0.advance.frame = g0.frame + 1 := rfl
      obtain ⟨_, _, _, bx, by0, rx, hbx, hby, hrx, hen⟩ := Game.advance_early g0 (by omega)
      obtain ⟨b1, b2⟩ := hinv1.2 (by omega)
      have h0 := hinv1.1
      refine ⟨by rw [hfr, f1], by omega, bx, by0, rx, hbx, hby, hrx, ?_⟩
      rw [hen, f4, hfr, f1, f2, f3, b1, b2]
      have e1 : (g1.frame % 83 + 1 ≥ 83) ↔ ((g1.frame + 1) % 83 = 0) := by omega
      have e2 : (g1.frame % 100 + 1 ≥ 100) ↔ ((g1.frame + 1) % 100 = 0) := by omega
      simp only [e1, e2]

set_option maxRecDepth 1000000 in
theorem C26_spawn_counters_witness :
    ((Option.getD (Game.tick (Game.after (Game.start [] { stream := fun _ => 0, pos := 0 }) (List.replicate 82 {})) {})
        (Game.after (Game.start [] { stream := fun _ => 0, pos := 0 }) (List.replicate 82 {}))).frame,
      (Option.getD (Game.tick (Game.after (Game.start [] { stream := fun _ => 0, pos := 0 }) (List.replicate 82 {})) {})
        (Game.after (Game.start [] { stream := fun _ => 0, pos := 0 }) (List.replicate 82 {}))).basicSpawnFrameCounter,
      (Option.getD (Game.tick (Game.after (Game.start [] { stream := fun _ => 0, pos := 0 }) (List.replicate 82 {})) {})
        (Game.after (Game.start [] { stream := fun _ => 0, pos := 0 }) (List.replicate 82 {}))).enemySpawnFrameCounter,
      (Option.getD (Game.tick (Game.after (Game.start [] { stream := fun _ => 0, pos := 0 }) (List.replicate 82 {})) {})
        (Game.after (Game.start [] { stream := fun _ => 0, pos := 0 }) (List.replicate 82 {}))).enemies.map
        fun e => (e.kind, e.y)) =
      (83, 0, 83, [(EnemyKind.Basic, 0), (EnemyKind.Ray, 0), (EnemyKind.Basic, 0)]) ∧
    (0 ≤ (Option.getD (Game.tick (Game.after (Game.start [] { stream := fun _ => 0, pos := 0 }) (List.replicate 82 {})) {})
        (Game.after (Game.start [] { stream := fun _ => 0, pos := 0 }) (List.replicate 82 {}))).frame ∧
      (Option.getD (Game.tick (Game.after (Game.start [] { stream := fun _ => 0, pos := 0 }) (List.replicate 82 {})) {})
        (Game.after (Game.start [] { stream := fun _ => 0, pos := 0 }) (List.replicate 82 {}))).basicSpawnFrameCounter =
        (Option.getD (Game.tick (Game.after (Game.start [] { stream := fun _ => 0, pos := 0 }) (List.replicate 82 {})) {})
        (Game.after (Game.start [] { stream := fun _ => 0, pos := 0 }) (List.replicate 82 {}))).frame % 83 ∧
      (Option.getD (Game.tick (Game.after (Game.start [] { stream := fun _ => 0, pos := 0 }) (List.replicate 82 {})) {})
        (Game.after (Game.start [] { stream := fun _ => 0, pos := 0 }) (List.replicate 82 {}))).enemySpawnFrameCounter =
        (Option.getD (Game.tick (Game.after (Game.start [] { stream := fun _ => 0, pos := 0 }) (List.replicate 82 {})) {})
        (Game.after (Game.start [] { stream := fun _ => 0, pos := 0 }) (List.replicate 82 {}))).frame % 100) ∧
    (Option.getD (Game.tick (Game.after (Game.start [] { stream := fun _ => 0, pos := 0 }) (List.replicate 82 {})) {})
        (Game.after (Game.start [] { stream := fun _ => 0, pos := 0 }) (List.replicate 82 {}))).frame =
      (Game.after (Game.start [] { stream := fun _ => 0, pos := 0 }) (List.replicate 82 {})).frame + 1 := by
  have hrun : (Game.start [] { stream := fun _ => 0, pos := 0 }).runTicks (List.replicate 82 {}) =
      some (Game.after (Game.start [] { stream := fun _ => 0, pos := 0 }) (List.replicate 82 {})) :=
    eq_some_getD _ _ (by decide!)
  have ht : Game.tick (Game.after (Game.start [] { stream := fun _ => 0, pos := 0 }) (List.replicate 82 {})) {} =
      some (Option.getD (Game.tick (Game.after (Game.start [] { stream := fun _ => 0, pos := 0 }) (List.replicate 82 {})) {})
        (Game.after (Game.start [] { stream := fun _ => 0, pos := 0 }) (List.replicate 82 {}))) :=
    eq_some_getD _ _ (by decide!)
  have h := C26_spawn_counters [] { stream := fun _ => 0, pos := 0 } (List.replicate 82 {})
    _ _ {} hrun ht (by decide!)
  exact ⟨by decide!, h.1, (h.2.2.2.1 (by decide!)).1⟩


/-! ## A bullet hits once -/

/-- A bullet at the sentinel column is out of reach of every enemy whose
column is not negative. -/
theorem spent_out_of_reach (e : Enemy) (b : Bullet) (he : 0 ≤ e.x) (hb : b.x = -100) :
    ¬ inReach e b ∧ qualifies e b = false := by
  have h1 : ¬ inReach e b := by
    rintro ⟨sy, sx, row, ch, _, _, _, hd⟩
    have h2 := abs_nonneg (b.y - (e.y + (sy : Int)))
    have h3 : |b.x - (e.x + (sx : Int))| ≤ 1 := by omega
    rw [abs_le] at h3
    omega
  refine ⟨h1, ?_⟩
  cases hq : qualifies e b with
  | false => rfl
  | true => exact absurd ((qualifies_iff e b).1 hq).2 h1

theorem spentCount_cons (b : Bullet) (bs : List Bullet) :
    spentCount (b :: bs) = spentCount bs + (if b.x = -100 then 1 else 0) := by
  simp only [spentCount, List.countP_cons, decide_eq_true_eq]

/-- The scan of the bullets against one enemy: the hit points it loses are the
damage times the number of bullets the scan moves to the sentinel. -/
theorem hitBullets_account (bs : List Bullet) :
    ∀ s : Scan, 0 ≤ s.enemy.x →
      (hitBullets s bs).1.enemy.hp =
        s.enemy.hp - hitDmg s.player * ((spentCount (hitBullets s bs).2 : Int) - spentCount bs) ∧
      spentCount bs ≤ spentCount (hitBullets s bs).2 ∧
      hitDmg (hitBullets s bs).1.player = hitDmg s.player := by
  induction bs with
  | nil => intro s _; simp [hitBullets]
  | cons b bs ih =>
    intro s hx
    by_cases hd : s.enemyDied = true
    · rw [hitBullets_died s _ hd]
      simp
    · have hd2 : s.enemyDied = false := by simpa using hd
      by_cases ho : b.symbol = 'o'
      · rw [hitBullets_cons_shot s b bs hd2 ho]
        by_cases hq : qualifies s.enemy b = true
        · rw [if_pos hq]
          have hbx : ¬ b.x = -100 := by
            intro hb
            rw [(spent_out_of_reach s.enemy b hx hb).2] at hq
            exact absurd hq (by decide)
          have he := hitApply_enemy s b
          have hp := (hitApply_player s b).2.2.1
          have hx2 : 0 ≤ (hitApply s b).1.enemy.x := by rw [he]; exact hx
          obtain ⟨i1, i2, i3⟩ := ih (hitApply s b).1 hx2
          have hdm : hitDmg (hitApply s b).1.player = hitDmg s.player := hitDmg_eq _ _ hp
          simp only
          rw [spentCount_cons, spentCount_cons, if_neg hbx]
          simp only [if_true, add_zero]
          rw [i1, i3, hdm, he]
          refine ⟨?_, by omega, rfl⟩
          simp only
          push_cast
          ring
        · rw [if_neg hq]
          obtain ⟨i1, i2, i3⟩ := ih s hx
          simp only
          rw [spentCount_cons, spentCount_cons, i1, i3]
          refine ⟨?_, by omega, rfl⟩
          push_cast
          ring
      · rw [hitBullets_cons_other s b bs hd2 ho]
        obtain ⟨i1, i2, i3⟩ := ih s hx
        simp only
        rw [spentCount_cons, spentCount_cons, i1, i3]
        refine ⟨?_, by omega, rfl⟩
        push_cast
        ring

theorem damageEnemy_account (p : Player) (score : Int) (bs : List Bullet) (e : Enemy)
    (hx : 0 ≤ e.x) :
    e.hp - (damageEnemy p score bs e).2.2.2.hp =
      hitDmg p * ((spentCount (damageEnemy p score bs e).2.2.1 : Int) - spentCount bs) ∧
    spentCount bs ≤ spentCount (damageEnemy p score bs e).2.2.1 ∧
    hitDmg (damageEnemy p score bs e).1 = hitDmg p := by
  simp only [damageEnemy]
  split_ifs
  · simp
  · obtain ⟨h1, h2, h3⟩ :=
      hitBullets_account bs { player := p, score := score, enemy := e, enemyDied := false } hx
    simp only at h1 h2 h3 ⊢
    exact ⟨by rw [h1]; ring, h2, h3⟩

/-- The damage pass: the hit points all enemies lose are the damage times the
number of bullets the pass moves to the sentinel. -/
theorem damageEnemies_account (es : List Enemy) :
    ∀ (p : Player) (score : Int) (bs : List Bullet), (∀ e ∈ es, 0 ≤ e.x) →
      hpLoss es (damageEnemies p score bs es).2.2.2 =
        hitDmg p * ((spentCount (damageEnemies p score bs es).2.2.1 : Int) - spentCount bs) ∧
      spentCount bs ≤ spentCount (damageEnemies p score bs es).2.2.1 := by
  induction es with
  | nil => intro p score bs _; simp [damageEnemies, hpLoss]
  | cons e es ih =>
    intro p score bs hes
    obtain ⟨h1, h2, h3⟩ := damageEnemy_account p score bs e (hes e (List.mem_cons_self _ _))
    obtain ⟨i1, i2⟩ := ih (damageEnemy p score bs e).1 (damageEnemy p score bs e).2.1
      (damageEnemy p score bs e).2.2.1 (fun f hf => hes f (List.mem_cons_of_mem _ hf))
    simp only [damageEnemies, hpLoss, List.zip_cons_cons, List.map_cons, List.sum_cons]
    simp only [hpLoss] at i1
    rw [i1, h1, h3]
    refine ⟨by ring, by omega⟩

theorem countP_zip_self (es : List Enemy) :
    ((es.zip es).countP fun ea => decide (ea.1 ≠ ea.2)) = 0 := by
  induction es with
  | nil => rfl
  | cons e es ih =>
    rw [List.zip_cons_cons, List.countP_cons, ih]
    simp

/-- With a bullet already at the sentinel the damage pass changes nothing. -/
theorem damageEnemies_spent (es : List Enemy) :
    ∀ (p : Player) (score : Int) (b : Bullet), b.x = -100 → (∀ e ∈ es, 0 ≤ e.x) →
      damageEnemies p score [b] es = (p, score, [b], es) := by
  induction es with
  | nil => intro p score b _ _; rfl
  | cons e es ih =>
    intro p score b hb hes
    have hx := hes e (List.mem_cons_self _ _)
    have hone : damageEnemy p score [b] e = (p, score, [b], e) := by
      by_cases ha : 0 < e.hp
      · rw [damageEnemy_single p score e b ha, (spent_out_of_reach e b hx hb).2]
        rfl
      · simp only [damageEnemy, Enemy.isAlive_dead e (by omega), if_true]
    simp only [damageEnemies, hone]
    rw [ih p score b hb (fun f hf => hes f (List.mem_cons_of_mem _ hf))]

/-- One bullet alone changes at most one enemy in the damage pass. -/
theorem damageEnemies_one (es : List Enemy) :
    ∀ (p : Player) (score : Int) (b : Bullet), (∀ e ∈ es, 0 ≤ e.x) →
      ((es.zip (damageEnemies p score [b] es).2.2.2).countP fun ea => decide (ea.1 ≠ ea.2)) ≤
        1 := by
  induction es with
  | nil => intro p score b _; simp [damageEnemies]
  | cons e es ih =>
    intro p score b hes
    have hx := hes e (List.mem_cons_self _ _)
    have hes2 : ∀ f ∈ es, 0 ≤ f.x := fun f hf => hes f (List.mem_cons_of_mem _ hf)
    by_cases ha : 0 < e.hp
    · by_cases hq : qualifies e b = true
      · have hone := damageEnemy_single p score e b ha
        rw [if_pos hq] at hone
        simp only [damageEnemies, hone]
        rw [damageEnemies_spent es _ _ _ rfl hes2]
        simp only [List.zip_cons_cons, List.countP_cons, countP_zip_self, zero_add]
        exact ite_one_le _
      · have hone := damageEnemy_single p score e b ha
        rw [if_neg hq] at hone
        simp only [damageEnemies, hone, List.zip_cons_cons, List.countP_cons, ne_eq,
          not_true_eq_false, decide_False, Bool.false_eq_true, if_false, add_zero]
        exact ih p score b hes2
    · have hone : damageEnemy p score [b] e = (p, score, [b], e) := by
        simp only [damageEnemy, Enemy.isAlive_dead e (by omega), if_true]
      simp only [damageEnemies, hone, List.zip_cons_cons, List.countP_cons, ne_eq,
        not_true_eq_false, decide_False, Bool.false_eq_true, if_false, add_zero]
      exact ih p score b hes2

/-- Claim C27. In the damage pass over enemies that are inside the arena, the
hit points the enemies lose add up to the damage times the number of bullets
the pass moves to the sentinel `x = -100`: every application of damage spends
one bullet, and a bullet is spent once. A bullet at the sentinel is out of
Manhattan distance 1 of every footprint cell of such an enemy; a pass with one
bullet changes at most one enemy; and within one enemy the footprint loops
apply the damage once, however many cells are in reach. -/
theorem C27_bullet_hits_once (p : Player) (score : Int) (bs : List Bullet) (es : List Enemy)
    (hes : ∀ e ∈ es, e.inArena) :
    (hpLoss es (damageEnemies p score bs es).2.2.2 =
      hitDmg p * ((spentCount (damageEnemies p score bs es).2.2.1 : Int) - spentCount bs) ∧
      spentCount bs ≤ spentCount (damageEnemies p score bs es).2.2.1) ∧
    (∀ (e : Enemy) (b : Bullet), e.inArena → b.x = -100 →
      ¬ inReach e b ∧ qualifies e b = false) ∧
    (∀ b : Bullet,
      ((es.zip (damageEnemies p score [b] es).2.2.2).countP fun ea => decide (ea.1 ≠ ea.2)) ≤
        1) ∧
    (∀ (s : Scan) (b : Bullet) (cs : List (Int × Int)),
      (hitCells s b false cs).1.enemy.hp =
        (if cs.any (fun c => withinOne s.enemy b c) = true then s.enemy.hp - hitDmg s.player
          else s.enemy.hp) ∧
      (hitCells s b false cs).2.1 =
        (if cs.any (fun c => withinOne s.enemy b c) = true then { b with x := -100 } else b)) := by
  have hx : ∀ e ∈ es, 0 ≤ e.x := fun e he => (hes e he).1
  refine ⟨damageEnemies_account es p score bs hx, ?_, fun b => damageEnemies_one es p score b hx,
    ?_⟩
  · intro e b he hb
    exact spent_out_of_reach e b he.1 hb
  · intro s b cs
    rw [hitCells_eq]
    split_ifs
    · rw [hitApply_enemy, hitApply_bullet]
      exact ⟨rfl, rfl⟩
    · exact ⟨rfl, rfl⟩

theorem C27_bullet_hits_once_witness :
    ((([Enemy.new 10 5, Enemy.new 11 5] : List Enemy).zip
      (damageEnemies { x := 29, y := 16 } 0 [{ x := 10, y := 5, dx := 0, dy := -1, symbol := 'o' }]
        [Enemy.new 10 5, Enemy.new 11 5]).2.2.2).countP fun ea => decide (ea.1 ≠ ea.2)) ≤ 1 :=
  (C27_bullet_hits_once { x := 29, y := 16 } 0
    [{ x := 10, y := 5, dx := 0, dy := -1, symbol := 'o' }] [Enemy.new 10 5, Enemy.new 11 5]
    (by
      intro e he
      simp only [List.mem_cons, List.mem_singleton, List.not_mem_nil, or_false] at he
      rcases he with rfl | rfl <;> exact ⟨by decide, by decide, by decide, by decide⟩)).2.2.1 { x := 10, y := 5, dx := 0, dy := -1, symbol := 'o' }


end DeffDred
